import Mathlib

/-!
# Verification of the incremental crawl-and-ingest engine (`sync.go`)

A shallow embedding of the functions of `src/sync.go` that the specification
talks about, followed by theorems that settle the specification's claims.

Conventions of the embedding

* Go `string` values are modelled by `String`; the regular-expression engine
  works on the list of runes (`List Char`) of a string, as Go's `regexp` does.
* Go `int` / `int64` values are modelled by `Int`; the arithmetic of the source
  on values that come from outside (the components of a ban notice, the hour
  offset and the stored `posted`) is wrapped with `wrapInt64`.  The record
  count of `importPage` is a sum of slice lengths and cannot overflow.
* The network and the database are external.  Responses of the two remote
  endpoints are arbitrary functions of the request number and the request
  (`Env`).  The state threaded through the program is a pair of the network
  state (`Net`: the requests sent so far and logs of the calls made) and the
  relational store (`Store`).
* Go `error` values are modelled by their message (`String`), `nil` by `none`.
* Loops that the source does not bound (`run`, the ban recursion of
  `getPagesByPrev`) take a fuel argument; running out of fuel is a result of
  its own, never confused with a return of the program.
* `time.Sleep` has no effect on the state and is left out.
-/

namespace EhSync

/-! ## Go library functions used by the source -/

/-- Two's-complement wrap-around of a mathematical integer to 64 bits (Go `int`,
`int64` on a 64-bit platform). -/
def wrapInt64 (x : Int) : Int := (x + 2 ^ 63) % 2 ^ 64 - 2 ^ 63

/-- Regular-expression class `\d` (RE2: ASCII digits only). -/
def isDigit (c : Char) : Bool := decide ('0' ≤ c) && decide (c ≤ '9')

/-- Regular-expression class `\s` (RE2: `[\t\n\f\r ]`). -/
def isSpace (c : Char) : Bool :=
  c == ' ' || c == '\t' || c == '\n' || c == Char.ofNat 12 || c == '\r'

/-- Regular-expression class `.` without the `s` flag: any rune but newline. -/
def isDot (c : Char) : Bool := c != '\n'

/-- Regular-expression class `[0-9a-f]`. -/
def isHexLower (c : Char) : Bool :=
  (decide ('0' ≤ c) && decide (c ≤ '9')) || (decide ('a' ≤ c) && decide (c ≤ 'f'))

/-- A literal rune of a pattern compiled under `(?i)`: the rune itself, its other
ASCII case, and the two non-ASCII runes that simple case folding attaches to an
ASCII letter (U+017F to `s`, U+212A to `k`). -/
def foldEq (p x : Char) : Bool :=
  x == p.toLower || x == p.toUpper ||
    (p.toLower == 's' && x == Char.ofNat 0x17F) ||
    (p.toLower == 'k' && x == Char.ofNat 0x212A)

/-- Outcome of the digit loop of `strconv.ParseUint(s, 10, 64)`. -/
inductive UintOutcome where
  | ok (n : Nat)
  | outOfRange
  | badFormat
  deriving DecidableEq, Repr

/-- The digit loop of `strconv.ParseUint(s, 10, 64)`, accumulator first: it
stops with a format error at the first byte that is not an ASCII digit and with
a range error as soon as the value exceeds `2^64 - 1` (the bytes after that
point are not looked at). -/
def parseUintFrom : Nat → List Char → UintOutcome
  | acc, [] => .ok acc
  | acc, c :: t =>
    if isDigit c then
      if acc * 10 + (c.toNat - 48) > 2 ^ 64 - 1 then .outOfRange
      else parseUintFrom (acc * 10 + (c.toNat - 48)) t
    else .badFormat

/-- Outcome of `strconv.ParseInt(s, 10, 64)`: a value, or a range error that
carries the clamped value Go returns with it, or a format error (value 0). -/
inductive ParseOutcome where
  | ok (v : Int)
  | outOfRange (clamped : Int)
  | badFormat
  deriving DecidableEq, Repr

/-- Go `strconv.ParseInt(s, 10, 64)`: an optional sign followed by one or more
ASCII digits; a value outside the 64-bit range is a range error. -/
def parseInt64 (s : String) : ParseOutcome :=
  let body : Bool × List Char :=
    match s.toList with
    | '+' :: t => (false, t)
    | '-' :: t => (true, t)
    | cs => (false, cs)
  match body with
  | (_, []) => .badFormat
  | (neg, cs) =>
    match parseUintFrom 0 cs with
    | .badFormat => .badFormat
    | .outOfRange => if neg then .outOfRange (-(2 ^ 63)) else .outOfRange (2 ^ 63 - 1)
    | .ok n =>
      if neg then
        if n > 2 ^ 63 then .outOfRange (-(2 ^ 63)) else .ok (-(n : Int))
      else
        if n ≥ 2 ^ 63 then .outOfRange (2 ^ 63 - 1) else .ok (n : Int)

/-- The value half of the pair returned by `strconv.ParseInt` / `strconv.Atoi`. -/
def ParseOutcome.value : ParseOutcome → Int
  | .ok v => v
  | .outOfRange c => c
  | .badFormat => 0

/-- The error half of the pair: `true` when `err != nil`. -/
def ParseOutcome.isErr : ParseOutcome → Bool
  | .ok _ => false
  | _ => true

/-- Go `strconv.Atoi(s)` on a 64-bit platform: same results as `ParseInt(s, 10, 0)`. -/
def atoi (s : String) : ParseOutcome := parseInt64 s

/-! ## A backtracking matcher for the regular expressions of the source

Go's `regexp` returns the leftmost match and, among the matches that start
there, the one a backtracking search finds first.  The two patterns of the
source only repeat single-rune classes, so the abstract syntax has repetition
over classes only. -/

/-- Abstract syntax of the patterns used in `sync.go`. -/
inductive Regex where
  | empty : Regex
  | cls (p : Char → Bool) : Regex
  | cat (a b : Regex) : Regex
  | quest (a : Regex) : Regex
  | star (p : Char → Bool) : Regex
  | lazyStar (p : Char → Bool) : Regex
  | group (i : Nat) (a : Regex) : Regex

/-- Submatch texts, indexed by group number; index 0 is the whole match. -/
abbrev Caps := List (List Char)

/-- Greedy `p*` followed by the continuation `k`: longest repetition first. -/
def starGreedy {α : Type} (p : Char → Bool) (k : List Char → Option α) : List Char → Option α
  | [] => k []
  | c :: t =>
    if p c then
      match starGreedy p k t with
      | some r => some r
      | none => k (c :: t)
    else k (c :: t)

/-- Non-greedy `p*?` followed by the continuation `k`: shortest repetition first. -/
def starLazy {α : Type} (p : Char → Bool) (k : List Char → Option α) : List Char → Option α
  | [] => k []
  | c :: t =>
    match k (c :: t) with
    | some r => some r
    | none => if p c then starLazy p k t else none

/-- The text consumed between the input `s` and its suffix `rest`. -/
def consumed (s rest : List Char) : List Char := s.take (s.length - rest.length)

/-- Backtracking match of a pattern at the head of `s`, continuation-passing:
`k` receives the remaining input and the submatches recorded so far. -/
def Regex.run {α : Type} : Regex → List Char → Caps → (List Char → Caps → Option α) → Option α
  | .empty, s, c, k => k s c
  | .cls p, s, c, k =>
    match s with
    | [] => none
    | x :: t => if p x then k t c else none
  | .cat a b, s, c, k => a.run s c (fun s1 c1 => b.run s1 c1 k)
  | .quest a, s, c, k =>
    match a.run s c k with
    | some r => some r
    | none => k s c
  | .star p, s, c, k => starGreedy p (fun s1 => k s1 c) s
  | .lazyStar p, s, c, k => starLazy p (fun s1 => k s1 c) s
  | .group i a, s, c, k => a.run s c (fun s1 c1 => k s1 (c1.set i (consumed s s1)))

/-- Concatenation of a list of patterns. -/
def Regex.seq : List Regex → Regex
  | [] => .empty
  | r :: rs => .cat r (Regex.seq rs)

/-- A literal string, matched exactly. -/
def Regex.lit (s : String) : Regex := Regex.seq (s.toList.map (fun p => Regex.cls (fun x => x == p)))

/-- A literal string under the flag `(?i)`. -/
def Regex.litFold (s : String) : Regex := Regex.seq (s.toList.map (fun p => Regex.cls (foldEq p)))

/-- The pattern `p+` for a class `p`. -/
def Regex.plus (p : Char → Bool) : Regex := .cat (.cls p) (.star p)

/-- The pattern `p{n}` for a class `p`. -/
def Regex.rep (n : Nat) (p : Char → Bool) : Regex := Regex.seq (List.replicate n (.cls p))

/-- A match of a pattern with `n` groups anchored at the head of `s`: the
submatches (whole match at index 0) and the input that follows the match. -/
def matchAt (re : Regex) (n : Nat) (s : List Char) : Option (Caps × List Char) :=
  re.run s (List.replicate (n + 1) []) (fun rest c => some (c.set 0 (consumed s rest), rest))

/-- Leftmost match: the first start position, scanning left to right, at which
the pattern matches. -/
def findFirst (re : Regex) (n : Nat) : List Char → Option (Caps × List Char)
  | [] => matchAt re n []
  | c :: t =>
    match matchAt re n (c :: t) with
    | some r => some r
    | none => findFirst re n t

/-- Go `(*Regexp).FindStringSubmatch`: the submatches of the leftmost match, `none`
for Go's `nil`. -/
def findStringSubmatch (re : Regex) (n : Nat) (body : String) : Option (List String) :=
  (findFirst re n body.toList).map (fun r => r.1.map String.mk)

/-- Successive non-overlapping matches, each search resuming where the previous
match ended (after one more rune when that match was empty). -/
def findAllFrom (re : Regex) (n : Nat) : Nat → List Char → List Caps
  | 0, _ => []
  | fuel + 1, s =>
    match findFirst re n s with
    | none => []
    | some (caps, rest) =>
      if caps.headD [] = [] then
        caps :: (match rest with
          | [] => []
          | _ :: t => findAllFrom re n fuel t)
      else caps :: findAllFrom re n fuel rest

/-- Go `(*Regexp).FindAllStringSubmatch(body, -1)`. -/
def findAllStringSubmatch (re : Regex) (n : Nat) (body : String) : List (List String) :=
  (findAllFrom re n (body.length + 1) body.toList).map (fun c => c.map String.mk)

/-! ## Ban detection -/

/-- One optional component `(?:(\d+)\s*unit s?)?` with its digits in group `i`. -/
def banComponent (i : Nat) (unit : String) : Regex :=
  Regex.seq [.group i (Regex.plus isDigit), .star isSpace, Regex.litFold unit,
    .quest (.cls (foldEq 's'))]

/-- The last group of the pattern, `(?:(?:and\s*)?(\d+)\s*seconds?)?`. -/
def secondsGroup : Regex :=
  .quest (.cat (.quest (.cat (Regex.litFold "and") (.star isSpace))) (banComponent 4 "second"))

/-- What follows the opening words in the pattern:
`\s*(?:(\d+)\s*days?)?\s*(?:(\d+)\s*hours?)?\s*(?:(\d+)\s*minutes?)?\s*(?:(?:and\s*)?(\d+)\s*seconds?)?` -/
def banTail : Regex :=
  Regex.seq [.star isSpace,
    .quest (banComponent 1 "day"), .star isSpace,
    .quest (banComponent 2 "hour"), .star isSpace,
    .quest (banComponent 3 "minute"), .star isSpace,
    secondsGroup]

/-- The pattern of `extractBanCooldown`:
`(?i)The ban expires in\s*(?:(\d+)\s*days?)?\s*(?:(\d+)\s*hours?)?\s*(?:(\d+)\s*minutes?)?\s*(?:(?:and\s*)?(\d+)\s*seconds?)?` -/
def banRe : Regex := .cat (Regex.litFold "The ban expires in") banTail

/-- One of the four `if matches[i] != ""` blocks: `strconv.Atoi`, and 0 when it
reports an error. -/
def banField (m : String) : Int :=
  if m != "" then
    (if (atoi m).isErr then 0 else (atoi m).value)
  else 0

/-- Function `extractBanCooldown(body)`: the pair (banned, seconds to wait). -/
def extractBanCooldown (body : String) : Bool × Int :=
  match findStringSubmatch banRe 4 body with
  | some found =>
    if found.length > 0 then
      let days := banField (found.getD 1 "")
      let hours := banField (found.getD 2 "")
      let minutes := banField (found.getD 3 "")
      let seconds := banField (found.getD 4 "")
      let totalWait := wrapInt64 (wrapInt64 (wrapInt64 (wrapInt64 (days * 86400)
        + wrapInt64 (hours * 3600)) + wrapInt64 (minutes * 60)) + seconds)
      if totalWait > 0 then (true, wrapInt64 (totalWait + 10)) else (false, 0)
    else (false, 0)
  | none => (false, 0)

/-! ## Listing-page parsing -/

structure PageEntry where
  GID : String
  Token : String
  Posted : String
  deriving DecidableEq, Repr

/-- The pattern of `parsePageEntries`:
`gid=(\d+).*?t=([0-9a-f]{10}).*?>(\d{4}-\d{2}-\d{2}\s\d{2}:\d{2})<` -/
def pageRe : Regex :=
  Regex.seq [Regex.lit "gid=", .group 1 (Regex.plus isDigit), .lazyStar isDot,
    Regex.lit "t=", .group 2 (Regex.rep 10 isHexLower), .lazyStar isDot, Regex.lit ">",
    .group 3 (Regex.seq [Regex.rep 4 isDigit, Regex.lit "-", Regex.rep 2 isDigit, Regex.lit "-",
      Regex.rep 2 isDigit, .cls isSpace, Regex.rep 2 isDigit, Regex.lit ":", Regex.rep 2 isDigit]),
    Regex.lit "<"]

/-- The loop of `parsePageEntries`: `seen` holds the keys of `uniqueMap` that are
`true`, `list` the entries appended so far. -/
def parseLoop : List (List String) → List String → List PageEntry → List PageEntry
  | [], _, list => list
  | m :: ms, seen, list =>
    if m.length ≥ 4 then
      let gid := m.getD 1 ""
      if !(seen.contains gid) then
        parseLoop ms (gid :: seen) (list ++ [PageEntry.mk gid (m.getD 2 "") (m.getD 3 "")])
      else parseLoop ms seen list
    else parseLoop ms seen list

/-- Function `parsePageEntries(body)`; the second component is the returned error
(`none` for `nil`). -/
def parsePageEntries (body : String) : List PageEntry × Option String :=
  (parseLoop (findAllStringSubmatch pageRe 3 body) [] [], none)

/-! ## Records of the metadata API -/

structure TorrentInfo where
  Hash : String
  Added : String
  Name : String
  Tsize : String
  Fsize : String
  deriving DecidableEq, Repr

structure GalleryMetadata where
  Gid : Int
  Token : String
  ArchiverKey : String
  Title : String
  TitleJpn : String
  Category : String
  Thumb : String
  Uploader : String
  Posted : String
  Filecount : String
  Filesize : Int
  Expunged : Bool
  Rating : String
  Torrentcount : String
  Torrents : List TorrentInfo
  Tags : List String
  ParentGid : String
  ParentKey : String
  FirstGid : String
  FirstKey : String
  deriving DecidableEq, Repr

structure APIResponse where
  Gmetadata : List GalleryMetadata
  deriving DecidableEq, Repr

/-! ## The relational store

The schema and the database engine are not part of `sync.go`; the tables and
the statements the source sends are modelled from the specification's data
model (section 3) and from the column lists of the statements themselves. -/

/-- Modelled from the spec: an error of the database driver.  `noRows` is
`sql.ErrNoRows`; `duplicateEntry` is the unique-key violation whose message
contains "Duplicate entry"; `failure` is any other error. -/
inductive DbError where
  | noRows
  | duplicateEntry (msg : String)
  | failure (msg : String)
  deriving DecidableEq, Repr

/-- The message of a driver error (`err.Error()`). -/
def DbError.text : DbError → String
  | .noRows => "sql: no rows in result set"
  | .duplicateEntry m => m
  | .failure m => m

/-- The test `strings.Contains(err.Error(), "Duplicate entry")`. -/
def DbError.isDuplicateEntry : DbError → Bool
  | .duplicateEntry _ => true
  | _ => false

/-- Modelled from the spec: a row of table `gallery` (the Entity), with the
columns of the `INSERT INTO gallery` statement. -/
structure GalleryRow where
  gid : Int
  token : String
  archiver_key : String
  title : String
  title_jpn : String
  category : String
  thumb : String
  uploader : String
  posted : Int
  filecount : Int
  filesize : Int
  expunged : Int
  rating : String
  torrentcount : Int
  root_gid : Int
  bytorrent : Int
  deriving DecidableEq, Repr

/-- Modelled from the spec: a row of table `torrent` (the Sub-entity), with the
columns of the `INSERT INTO torrent` statement. -/
structure TorrentRow where
  gid : Int
  name : String
  hash : String
  addedstr : String
  fsizestr : String
  uploader : String
  expunged : Int
  deriving DecidableEq, Repr

/-- Modelled from the spec: a row of table `tag`; `id` is generated by the store. -/
structure TagRow where
  id : Int
  name : String
  deriving DecidableEq, Repr

/-- Modelled from the spec: the contents of the store.  Table `gallery` is keyed
by `gid`, tag names are unique, table `gid_tid` holds the (Entity id, Tag id)
links with a unique pair, table `torrent` is keyed by (parent id, hash);
`tagSeq` is the last generated tag id. -/
structure Store where
  gallery : List GalleryRow
  torrent : List TorrentRow
  tag : List TagRow
  gid_tid : List (Int × Int)
  tagSeq : Int
  deriving DecidableEq, Repr

/-- Modelled from the spec: `INSERT INTO gallery (...) VALUES (...) ON DUPLICATE
KEY UPDATE ...`: a row with the same `gid` gets every column of the statement's
update list (all but `gid` and `bytorrent`) overwritten; otherwise the row is
added. -/
def Store.upsertGallery (db : Store) (row : GalleryRow) : Except DbError Store :=
  if db.gallery.any (fun r => r.gid == row.gid) then
    .ok { db with gallery := db.gallery.map (fun r =>
      if r.gid == row.gid then { row with bytorrent := r.bytorrent } else r) }
  else .ok { db with gallery := db.gallery ++ [row] }

/-- Modelled from the spec: `INSERT INTO torrent (...) VALUES (...)`; a row with
the same hash under the same parent id is a unique-key violation. -/
def Store.insertTorrent (db : Store) (row : TorrentRow) : Except DbError Store :=
  if db.torrent.any (fun r => r.gid == row.gid && r.hash == row.hash) then
    .error (.duplicateEntry "Error 1062: Duplicate entry for key of torrent")
  else .ok { db with torrent := db.torrent ++ [row] }

/-- Modelled from the spec: `SELECT id FROM tag WHERE name = ?`. -/
def Store.queryTagId (db : Store) (name : String) : Except DbError Int :=
  match db.tag.find? (fun r => r.name == name) with
  | some r => .ok r.id
  | none => .error .noRows

/-- Modelled from the spec: `INSERT INTO tag (name) VALUES (?)` with the
generated key (`LastInsertId`); an existing name is a unique-key violation. -/
def Store.insertTag (db : Store) (name : String) : Except DbError (Int × Store) :=
  if db.tag.any (fun r => r.name == name) then
    .error (.duplicateEntry "Error 1062: Duplicate entry for key of tag")
  else .ok (db.tagSeq + 1,
    { db with tag := db.tag ++ [TagRow.mk (db.tagSeq + 1) name], tagSeq := db.tagSeq + 1 })

/-- Modelled from the spec: `INSERT INTO gid_tid (gid, tid) VALUES (?, ?)`; an
existing pair is a unique-key violation. -/
def Store.insertLink (db : Store) (gid tid : Int) : Except DbError Store :=
  if db.gid_tid.contains (gid, tid) then
    .error (.duplicateEntry "Error 1062: Duplicate entry for key of gid_tid")
  else .ok { db with gid_tid := db.gid_tid ++ [(gid, tid)] }

/-- The first row of a list that is greatest for the key `f` (the row an
`ORDER BY f DESC LIMIT 1` returns; among equal keys the store may return any
row, the model returns the earliest). -/
def maxRowBy {α : Type} (f : α → Int) : List α → Option α
  | [] => none
  | r :: rs =>
    match maxRowBy f rs with
    | none => some r
    | some m => if f m > f r then some m else some r

/-- Modelled from the spec: `SELECT gid FROM gallery ORDER BY gid DESC LIMIT 1`. -/
def Store.queryLastGid (db : Store) : Except DbError Int :=
  match maxRowBy GalleryRow.gid db.gallery with
  | some r => .ok r.gid
  | none => .error .noRows

/-- Modelled from the spec: `SELECT posted FROM gallery ORDER BY posted DESC LIMIT 1`. -/
def Store.queryLatestPosted (db : Store) : Except DbError Int :=
  match maxRowBy GalleryRow.posted db.gallery with
  | some r => .ok r.posted
  | none => .error .noRows

/-- Modelled from the spec: `SELECT gid FROM gallery WHERE posted <= ? ORDER BY
posted DESC LIMIT 1`. -/
def Store.queryGidPostedAtMost (db : Store) (threshold : Int) : Except DbError Int :=
  match maxRowBy GalleryRow.posted (db.gallery.filter (fun r => decide (r.posted ≤ threshold))) with
  | some r => .ok r.gid
  | none => .error .noRows

/-! ## Start cursor -/

/-- Method `(*Sync).getLastGid`: the id and the error it returns. -/
def getLastGid (db : Store) : Int × Option String :=
  match db.queryLastGid with
  | .error .noRows => (0, none)
  | .error e => (0, some e.text)
  | .ok gid => (gid, none)

/-- Method `(*Sync).getOffsetGid`: the id and the error it returns.  The
threshold is computed in `int64`. -/
def getOffsetGid (db : Store) (offset : Int) : Int × Option String :=
  match db.queryLatestPosted with
  | .error e => (0, some e.text)
  | .ok latestPosted =>
    let threshold := wrapInt64 (latestPosted - wrapInt64 (offset * 3600))
    match db.queryGidPostedAtMost threshold with
    | .error .noRows => getLastGid db
    | .error e => (0, some e.text)
    | .ok offsetGid => (offsetGid, none)

/-! ## The network -/

/-- What one HTTP exchange gives the program: an error of `client.Do`, or a
response with its status code and the result of reading its body. -/
inductive HttpResult where
  | transportError (err : String)
  | response (status : Int) (body : Except String String)

/-- The configuration and the environment of one run. `listing k prev` is the
answer to the `k`-th listing request, sent with cursor `prev`; `api k gidlist`
is the answer to the `k`-th request to the metadata API, sent with `gidlist`;
`unmarshal` is `json.Unmarshal` into an `APIResponse`. -/
structure Env where
  RetryCount : Int
  Cooldown : Int
  listing : Nat → String → HttpResult
  api : Nat → List (Int × String) → HttpResult
  unmarshal : String → Except String APIResponse

/-- The network side of the program state.  `listingReqs` and `apiReqs` are the
requests sent so far, oldest first; `fetchCalls` logs the argument of every call
of `getMetadatas`; `cooldowns` logs the argument of every call of
`runBanCooldown`. -/
structure Net where
  listingReqs : List String
  apiReqs : List (List (Int × String))
  fetchCalls : List (List PageEntry)
  cooldowns : List Int

/-- Results of a modelled call: it returned, it panicked (nil pointer
dereference), or the fuel of the model ran out before it returned. -/
inductive Exec (α : Type) where
  | ret (a : α)
  | panic
  | timeout

/-! ## Page fetching -/

/-- The retry loop of `getPagesByPrev` (`for attempt := 0; attempt <
s.config.RetryCount; attempt++`), with the remaining number of attempts and the
current values of `bodyStr` and `fetchErr`. -/
def fetchAttempts (env : Env) (prev : String) :
    Nat → String → Option String → Net → String × Option String × Net
  | 0, bodyStr, fetchErr, net => (bodyStr, fetchErr, net)
  | n + 1, bodyStr, fetchErr, net =>
    let net1 := { net with listingReqs := net.listingReqs ++ [prev] }
    match env.listing net.listingReqs.length prev with
    | .transportError err => fetchAttempts env prev n bodyStr (some err) net1
    | .response status body =>
      if status ≠ 200 then
        fetchAttempts env prev n bodyStr (some ("HTTP status code: " ++ toString status)) net1
      else
        match body with
        | .error err => fetchAttempts env prev n bodyStr (some err) net1
        | .ok b => (b, fetchErr, net1)

/-- Method `(*Sync).getPagesByPrev`; one unit of fuel per call (the function calls
itself after a ban cooldown). -/
def getPagesByPrev (env : Env) :
    Nat → String → Net → Option ((List PageEntry × Option String) × Net)
  | 0, _, _ => none
  | fuel + 1, prev, net =>
    match fetchAttempts env prev env.RetryCount.toNat "" none net with
    | (_, some fetchErr, net1) => some (([], some fetchErr), net1)
    | (bodyStr, none, net1) =>
      if (extractBanCooldown bodyStr).1 then
        getPagesByPrev env fuel prev
          { net1 with cooldowns := net1.cooldowns ++ [(extractBanCooldown bodyStr).2] }
      else some (parsePageEntries bodyStr, net1)

/-! ## Metadata API -/

/-- The `gidlist` of the request body: entries whose id `strconv.Atoi` accepts. -/
def payloadGidlist : List PageEntry → List (Int × String)
  | [] => []
  | entry :: rest =>
    if (atoi entry.GID).isErr then payloadGidlist rest
    else ((atoi entry.GID).value, entry.Token) :: payloadGidlist rest

/-- The retry loop of `getMetadatas`, with the remaining number of attempts; the
result is the final value of `apiResp` (`none` for `nil`). -/
def apiAttempts (env : Env) (gidlist : List (Int × String)) :
    Nat → Net → Option APIResponse × Net
  | 0, net => (none, net)
  | n + 1, net =>
    let net1 := { net with apiReqs := net.apiReqs ++ [gidlist] }
    match env.api net.apiReqs.length gidlist with
    | .transportError _ => apiAttempts env gidlist n net1
    | .response status body =>
      if status ≠ 200 then apiAttempts env gidlist n net1
      else
        match body with
        | .error _ => apiAttempts env gidlist n net1
        | .ok b =>
          match env.unmarshal b with
          | .error _ => apiAttempts env gidlist n net1
          | .ok result => (some result, net1)

/-- Method `(*Sync).getMetadatas`: the response and the error it returns.
`json.Marshal` and `http.NewRequest` cannot fail on this payload and this fixed
URL, so their error branches are left out. -/
def getMetadatas (env : Env) (gidlist : List PageEntry) (net : Net) :
    (Option APIResponse × Option String) × Net :=
  match apiAttempts env (payloadGidlist gidlist) env.RetryCount.toNat
      { net with fetchCalls := net.fetchCalls ++ [gidlist] } with
  | (none, net1) =>
    ((none, some ("failed to get valid API response after " ++ toString env.RetryCount
      ++ " attempts")), net1)
  | (some apiResp, net1) => ((some apiResp, none), net1)

/-! ## Database insert helpers -/

/-- One rune of a string quoted by Go `strconv.Quote`: the double quote and the
backslash are escaped with a backslash; the control characters 7 to 13 are
written `\a \b \t \n \v \f \r`; any other rune below 32, and 127, is written
`\x` with two hexadecimal digits; every other rune is taken to be printable
and stands for itself (Go escapes the runes outside ASCII that its tables list
as not printable). -/
def goQuoteRune (c : Char) : List Char :=
  if c.toNat = 34 ∨ c.toNat = 92 then [Char.ofNat 92, c]
  else if c.toNat = 7 then [Char.ofNat 92, 'a']
  else if c.toNat = 8 then [Char.ofNat 92, 'b']
  else if c.toNat = 9 then [Char.ofNat 92, 't']
  else if c.toNat = 10 then [Char.ofNat 92, 'n']
  else if c.toNat = 11 then [Char.ofNat 92, 'v']
  else if c.toNat = 12 then [Char.ofNat 92, 'f']
  else if c.toNat = 13 then [Char.ofNat 92, 'r']
  else if c.toNat < 32 ∨ c.toNat = 127 then
    [Char.ofNat 92, 'x', Nat.digitChar (c.toNat / 16), Nat.digitChar (c.toNat % 16)]
  else [c]

/-- Go `strconv.Quote(s)`. -/
def goQuote (s : String) : String :=
  String.mk ([Char.ofNat 34] ++ (s.toList.map goQuoteRune).flatten ++ [Char.ofNat 34])

/-- The message of the error `strconv.ParseInt` returns. -/
def ParseOutcome.errText (s : String) : ParseOutcome → String
  | .ok _ => ""
  | .outOfRange _ => "strconv.ParseInt: parsing " ++ goQuote s ++ ": value out of range"
  | .badFormat => "strconv.ParseInt: parsing " ++ goQuote s ++ ": invalid syntax"

/-- The row `saveGallery` sends to the store for a record whose `posted` parsed
to `postedInt`. -/
def galleryRow (gallery : GalleryMetadata) (postedInt : Int) : GalleryRow :=
  { gid := gallery.Gid
    token := gallery.Token
    archiver_key := gallery.ArchiverKey
    title := gallery.Title
    title_jpn := gallery.TitleJpn
    category := gallery.Category
    thumb := gallery.Thumb
    uploader := gallery.Uploader
    posted := postedInt
    filecount := (atoi gallery.Filecount).value
    filesize := gallery.Filesize
    expunged := if gallery.Expunged then 1 else 0
    rating := gallery.Rating
    torrentcount := (atoi gallery.Torrentcount).value
    root_gid := if gallery.ParentGid != "" then (atoi gallery.ParentGid).value else 0
    bytorrent := 0 }

/-- Method `(*Sync).saveGallery`: the error it returns and the store it leaves.
Preparing the statement never fails in the modelled store. -/
def saveGallery (gallery : GalleryMetadata) (db : Store) : Option String × Store :=
  match parseInt64 gallery.Posted with
  | .ok postedInt =>
    match db.upsertGallery (galleryRow gallery postedInt) with
    | .error e =>
      (some ("inserting gallery gid " ++ toString gallery.Gid ++ ": " ++ e.text), db)
    | .ok db1 => (none, db1)
  | o =>
    (some ("parsing posted time for gid " ++ toString gallery.Gid ++ ": "
      ++ o.errText gallery.Posted), db)

/-- Method `(*Sync).saveTorrent`: the error it returns and the store it leaves. -/
def saveTorrent (gid : Int) (torrent : TorrentInfo) (uploader : String) (db : Store) :
    Option String × Store :=
  match db.insertTorrent
      { gid := gid, name := torrent.Name, hash := torrent.Hash, addedstr := torrent.Added,
        fsizestr := torrent.Fsize, uploader := uploader, expunged := 0 } with
  | .error e => (some ("inserting torrent for gid " ++ toString gid ++ ": " ++ e.text), db)
  | .ok db1 => (none, db1)

/-- The last statement of `saveTag`: the insert into `gid_tid`. -/
def linkTag (gid : Int) (tagName : String) (tagID : Int) (db : Store) : Option String × Store :=
  match db.insertLink gid tagID with
  | .error e =>
    if !e.isDuplicateEntry then
      (some ("inserting gid_tid for gid " ++ toString gid ++ " and tag " ++ tagName ++ ": "
        ++ e.text), db)
    else (none, db)
  | .ok db1 => (none, db1)

/-- Method `(*Sync).saveTag`: the error it returns and the store it leaves. -/
def saveTag (gid : Int) (tagName : String) (db : Store) : Option String × Store :=
  match db.queryTagId tagName with
  | .error .noRows =>
    match db.insertTag tagName with
    | .error e =>
      if !e.isDuplicateEntry then
        (some ("inserting tag " ++ tagName ++ ": " ++ e.text), db)
      else
        match db.queryTagId tagName with
        | .error e2 =>
          (some ("querying tag " ++ tagName ++ " after duplicate error: " ++ e2.text), db)
        | .ok tagID => linkTag gid tagName tagID db
    | .ok (lastID, db1) => linkTag gid tagName lastID db1
  | .error e => (some ("querying tag " ++ tagName ++ ": " ++ e.text), db)
  | .ok tagID => linkTag gid tagName tagID db

/-! ## Page import -/

/-- The body of the loop `for _, gallery := range apiResp.Gmetadata` of
`importPage`: the record, then its torrents, then its tags; an error of
`saveGallery` skips the record, errors of the other two are logged only. -/
def saveRecord (db : Store) (gallery : GalleryMetadata) : Store :=
  match saveGallery gallery db with
  | (some _, db1) => db1
  | (none, db1) =>
    let db2 := gallery.Torrents.foldl
      (fun d t => (saveTorrent gallery.Gid t gallery.Uploader d).2) db1
    gallery.Tags.foldl (fun d tagName => (saveTag gallery.Gid tagName d).2) db2

/-- The retry loop of `importPage` around `getMetadatas`, with the remaining
number of attempts and the current values of `apiResp` and `err`. -/
def metadataRetry (env : Env) (batch : List PageEntry) :
    Nat → Option APIResponse × Option String → Net → (Option APIResponse × Option String) × Net
  | 0, cur, net => (cur, net)
  | n + 1, _, net =>
    match getMetadatas env batch net with
    | ((apiResp, none), net1) => ((apiResp, none), net1)
    | ((apiResp, some err), net1) => metadataRetry env batch n (apiResp, some err) net1

/-- The batch size of `importPage`. -/
def batchSize : Nat := 25

/-- The loop `for i := 0; i < len(entries); i += batchSize` of `importPage`, with
the current values of `i` and `pageAPIEntries`. -/
def importLoop (env : Env) (entries : List PageEntry) :
    Nat → Nat → Int → Net × Store → Exec (Int × (Net × Store))
  | 0, _, _, _ => .timeout
  | fuel + 1, i, pageAPIEntries, (net, db) =>
    if i < entries.length then
      let stop := if i + batchSize > entries.length then entries.length else i + batchSize
      let batch := (entries.take stop).drop i
      match metadataRetry env batch env.RetryCount.toNat (none, none) net with
      | ((_, some _), net1) => importLoop env entries fuel (i + batchSize) pageAPIEntries (net1, db)
      | ((none, none), _) => .panic
      | ((some apiResp, none), net1) =>
        if apiResp.Gmetadata.length = 0 then
          importLoop env entries fuel (i + batchSize) pageAPIEntries (net1, db)
        else
          importLoop env entries fuel (i + batchSize)
            (pageAPIEntries + apiResp.Gmetadata.length)
            (net1, apiResp.Gmetadata.foldl saveRecord db)
    else .ret (pageAPIEntries, (net, db))

/-- Method `(*Sync).importPage`: the count and the error (always `nil`) it returns, and
the state it leaves.  The loop runs at most `len(entries)` times. -/
def importPage (env : Env) (entries : List PageEntry) (st : Net × Store) :
    Exec ((Int × Option String) × (Net × Store)) :=
  match importLoop env entries (entries.length + 1) 0 0 st with
  | .ret (pageAPIEntries, st1) => .ret ((pageAPIEntries, none), st1)
  | .panic => .panic
  | .timeout => .timeout

/-! ## The controller -/

/-- The retry loop of `run` around `getPagesByPrev`, with the remaining number of
attempts and the current values of `pageEntries` and `err`; `none` when the
fuel given to `getPagesByPrev` runs out. -/
def pageRetry (env : Env) (fuel : Nat) (prev : String) :
    Nat → List PageEntry × Option String → Net → Option ((List PageEntry × Option String) × Net)
  | 0, cur, net => some (cur, net)
  | n + 1, _, net =>
    match getPagesByPrev env fuel prev net with
    | none => none
    | some ((pageEntries, none), net1) => some ((pageEntries, none), net1)
    | some ((pageEntries, some err), net1) => pageRetry env fuel prev n (pageEntries, some err) net1

/-- The `for` loop of `run` from one evaluation of its body on: `prev` is the
cursor.  The result is the error `run` returns after the loop. -/
def runLoop (env : Env) : Nat → String → Net × Store → Exec (Option String × (Net × Store))
  | 0, _, _ => .timeout
  | fuel + 1, prev, (net, db) =>
    match pageRetry env (fuel + 1) prev env.RetryCount.toNat ([], none) net with
    | none => .timeout
    | some ((_, some _), net1) => .ret (none, (net1, db))
    | some (([], none), net1) => .ret (none, (net1, db))
    | some ((first :: more, none), net1) =>
      match importPage env (first :: more) (net1, db) with
      | .ret (_, st2) => runLoop env fuel first.GID st2
      | .panic => .panic
      | .timeout => .timeout

/-- Method `(*Sync).run` for the command-line offset `offset`: the error it returns
and the state it leaves.  The initial `SET NAMES` statement never fails in the
modelled store. -/
def run (env : Env) (offset : Int) (fuel : Nat) (st : Net × Store) :
    Exec (Option String × (Net × Store)) :=
  match (if offset > 0 then getOffsetGid st.2 offset else getLastGid st.2) with
  | (_, some err) => .ret (some err, st)
  | (startGid, none) => runLoop env fuel (toString startGid) st

/-- The exit code of `main`: 1 when `run` returns an error, 0 otherwise. -/
def exitCode (runErr : Option String) : Nat :=
  match runErr with
  | some _ => 1
  | none => 0

/-! ## The ban notice, as the specification words it

The notice is the text `The ban expires in` followed by the components
`<n> day(s) <n> hour(s) <n> minute(s) [and] <n> second(s)`, each of them
optional; letter case is not significant and white space may separate the
parts. -/

/-- The text that follows the word `w` when `s` starts with `w` (in any letter
case). -/
def stripFold : List Char → List Char → Option (List Char)
  | [], s => some s
  | _ :: _, [] => none
  | p :: ps, x :: t => if foldEq p x then stripFold ps t else none

/-- The number a run of decimal digits denotes. -/
def natOfDigits (ds : List Char) : Nat := ds.foldl (fun a c => a * 10 + (c.toNat - 48)) 0

/-- The text without its leading white space. -/
def skipSpaces (s : List Char) : List Char := s.dropWhile isSpace

/-- One component `<n> unit` or `<n> units` at the head of `s`: its digits and
the text that follows it. -/
def readComponent (unit : String) (s : List Char) : Option (List Char × List Char) :=
  match s.takeWhile isDigit with
  | [] => none
  | d :: ds =>
    match stripFold unit.toList (skipSpaces (s.dropWhile isDigit)) with
    | none => none
    | some r =>
      match r with
      | [] => some (d :: ds, [])
      | x :: t => if foldEq 's' x then some (d :: ds, t) else some (d :: ds, x :: t)

/-- An optional component: no digits and the text unchanged when it is missing. -/
def optComponent (unit : String) (s : List Char) : List Char × List Char :=
  match readComponent unit s with
  | some r => r
  | none => ([], s)

/-- The text after an optional `and`. -/
def skipAnd (s : List Char) : List Char :=
  match stripFold "and".toList s with
  | some r => skipSpaces r
  | none => s

/-- The digits of the days, hours, minutes and seconds that follow the opening
words of a notice, in that order. -/
def noticeTexts (s0 : List Char) : List Char × List Char × List Char × List Char :=
  let d := optComponent "day" (skipSpaces s0)
  let h := optComponent "hour" (skipSpaces d.2)
  let m := optComponent "minute" (skipSpaces h.2)
  let sec := optComponent "second" (skipAnd (skipSpaces m.2))
  (d.1, h.1, m.1, sec.1)

/-- The text after the opening words of the first notice of a body. -/
def afterFirstNotice : List Char → Option (List Char)
  | [] => none
  | c :: t =>
    match stripFold "The ban expires in".toList (c :: t) with
    | some r => some r
    | none => afterFirstNotice t

/-- Days, hours, minutes and seconds of the first notice of a body, a missing
component counting as 0; `none` when the body has no notice. -/
def firstNotice (body : String) : Option (Nat × Nat × Nat × Nat) :=
  (afterFirstNotice body.toList).map (fun s0 =>
    (natOfDigits (noticeTexts s0).1, natOfDigits (noticeTexts s0).2.1,
      natOfDigits (noticeTexts s0).2.2.1, natOfDigits (noticeTexts s0).2.2.2))

/-! ## Auxiliary notions for the analysis of the ban pattern -/

/-- A continuation that accepts every input. -/
def Total {α : Type} (k : List Char → Caps → Option α) : Prop :=
  ∀ s c, ∃ r, k s c = some r

/-- The submatches after an optional component: group `i` receives the digits
when the component is present. -/
def capOpt (i : Nat) (unit : String) (s : List Char) (c : Caps) : Caps :=
  match readComponent unit s with
  | some (ds, _) => c.set i ds
  | none => c

/-- A pattern that, before a continuation that accepts every input, always
matches, leaving the input and submatches given by `f`. -/
def Det (a : Regex) (f : List Char → Caps → List Char × Caps) : Prop :=
  ∀ (α : Type) (k : List Char → Caps → Option α), Total k →
    ∀ s c, a.run s c k = k (f s c).1 (f s c).2

/-- Input and submatches left by the part of the pattern that follows the
opening words. -/
def banScan (s0 : List Char) (c : Caps) : List Char × Caps :=
  let s1 := skipSpaces s0
  let s3 := skipSpaces (optComponent "day" s1).2
  let c1 := capOpt 1 "day" s1 c
  let s5 := skipSpaces (optComponent "hour" s3).2
  let c2 := capOpt 2 "hour" s3 c1
  let s7 := skipSpaces (optComponent "minute" s5).2
  let c3 := capOpt 3 "minute" s5 c2
  match readComponent "second" (skipAnd s7) with
  | some (ds, r) => (r, c3.set 4 ds)
  | none => (s7, c3)

/-! ## The listing page, as the specification words it

A listing document names a gallery by the text `gid=<id>`, where `<id>` is a
run of digits; the token of the gallery is the first text `t=` followed by ten
characters `0-9a-f` after the id on the same line, and its timestamp the first
text `>YYYY-MM-DD hh:mm<` after the token on the same line.  The triples of the
document are read from left to right, each one starting after the end of the
previous one. -/

/-- The text that follows a run of characters of the classes `ps`, in that
order, at the head of `s`. -/
def stripShape : List (Char → Bool) → List Char → Option (List Char)
  | [], s => some s
  | _ :: _, [] => none
  | p :: ps, x :: t => if p x then stripShape ps t else none

/-- The classes that spell the word `w` exactly. -/
def litShape (w : String) : List (Char → Bool) := w.toList.map (fun p x => x == p)

/-- The shape of a timestamp, `YYYY-MM-DD hh:mm`, with one white-space character
between date and time. -/
def stampShape : List (Char → Bool) :=
  [isDigit, isDigit, isDigit, isDigit, fun x => x == '-', isDigit, isDigit, fun x => x == '-',
    isDigit, isDigit, isSpace, isDigit, isDigit, fun x => x == ':', isDigit, isDigit]

/-- A token at the head of `s`: `t=` and ten characters `0-9a-f`; the result is
the ten characters and the text that follows them. -/
def tokenAt (s : List Char) : Option (List Char × List Char) :=
  match stripShape (litShape "t=") s with
  | none => none
  | some u =>
    match stripShape (List.replicate 10 isHexLower) u with
    | none => none
    | some r => some (u.take 10, r)

/-- A timestamp at the head of `s`: `>`, the sixteen characters of the
timestamp, `<`; the result is the timestamp and the text that follows `<`. -/
def stampAt (s : List Char) : Option (List Char × List Char) :=
  match stripShape (litShape ">") s with
  | none => none
  | some u =>
    match stripShape stampShape u with
    | none => none
    | some v =>
      match stripShape (litShape "<") v with
      | none => none
      | some r => some (u.take 16, r)

/-- The first place from the head of `s` on, before the end of the line, where
`f` reads something. -/
def firstOnLine {α : Type} (f : List Char → Option α) : List Char → Option α
  | [] => f []
  | c :: t =>
    match f (c :: t) with
    | some r => some r
    | none => if c = '\n' then none else firstOnLine f t

/-- A triple that starts at the head of `s`, and the text that follows it. -/
def tripleAt (s : List Char) : Option (PageEntry × List Char) :=
  match stripShape (litShape "gid=") s with
  | none => none
  | some s1 =>
    match s1.takeWhile isDigit with
    | [] => none
    | d :: ds =>
      match firstOnLine tokenAt (s1.dropWhile isDigit) with
      | none => none
      | some (tok, s2) =>
        match firstOnLine stampAt s2 with
        | none => none
        | some (ts, rest) =>
          some (PageEntry.mk (String.mk (d :: ds)) (String.mk tok) (String.mk ts), rest)

/-- The triples of the text `s`, from left to right; `skip` is the number of
characters at the head of `s` that belong to a triple already read. -/
def scanTriples : List Char → Nat → List PageEntry
  | [], _ => []
  | _ :: t, skip + 1 => scanTriples t skip
  | c :: t, 0 =>
    match tripleAt (c :: t) with
    | some (e, rest) => e :: scanTriples t (t.length - rest.length)
    | none => scanTriples t 0

/-- The (id, token, timestamp) triples of a listing document, in document
order. -/
def pageTriples (body : String) : List PageEntry := scanTriples body.toList 0

/-- The triples of `es` in order, without every triple whose id occurs in
`earlier` (the triples before it in the document). -/
def dropSeen : List PageEntry → List PageEntry → List PageEntry
  | _, [] => []
  | earlier, e :: es =>
    if earlier.any (fun x => x.GID == e.GID) then dropSeen (earlier ++ [e]) es
    else e :: dropSeen (earlier ++ [e]) es

/-! ## Auxiliary notions for the analysis of the listing pattern -/

/-- A pattern that matches exactly the runs of characters of the classes `ps`. -/
def Shaped (re : Regex) (ps : List (Char → Bool)) : Prop :=
  ∀ (α : Type) (k : List Char → Caps → Option α) (s : List Char) (c : Caps),
    re.run s c k =
      match stripShape ps s with
      | some r => k r c
      | none => none

/-- The timestamp part of the listing pattern,
`\d{4}-\d{2}-\d{2}\s\d{2}:\d{2}`. -/
def stampRe : Regex :=
  Regex.seq [Regex.rep 4 isDigit, Regex.lit "-", Regex.rep 2 isDigit, Regex.lit "-",
    Regex.rep 2 isDigit, .cls isSpace, Regex.rep 2 isDigit, Regex.lit ":", Regex.rep 2 isDigit]

/-- The listing pattern from `>` on. -/
def stampTail : Regex := Regex.seq [Regex.lit ">", .group 3 stampRe, Regex.lit "<"]

/-- The listing pattern from `t=` on. -/
def tokenTail : Regex :=
  .cat (Regex.lit "t=") (.cat (.group 2 (Regex.rep 10 isHexLower)) (.cat (.lazyStar isDot) stampTail))

/-- Token and timestamp of a triple, read after its id: the first token on the
line and the first timestamp on the line after it. -/
def tailScan (s : List Char) : Option (List Char × List Char × List Char) :=
  match firstOnLine tokenAt s with
  | none => none
  | some (tok, u2) =>
    match firstOnLine stampAt u2 with
    | none => none
    | some (ts, rest) => some (tok, ts, rest)

/-! ## Page import, chunk by chunk -/

/-- The consecutive chunks of `batchSize` entries of a list, in order (the last
one may be shorter); `fuel` bounds the number of chunks. -/
def chunksAux {α : Type} : Nat → List α → List (List α)
  | 0, _ => []
  | _ + 1, [] => []
  | fuel + 1, a :: l => (a :: l).take batchSize :: chunksAux fuel ((a :: l).drop batchSize)

/-- The consecutive chunks of `batchSize` entries of a list. -/
def chunks {α : Type} (l : List α) : List (List α) := chunksAux l.length l

/-- The loop of `importPage` as a recursion over the chunks that remain. -/
def importChunks (env : Env) :
    List (List PageEntry) → Int → Net × Store → Exec (Int × (Net × Store))
  | [], pageAPIEntries, st => .ret (pageAPIEntries, st)
  | batch :: rest, pageAPIEntries, (net, db) =>
    match metadataRetry env batch env.RetryCount.toNat (none, none) net with
    | ((_, some _), net1) => importChunks env rest pageAPIEntries (net1, db)
    | ((none, none), _) => .panic
    | ((some apiResp, none), net1) =>
      if apiResp.Gmetadata.length = 0 then importChunks env rest pageAPIEntries (net1, db)
      else
        importChunks env rest (pageAPIEntries + apiResp.Gmetadata.length)
          (net1, apiResp.Gmetadata.foldl saveRecord db)

/-- The `i`-th request to the metadata API, sent with `gidlist`, gets no valid
response: a transport error, a status other than 200, an unreadable body or a
body that does not decode. -/
def apiFails (env : Env) (i : Nat) (gidlist : List (Int × String)) : Bool :=
  match env.api i gidlist with
  | .transportError _ => true
  | .response status body =>
    if status ≠ 200 then true
    else
      match body with
      | .error _ => true
      | .ok b =>
        match env.unmarshal b with
        | .error _ => true
        | .ok _ => false

/-! ## Sample inputs -/

/-- A network state in which nothing has been sent yet. -/
def emptyNet : Net := { listingReqs := [], apiReqs := [], fetchCalls := [], cooldowns := [] }

/-- An empty store. -/
def emptyStore : Store := { gallery := [], torrent := [], tag := [], gid_tid := [], tagSeq := 0 }

/-- An environment in which no request is ever answered, with retry budget
`retry`. -/
def deadEnv (retry : Int) : Env :=
  { RetryCount := retry
    Cooldown := 0
    listing := fun _ _ => .transportError "connection refused"
    api := fun _ _ => .transportError "connection refused"
    unmarshal := fun _ => .error "unexpected end of JSON input" }

/-- A record of the metadata API with the given id and `posted` text. -/
def sampleRecord (gid : Int) (posted : String) : GalleryMetadata :=
  { Gid := gid, Token := "0123456789", ArchiverKey := "", Title := "title", TitleJpn := "",
    Category := "Misc", Thumb := "", Uploader := "someone", Posted := posted, Filecount := "10",
    Filesize := 1000, Expunged := false, Rating := "4.5", Torrentcount := "0", Torrents := [],
    Tags := [], ParentGid := "", ParentKey := "", FirstGid := "", FirstKey := "" }

/-- An environment with retry budget 2 in which the first listing request fails
and every later one is answered with a listing of three entries. -/
def flakyEnv : Env :=
  { RetryCount := 2
    Cooldown := 0
    listing := fun i _ =>
      if i = 0 then .transportError "timeout"
      else .response 200 (.ok
        "gid=500&t=0123456789 >2024-01-03 10:00< gid=480&t=0123456789 >2024-01-02 10:00< gid=460&t=0123456789 >2024-01-01 10:00<")
    api := fun _ _ => .transportError "connection refused"
    unmarshal := fun _ => .error "unexpected end of JSON input" }

/-- An environment with retry budget 1 in which a listing request with cursor
"0" is answered with a listing of three entries (ids 500, 480, 460), one with
cursor "500" with a page that lists no gallery, and any other one fails; the
metadata API never answers. -/
def twoPageEnv : Env :=
  { RetryCount := 1
    Cooldown := 0
    listing := fun _ prev =>
      if prev = "0" then .response 200 (.ok
        "gid=500&t=0123456789 >2024-01-03 10:00< gid=480&t=0123456789 >2024-01-02 10:00< gid=460&t=0123456789 >2024-01-01 10:00<")
      else if prev = "500" then .response 200 (.ok "<p>No hits found</p>")
      else .transportError "connection refused"
    api := fun _ _ => .transportError "connection refused"
    unmarshal := fun _ => .error "unexpected end of JSON input" }

/-- The three entries of the sample listing. -/
def sampleListing : List PageEntry :=
  [{ GID := "500", Token := "0123456789", Posted := "2024-01-03 10:00" },
   { GID := "480", Token := "0123456789", Posted := "2024-01-02 10:00" },
   { GID := "460", Token := "0123456789", Posted := "2024-01-01 10:00" }]

/-- A gallery row with the given id and `posted` time. -/
def sampleRow (gid posted : Int) : GalleryRow :=
  { gid := gid, token := "0123456789", archiver_key := "", title := "title", title_jpn := "",
    category := "Misc", thumb := "", uploader := "someone", posted := posted, filecount := 10,
    filesize := 1000, expunged := 0, rating := "4.5", torrentcount := 0, root_gid := 0,
    bytorrent := 0 }

/-- A store with the given gallery rows and nothing else. -/
def storeOf (rows : List GalleryRow) : Store := { emptyStore with gallery := rows }

/-! ## Store invariants -/

/-- What `ON DUPLICATE KEY UPDATE` does to one stored row `r` when `row` is
upserted. -/
def overwrite (row r : GalleryRow) : GalleryRow :=
  if r.gid == row.gid then { row with bytorrent := r.bytorrent } else r

/-- The list-level effect of `Store.upsertGallery`. -/
def upsertRows (rows : List GalleryRow) (row : GalleryRow) : List GalleryRow :=
  if rows.any (fun r => r.gid == row.gid) then rows.map (overwrite row) else rows ++ [row]

/-- A record whose `posted` parses and whose `filecount` is a run of digits too
long for a 64-bit integer. -/
def hugeCountRecord : GalleryMetadata :=
  { sampleRecord 9 "100" with Filecount := "99999999999999999999" }

/-- The value `v` stored for a numeric field that arrives as the text `s` and
goes through `strconv.Atoi` with its error discarded: the number when `s`
parses, 0 when `Atoi` reports a syntax error, and the bound of the 64-bit range
that `Atoi` returns when it reports a range error. -/
def StoredLeniently (s : String) (v : Int) : Prop :=
  (∀ n, atoi s = .ok n → v = n) ∧
  (atoi s = .badFormat → v = 0) ∧
  (∀ c, atoi s = .outOfRange c → v = c ∧ (c = 2 ^ 63 - 1 ∨ c = -(2 ^ 63)))

/-! ## The cursor at the end of the loop -/

/-- The `for` loop of `run` as in `runLoop`, returning in addition the value of
the cursor `prev` when the loop is left. -/
def runLoopCursor (env : Env) :
    Nat → String → Net × Store → Exec (String × Option String × (Net × Store))
  | 0, _, _ => .timeout
  | fuel + 1, prev, (net, db) =>
    match pageRetry env (fuel + 1) prev env.RetryCount.toNat ([], none) net with
    | none => .timeout
    | some ((_, some _), net1) => .ret (prev, none, (net1, db))
    | some (([], none), net1) => .ret (prev, none, (net1, db))
    | some ((first :: more, none), net1) =>
      match importPage env (first :: more) (net1, db) with
      | .ret (_, st2) => runLoopCursor env fuel first.GID st2
      | .panic => .panic
      | .timeout => .timeout

/-- An environment with retry budget 3 in which every listing request is
answered with a page that lists no gallery. -/
def emptyPageEnv : Env :=
  { RetryCount := 3
    Cooldown := 0
    listing := fun _ _ => .response 200 (.ok "<p>No hits found</p>")
    api := fun _ _ => .transportError "connection refused"
    unmarshal := fun _ => .error "unexpected end of JSON input" }

/-! ## The word `and` inside a notice -/

/-- The text that follows the days, hours and minutes at the head of a notice,
without its leading white space: the place where the pattern looks for the
seconds. -/
def afterMinutes (s0 : List Char) : List Char :=
  skipSpaces (optComponent "minute" (skipSpaces (optComponent "hour"
    (skipSpaces (optComponent "day" (skipSpaces s0)).2)).2)).2

/-- The text `s` starts with the word `and` followed by a component of days, of
hours or of minutes. -/
def andBeforeComponent (s : List Char) : Bool :=
  match stripFold "and".toList s with
  | none => false
  | some r => ["day", "hour", "minute"].any (fun u => (readComponent u (skipSpaces r)).isSome)

/-! # Theorems -/

/-! ## Ban detection: the matcher on the ban pattern -/


theorem starGreedy_of_reject {α : Type} (p : Char → Bool) (k : List Char → Option α)
    (hk : ∀ x t, p x = true → k (x :: t) = none) (s : List Char) :
    starGreedy p k s = k (s.dropWhile p) := by
  induction s with
  | nil => simp [starGreedy]
  | cons c t ih =>
    by_cases hc : p c = true
    · simp only [starGreedy, hc, if_true, List.dropWhile_cons_of_pos, ih]
      cases hd : k (List.dropWhile p t) with
      | some r => rfl
      | none => simpa using hk c t hc
    · simp [starGreedy, hc]

theorem starGreedy_of_accept {α : Type} (p : Char → Bool) (k : List Char → Option α)
    (s : List Char) (r : α) (hk : k (s.dropWhile p) = some r) :
    starGreedy p k s = some r := by
  induction s with
  | nil => simpa [starGreedy] using hk
  | cons c t ih =>
    by_cases hc : p c = true
    · simp only [List.dropWhile, hc] at hk
      simp [starGreedy, hc, ih hk]
    · simp only [List.dropWhile, hc] at hk
      simp [starGreedy, hc, hk]

theorem starGreedy_total {α : Type} (p : Char → Bool) (k : List Char → Caps → Option α)
    (hk : Total k) (s : List Char) (c : Caps) :
    starGreedy p (fun s1 => k s1 c) s = k (s.dropWhile p) c := by
  obtain ⟨r, hr⟩ := hk (s.dropWhile p) c
  rw [hr]
  exact starGreedy_of_accept p _ s r hr

theorem run_foldSeq {α : Type} (ps : List Char) (s : List Char) (c : Caps)
    (k : List Char → Caps → Option α) :
    (Regex.seq (ps.map (fun p => Regex.cls (foldEq p)))).run s c k =
      match stripFold ps s with
      | some r => k r c
      | none => none := by
  induction ps generalizing s with
  | nil => simp [Regex.seq, Regex.run, stripFold]
  | cons p ps ih =>
    cases s with
    | nil => simp [Regex.seq, Regex.run, stripFold]
    | cons x t =>
      by_cases hx : foldEq p x = true
      · simp [Regex.seq, Regex.run, stripFold, hx, ih]
      · simp [Regex.seq, Regex.run, stripFold, hx]

theorem consumed_takeWhile (p : Char → Bool) (s : List Char) :
    consumed s (s.dropWhile p) = s.takeWhile p := by
  unfold consumed
  have hlen : (s.takeWhile p).length + (s.dropWhile p).length = s.length := by
    have h := congrArg List.length (List.takeWhile_append_dropWhile p s)
    rw [List.length_append] at h
    exact h
  have hl : s.length - (s.dropWhile p).length = (s.takeWhile p).length := by omega
  rw [hl]
  have h2 : List.take (s.takeWhile p).length (s.takeWhile p ++ s.dropWhile p) = s.takeWhile p :=
    List.take_left' rfl
  rwa [List.takeWhile_append_dropWhile] at h2

theorem isSpace_of_isDigit (x : Char) (h : isDigit x = true) : isSpace x = false := by
  by_contra hs
  simp only [isSpace, Bool.or_eq_true, beq_iff_eq, Bool.not_eq_false] at hs
  rcases hs with (((rfl | rfl) | rfl) | rfl) | rfl <;> revert h <;> decide

theorem run_optS {α : Type} (k : List Char → Caps → Option α) (hk : Total k)
    (r : List Char) (c : Caps) :
    (Regex.quest (Regex.cls (foldEq 's'))).run r c k =
      match r with
      | [] => k [] c
      | x :: t => if foldEq 's' x then k t c else k (x :: t) c := by
  cases r with
  | nil => simp [Regex.run]
  | cons x t =>
    by_cases hx : foldEq 's' x = true
    · obtain ⟨v, hv⟩ := hk t c
      simp [Regex.run, hx, hv]
    · simp [Regex.run, hx]

theorem run_litFold {α : Type} (w : String) (s : List Char) (c : Caps)
    (k : List Char → Caps → Option α) :
    (Regex.litFold w).run s c k =
      match stripFold w.data s with
      | some r => k r c
      | none => none := run_foldSeq w.data s c k

theorem banComponent_run_cons {α : Type} (i : Nat) (unit : String)
    (k : List Char → Caps → Option α) (x : Char) (t : List Char) (c : Caps) :
    (banComponent i unit).run (x :: t) c k =
      if isDigit x = true then
        starGreedy isDigit (fun s2 => starGreedy isSpace (fun s3 =>
          (Regex.litFold unit).run s3 (c.set i (consumed (x :: t) s2))
            (fun s4 c4 => (Regex.quest (Regex.cls (foldEq 's'))).run s4 c4 k)) s2) t
      else none := rfl

theorem run_banComponent {α : Type} (i : Nat) (unit : String) (u0 : Char) (us : List Char)
    (hu : unit.toList = u0 :: us)
    (hu0 : ∀ x, foldEq u0 x = true → isDigit x = false ∧ isSpace x = false)
    (k : List Char → Caps → Option α) (hk : Total k) (s : List Char) (c : Caps) :
    (banComponent i unit).run s c k =
      match readComponent unit s with
      | some (ds, r) => k r (c.set i ds)
      | none => none := by
  have hu1 : unit.data = u0 :: us := hu
  have hrejS : ∀ (c1 : Caps) (y : Char) (t1 : List Char), isSpace y = true →
      (Regex.litFold unit).run (y :: t1) c1
        (fun s4 c4 => (Regex.quest (Regex.cls (foldEq 's'))).run s4 c4 k) = none := by
    intro c1 y t1 hy
    have hf : foldEq u0 y = false := by
      by_contra hne
      have := (hu0 y (by simpa using hne)).2
      simp [hy] at this
    rw [run_litFold, hu1]
    simp [stripFold, hf]
  have hrejD : ∀ (c1 : Caps) (y : Char) (t1 : List Char), isDigit y = true →
      starGreedy isSpace (fun s3 => (Regex.litFold unit).run s3 c1
        (fun s4 c4 => (Regex.quest (Regex.cls (foldEq 's'))).run s4 c4 k)) (y :: t1) = none := by
    intro c1 y t1 hy
    have hsp := isSpace_of_isDigit y hy
    have hf : foldEq u0 y = false := by
      by_contra hne
      have := (hu0 y (by simpa using hne)).1
      simp [hy] at this
    simp only [starGreedy, hsp]
    rw [run_litFold, hu1]
    simp [stripFold, hf]
  cases s with
  | nil => simp [banComponent, Regex.seq, Regex.run, Regex.plus, readComponent]
  | cons x t =>
    rw [banComponent_run_cons]
    by_cases hx : isDigit x = true
    · rw [if_pos hx]
      rw [starGreedy_of_reject isDigit]
      swap
      · intro y t1 hy
        exact hrejD _ y t1 hy
      rw [starGreedy_of_reject isSpace]
      swap
      · intro y t1 hy
        exact hrejS _ y t1 hy
      have hc : consumed (x :: t) (List.dropWhile isDigit t) = x :: t.takeWhile isDigit := by
        have := consumed_takeWhile isDigit (x :: t)
        simpa [List.dropWhile, List.takeWhile, hx] using this
      rw [hc]
      simp only [run_litFold, readComponent, List.takeWhile, hx, List.dropWhile,
        skipSpaces, String.toList]
      cases hst : stripFold unit.data (List.dropWhile isSpace (List.dropWhile isDigit t)) with
      | none => rfl
      | some r =>
        simp only [run_optS k hk]
        cases r with
        | nil => rfl
        | cons y t2 =>
          by_cases hy : foldEq 's' y = true
          · simp [hy]
          · simp [hy]
    · rw [if_neg hx]
      simp [readComponent, List.takeWhile, hx]

theorem Det.total {a : Regex} {f : List Char → Caps → List Char × Caps} (h : Det a f)
    {α : Type} (k : List Char → Caps → Option α) (hk : Total k) :
    Total (fun s c => a.run s c k) := by
  intro s c
  show ∃ r, a.run s c k = some r
  rw [h α k hk]
  exact hk _ _

theorem Det.cat {a b : Regex} {f g : List Char → Caps → List Char × Caps}
    (ha : Det a f) (hb : Det b g) :
    Det (Regex.cat a b) (fun s c => g (f s c).1 (f s c).2) := by
  intro α k hk s c
  show a.run s c (fun s1 c1 => b.run s1 c1 k) = _
  rw [ha α _ (hb.total k hk), hb α k hk]

theorem det_empty : Det Regex.empty (fun s c => (s, c)) := by
  intro α k _ s c
  rfl

theorem det_star (p : Char → Bool) : Det (Regex.star p) (fun s c => (s.dropWhile p, c)) := by
  intro α k hk s c
  exact starGreedy_total p k hk s c

theorem det_questComponent (i : Nat) (unit : String) (u0 : Char) (us : List Char)
    (hu : unit.toList = u0 :: us)
    (hu0 : ∀ x, foldEq u0 x = true → isDigit x = false ∧ isSpace x = false) :
    Det (Regex.quest (banComponent i unit))
      (fun s c => ((optComponent unit s).2, capOpt i unit s c)) := by
  intro α k hk s c
  show (match (banComponent i unit).run s c k with
    | some r => some r
    | none => k s c) = _
  rw [run_banComponent i unit u0 us hu hu0 k hk]
  cases hr : readComponent unit s with
  | none => simp [optComponent, capOpt, hr]
  | some v =>
    obtain ⟨ds, r⟩ := v
    obtain ⟨w, hw⟩ := hk r (c.set i ds)
    simp [optComponent, capOpt, hr, hw]

theorem foldEq_cases (p x : Char) (h : foldEq p x = true) :
    x = p.toLower ∨ x = p.toUpper ∨ x = Char.ofNat 0x17F ∨ x = Char.ofNat 0x212A := by
  simp only [foldEq, Bool.or_eq_true, beq_iff_eq, Bool.and_eq_true] at h
  rcases h with ((h | h) | h) | h
  · exact Or.inl h
  · exact Or.inr (Or.inl h)
  · exact Or.inr (Or.inr (Or.inl h.2))
  · exact Or.inr (Or.inr (Or.inr h.2))

theorem foldEq_letter (p : Char)
    (hp : (isDigit p.toLower = false ∧ isSpace p.toLower = false) ∧
      (isDigit p.toUpper = false ∧ isSpace p.toUpper = false))
    (x : Char) (h : foldEq p x = true) : isDigit x = false ∧ isSpace x = false := by
  rcases foldEq_cases p x h with rfl | rfl | rfl | rfl
  · exact hp.1
  · exact hp.2
  · decide
  · decide

theorem isDigit_of_isSpace (x : Char) (h : isSpace x = true) : isDigit x = false := by
  cases hd : isDigit x with
  | false => rfl
  | true =>
    rw [isSpace_of_isDigit x hd] at h
    cases h

theorem readComponent_of_not_digit (unit : String) (x : Char) (t : List Char)
    (hx : isDigit x = false) : readComponent unit (x :: t) = none := by
  simp [readComponent, List.takeWhile, hx]

theorem det_secondsGroup :
    Det secondsGroup
      (fun s c => match readComponent "second" (skipAnd s) with
        | some (ds, r) => (r, c.set 4 ds)
        | none => (s, c)) := by
  intro α k hk s c
  have hK : ∀ s1 c1, (banComponent 4 "second").run s1 c1 k =
      match readComponent "second" s1 with
      | some (ds, r) => k r (c1.set 4 ds)
      | none => none :=
    fun s1 c1 => run_banComponent 4 "second" 's' "econd".toList rfl
      (foldEq_letter 's' (by decide)) k hk s1 c1
  have hinner : (Regex.quest (Regex.cat (Regex.litFold "and") (Regex.star isSpace))).run s c
      (fun s1 c1 => (banComponent 4 "second").run s1 c1 k) =
      (banComponent 4 "second").run (skipAnd s) c k := by
    show (match (Regex.litFold "and").run s c (fun s1 c1 => starGreedy isSpace
        (fun s2 => (banComponent 4 "second").run s2 c1 k) s1) with
      | some r => some r
      | none => (banComponent 4 "second").run s c k) = _
    rw [run_litFold]
    cases hst : stripFold "and".data s with
    | none =>
      have : skipAnd s = s := by simp [skipAnd, hst]
      simp [this]
    | some r =>
      have hsk : skipAnd s = skipSpaces r := by simp [skipAnd, hst]
      rw [hsk]
      simp only
      rw [starGreedy_of_reject isSpace]
      swap
      · intro y t1 hy
        rw [hK, readComponent_of_not_digit _ y t1 (isDigit_of_isSpace y hy)]
      have hs : (banComponent 4 "second").run s c k = none := by
        cases s with
        | nil => simp [stripFold] at hst
        | cons x t =>
          have hx : foldEq 'a' x = true := by
            by_contra hne
            have hf : foldEq 'a' x = false := by simpa using hne
            have hd : "and".data = 'a' :: 'n' :: 'd' :: [] := rfl
            rw [hd] at hst
            simp [stripFold, hf] at hst
          rw [hK, readComponent_of_not_digit _ x t (foldEq_letter 'a' (by decide) x hx).1]
      rw [hs]
      unfold skipSpaces
      cases (banComponent 4 "second").run (List.dropWhile isSpace r) c k <;> rfl
  show (match (Regex.quest (Regex.cat (Regex.litFold "and") (Regex.star isSpace))).run s c
      (fun s1 c1 => (banComponent 4 "second").run s1 c1 k) with
    | some r => some r
    | none => k s c) = _
  rw [hinner, hK]
  beta_reduce
  cases hr : readComponent "second" (skipAnd s) with
  | none => rfl
  | some v =>
    obtain ⟨ds, r⟩ := v
    obtain ⟨w, hw⟩ := hk r (c.set 4 ds)
    simp [hw]

theorem det_banTail : Det banTail banScan :=
  Det.cat (det_star isSpace)
    (Det.cat (det_questComponent 1 "day" 'd' "ay".toList rfl (foldEq_letter 'd' (by decide)))
    (Det.cat (det_star isSpace)
    (Det.cat (det_questComponent 2 "hour" 'h' "our".toList rfl (foldEq_letter 'h' (by decide)))
    (Det.cat (det_star isSpace)
    (Det.cat (det_questComponent 3 "minute" 'm' "inute".toList rfl (foldEq_letter 'm' (by decide)))
    (Det.cat (det_star isSpace)
    (Det.cat det_secondsGroup det_empty)))))))

theorem banScan_caps (s0 : List Char) :
    (banScan s0 [[], [], [], [], []]).2 =
      [[], (noticeTexts s0).1, (noticeTexts s0).2.1, (noticeTexts s0).2.2.1,
        (noticeTexts s0).2.2.2] := by
  simp only [banScan, noticeTexts, capOpt, optComponent]
  cases readComponent "day" (skipSpaces s0) with
  | none =>
    simp only
    cases readComponent "hour" (skipSpaces (skipSpaces s0)) with
    | none =>
      simp only
      cases readComponent "minute" (skipSpaces (skipSpaces (skipSpaces s0))) with
      | none =>
        simp only
        cases readComponent "second" (skipAnd (skipSpaces (skipSpaces (skipSpaces (skipSpaces s0))))) <;> rfl
      | some v3 =>
        simp only
        cases readComponent "second" (skipAnd (skipSpaces v3.2)) <;> rfl
    | some v2 =>
      simp only
      cases readComponent "minute" (skipSpaces v2.2) with
      | none =>
        simp only
        cases readComponent "second" (skipAnd (skipSpaces (skipSpaces v2.2))) <;> rfl
      | some v3 =>
        simp only
        cases readComponent "second" (skipAnd (skipSpaces v3.2)) <;> rfl
  | some v1 =>
    simp only
    cases readComponent "hour" (skipSpaces v1.2) with
    | none =>
      simp only
      cases readComponent "minute" (skipSpaces (skipSpaces v1.2)) with
      | none =>
        simp only
        cases readComponent "second" (skipAnd (skipSpaces (skipSpaces (skipSpaces v1.2)))) <;> rfl
      | some v3 =>
        simp only
        cases readComponent "second" (skipAnd (skipSpaces v3.2)) <;> rfl
    | some v2 =>
      simp only
      cases readComponent "minute" (skipSpaces v2.2) with
      | none =>
        simp only
        cases readComponent "second" (skipAnd (skipSpaces (skipSpaces v2.2))) <;> rfl
      | some v3 =>
        simp only
        cases readComponent "second" (skipAnd (skipSpaces v3.2)) <;> rfl

theorem matchAt_banRe (s : List Char) :
    matchAt banRe 4 s =
      match stripFold "The ban expires in".toList s with
      | none => none
      | some s0 =>
        some ([consumed s (banScan s0 [[], [], [], [], []]).1, (noticeTexts s0).1,
          (noticeTexts s0).2.1, (noticeTexts s0).2.2.1, (noticeTexts s0).2.2.2],
          (banScan s0 [[], [], [], [], []]).1) := by
  have hk : Total (fun (rest : List Char) (c : Caps) => some (c.set 0 (consumed s rest), rest)) :=
    fun rest c => ⟨_, rfl⟩
  show (Regex.litFold "The ban expires in").run s [[], [], [], [], []]
    (fun s1 c1 => banTail.run s1 c1
      (fun rest c => some (c.set 0 (consumed s rest), rest))) = _
  rw [run_litFold]
  show (match stripFold "The ban expires in".data s with
    | some r => _
    | none => none) = (match stripFold "The ban expires in".data s with
    | none => none
    | some s0 => _)
  cases stripFold "The ban expires in".data s with
  | none => rfl
  | some s0 =>
    simp only
    rw [det_banTail _ _ hk, banScan_caps]
    rfl

theorem findFirst_banRe (s : List Char) :
    match afterFirstNotice s with
    | none => findFirst banRe 4 s = none
    | some s0 => ∃ w rest, findFirst banRe 4 s =
        some ([w, (noticeTexts s0).1, (noticeTexts s0).2.1, (noticeTexts s0).2.2.1,
          (noticeTexts s0).2.2.2], rest) := by
  induction s with
  | nil =>
    simp only [afterFirstNotice, findFirst, matchAt_banRe]
    rfl
  | cons x t ih =>
    simp only [afterFirstNotice, findFirst, matchAt_banRe]
    cases hst : stripFold "The ban expires in".toList (x :: t) with
    | some s0 => exact ⟨_, _, rfl⟩
    | none => exact ih

theorem wrapInt64_of_range (x : Int) (h1 : -(2 ^ 63) ≤ x) (h2 : x < 2 ^ 63) : wrapInt64 x = x := by
  unfold wrapInt64
  have : (x + 2 ^ 63) % 2 ^ 64 = x + 2 ^ 63 := Int.emod_eq_of_lt (by omega) (by omega)
  omega

theorem foldl_digits_ge (t : List Char) (acc : Nat) :
    acc ≤ t.foldl (fun a c => a * 10 + (c.toNat - 48)) acc := by
  induction t generalizing acc with
  | nil => exact Nat.le_refl _
  | cons c t ih =>
    rw [List.foldl_cons]
    exact Nat.le_trans (by omega) (ih _)

theorem parseUintFrom_digits (t : List Char) (h : ∀ c ∈ t, isDigit c = true) (acc : Nat)
    (hacc : acc ≤ 2 ^ 64 - 1) :
    parseUintFrom acc t =
      if t.foldl (fun a c => a * 10 + (c.toNat - 48)) acc > 2 ^ 64 - 1 then .outOfRange
      else .ok (t.foldl (fun a c => a * 10 + (c.toNat - 48)) acc) := by
  induction t generalizing acc with
  | nil =>
    simp only [parseUintFrom, List.foldl_nil]
    rw [if_neg (by omega)]
  | cons c t ih =>
    have hc : isDigit c = true := h c (List.mem_cons_self c t)
    simp only [parseUintFrom, hc, if_true, List.foldl_cons]
    by_cases hov : acc * 10 + (c.toNat - 48) > 2 ^ 64 - 1
    · rw [if_pos hov]
      have := foldl_digits_ge t (acc * 10 + (c.toNat - 48))
      rw [if_pos (by omega)]
    · rw [if_neg hov]
      exact ih (fun d hd => h d (List.mem_cons_of_mem c hd)) _ (by omega)

theorem parseInt64_digits (c : Char) (t : List Char) (h : ∀ d ∈ c :: t, isDigit d = true) :
    parseInt64 (String.mk (c :: t)) =
      if natOfDigits (c :: t) ≥ 2 ^ 63 then .outOfRange (2 ^ 63 - 1)
      else .ok (natOfDigits (c :: t) : Int) := by
  have hc : isDigit c = true := h c (List.mem_cons_self c t)
  have hp : c ≠ '+' := by
    rintro rfl
    revert hc
    decide
  have hm : c ≠ '-' := by
    rintro rfl
    revert hc
    decide
  have hv := parseUintFrom_digits (c :: t) h 0 (by omega)
  unfold parseInt64
  have hbody : (match (String.mk (c :: t)).toList with
      | '+' :: t => (false, t)
      | '-' :: t => (true, t)
      | cs => (false, cs)) = (false, c :: t) := by
    show (match c :: t with
      | '+' :: t => (false, t)
      | '-' :: t => (true, t)
      | cs => (false, cs)) = (false, c :: t)
    split
    · rename_i heq
      exact absurd (List.cons.inj heq).1 hp
    · rename_i heq
      exact absurd (List.cons.inj heq).1 hm
    · rfl
  rw [hbody]
  dsimp only
  rw [hv]
  unfold natOfDigits
  generalize (c :: t).foldl (fun a c => a * 10 + (c.toNat - 48)) 0 = N
  by_cases hov : N > 2 ^ 64 - 1
  · have hge : N ≥ 2 ^ 63 := by omega
    rw [if_pos hov, if_pos hge]
    rfl
  · rw [if_neg hov]
    rfl

theorem banField_digits (t : List Char) (h : ∀ d ∈ t, isDigit d = true) :
    banField (String.mk t) = if natOfDigits t < 2 ^ 63 then (natOfDigits t : Int) else 0 := by
  cases t with
  | nil => decide
  | cons c t =>
    have hne : (String.mk (c :: t) != "") = true := by
      simp [bne, String.ext_iff]
    unfold banField
    rw [if_pos hne]
    unfold atoi
    rw [parseInt64_digits c t h]
    by_cases hr : natOfDigits (c :: t) ≥ 2 ^ 63
    · have hlt : ¬ natOfDigits (c :: t) < 2 ^ 63 := by omega
      rw [if_pos hr, if_neg hlt]
      rfl
    · have hlt : natOfDigits (c :: t) < 2 ^ 63 := by omega
      rw [if_neg hr, if_pos hlt]
      rfl

theorem readComponent_digits (unit : String) (s ds r : List Char)
    (h : readComponent unit s = some (ds, r)) : ∀ d ∈ ds, isDigit d = true := by
  unfold readComponent at h
  split at h
  · cases h
  · rename_i d0 ds0 htw
    have hds : ds = d0 :: ds0 := by
      split at h
      · cases h
      · split at h
        · exact (Prod.mk.inj (Option.some.inj h)).1.symm
        · split at h <;> exact (Prod.mk.inj (Option.some.inj h)).1.symm
    intro d hd
    rw [hds, ← htw] at hd
    exact (List.mem_takeWhile_imp hd)

theorem optComponent_digits (unit : String) (s : List Char) :
    ∀ d ∈ (optComponent unit s).1, isDigit d = true := by
  unfold optComponent
  cases h : readComponent unit s with
  | none => simp
  | some v =>
    obtain ⟨ds, r⟩ := v
    exact readComponent_digits unit s ds r h

theorem noticeTexts_digits (s0 : List Char) :
    (∀ d ∈ (noticeTexts s0).1, isDigit d = true) ∧
    (∀ d ∈ (noticeTexts s0).2.1, isDigit d = true) ∧
    (∀ d ∈ (noticeTexts s0).2.2.1, isDigit d = true) ∧
    (∀ d ∈ (noticeTexts s0).2.2.2, isDigit d = true) :=
  ⟨optComponent_digits _ _, optComponent_digits _ _, optComponent_digits _ _,
    optComponent_digits _ _⟩

theorem banTotal_of_small (D H M S : Nat)
    (h : D * 86400 + H * 3600 + M * 60 + S + 10 < 2 ^ 63) :
    wrapInt64 (wrapInt64 (wrapInt64 (wrapInt64 ((D : Int) * 86400)
        + wrapInt64 ((H : Int) * 3600)) + wrapInt64 ((M : Int) * 60)) + (S : Int))
      = ((D * 86400 + H * 3600 + M * 60 + S : Nat) : Int) := by
  have e1 : wrapInt64 ((D : Int) * 86400) = (D : Int) * 86400 :=
    wrapInt64_of_range _ (by omega) (by omega)
  have e2 : wrapInt64 ((H : Int) * 3600) = (H : Int) * 3600 :=
    wrapInt64_of_range _ (by omega) (by omega)
  have e3 : wrapInt64 ((M : Int) * 60) = (M : Int) * 60 :=
    wrapInt64_of_range _ (by omega) (by omega)
  rw [e1, e2, e3]
  have e4 : wrapInt64 ((D : Int) * 86400 + (H : Int) * 3600) = (D : Int) * 86400 + (H : Int) * 3600 :=
    wrapInt64_of_range _ (by omega) (by omega)
  rw [e4]
  have e5 : wrapInt64 ((D : Int) * 86400 + (H : Int) * 3600 + (M : Int) * 60)
      = (D : Int) * 86400 + (H : Int) * 3600 + (M : Int) * 60 :=
    wrapInt64_of_range _ (by omega) (by omega)
  rw [e5]
  have e6 : wrapInt64 ((D : Int) * 86400 + (H : Int) * 3600 + (M : Int) * 60 + (S : Int))
      = (D : Int) * 86400 + (H : Int) * 3600 + (M : Int) * 60 + (S : Int) :=
    wrapInt64_of_range _ (by omega) (by omega)
  rw [e6]
  push_cast
  ring

/-- The result of `extractBanCooldown` in terms of the digits of the first notice. -/
theorem extractBanCooldown_eq (body : String) :
    extractBanCooldown body =
      match afterFirstNotice body.toList with
      | none => (false, 0)
      | some s0 =>
        if wrapInt64 (wrapInt64 (wrapInt64 (wrapInt64 (banField (String.mk (noticeTexts s0).1) * 86400)
            + wrapInt64 (banField (String.mk (noticeTexts s0).2.1) * 3600))
            + wrapInt64 (banField (String.mk (noticeTexts s0).2.2.1) * 60))
            + banField (String.mk (noticeTexts s0).2.2.2)) > 0 then
          (true, wrapInt64 (wrapInt64 (wrapInt64 (wrapInt64 (wrapInt64
            (banField (String.mk (noticeTexts s0).1) * 86400)
            + wrapInt64 (banField (String.mk (noticeTexts s0).2.1) * 3600))
            + wrapInt64 (banField (String.mk (noticeTexts s0).2.2.1) * 60))
            + banField (String.mk (noticeTexts s0).2.2.2)) + 10))
        else (false, 0) := by
  have hf := findFirst_banRe body.toList
  unfold extractBanCooldown findStringSubmatch
  cases ha : afterFirstNotice body.toList with
  | none =>
    rw [ha] at hf
    simp only at hf
    rw [hf]
    rfl
  | some s0 =>
    rw [ha] at hf
    obtain ⟨w, rest, hw⟩ := hf
    rw [hw]
    rfl

theorem extractBanCooldown_of_notice (body : String) (d h m s : Nat)
    (hn : firstNotice body = some (d, h, m, s))
    (hb : d * 86400 + h * 3600 + m * 60 + s + 10 < 2 ^ 63) :
    extractBanCooldown body =
      if 0 < d * 86400 + h * 3600 + m * 60 + s then
        (true, ((d * 86400 + h * 3600 + m * 60 + s + 10 : Nat) : Int))
      else (false, 0) := by
  rw [extractBanCooldown_eq]
  unfold firstNotice at hn
  cases ha : afterFirstNotice body.toList with
  | none => rw [ha] at hn; cases hn
  | some s0 =>
    rw [ha] at hn
    simp only [Option.map_some', Option.some.injEq, Prod.mk.injEq] at hn
    obtain ⟨hd, hh, hm, hs⟩ := hn
    obtain ⟨g1, g2, g3, g4⟩ := noticeTexts_digits s0
    simp only
    rw [banField_digits _ g1, banField_digits _ g2, banField_digits _ g3, banField_digits _ g4,
      hd, hh, hm, hs]
    rw [if_pos (by omega : d < 2 ^ 63), if_pos (by omega : h < 2 ^ 63),
      if_pos (by omega : m < 2 ^ 63), if_pos (by omega : s < 2 ^ 63)]
    rw [banTotal_of_small d h m s hb]
    by_cases hpos : 0 < d * 86400 + h * 3600 + m * 60 + s
    · have hp : ((d * 86400 + h * 3600 + m * 60 + s : Nat) : Int) > 0 := by omega
      rw [if_pos hp, if_pos hpos]
      have e : wrapInt64 (((d * 86400 + h * 3600 + m * 60 + s : Nat) : Int) + 10)
          = ((d * 86400 + h * 3600 + m * 60 + s + 10 : Nat) : Int) := by
        rw [wrapInt64_of_range _ (by omega) (by omega)]
        push_cast
        ring
      rw [e]
    · have hp : ¬ ((d * 86400 + h * 3600 + m * 60 + s : Nat) : Int) > 0 := by omega
      rw [if_neg hp, if_neg hpos]

/-- C1 (counterexample): a notice whose seconds do not fit a 64-bit integer has a
positive total, yet ban detection answers "not banned", because a component
that `strconv.Atoi` rejects is reset to 0. -/
theorem extractBanCooldown_huge_component :
    firstNotice "The ban expires in 99999999999999999999 seconds"
        = some (0, 0, 0, 99999999999999999999) ∧
      extractBanCooldown "The ban expires in 99999999999999999999 seconds" = (false, 0) := by
  decide

/-- C1 (amended): let `d, h, m, s` be the days, hours, minutes and seconds of the
first notice of the body (0 for a missing component) and `total = d*86400 +
h*3600 + m*60 + s`.  When `total + 10` fits a 64-bit signed integer, ban
detection returns `(true, total + 10)` if `total > 0` and `(false, 0)` if
`total = 0` (in particular when no component is present); a body without a
notice gives `(false, 0)`. -/
theorem extractBanCooldown_spec (body : String) :
    (firstNotice body = none → extractBanCooldown body = (false, 0)) ∧
    (∀ d h m s : Nat, firstNotice body = some (d, h, m, s) →
      d * 86400 + h * 3600 + m * 60 + s + 10 < 2 ^ 63 →
      extractBanCooldown body =
        if 0 < d * 86400 + h * 3600 + m * 60 + s then
          (true, ((d * 86400 + h * 3600 + m * 60 + s + 10 : Nat) : Int))
        else (false, 0)) := by
  refine ⟨?_, fun d h m s hn hb => extractBanCooldown_of_notice body d h m s hn hb⟩
  intro hn
  rw [extractBanCooldown_eq]
  unfold firstNotice at hn
  cases ha : afterFirstNotice body.toList with
  | none => rfl
  | some s0 =>
    rw [ha] at hn
    cases hn

/-- C1 (witness): the example of the specification, 1 day 2 hours 3 minutes and 4
seconds, gives `(true, 93794)`. -/
theorem extractBanCooldown_spec_witness :
    firstNotice "The ban expires in 1 day 2 hours 3 minutes and 4 seconds" = some (1, 2, 3, 4) ∧
      1 * 86400 + 2 * 3600 + 3 * 60 + 4 + 10 < 2 ^ 63 ∧
      extractBanCooldown "The ban expires in 1 day 2 hours 3 minutes and 4 seconds"
        = (true, 93794) :=
  ⟨by decide, by decide,
    (extractBanCooldown_spec "The ban expires in 1 day 2 hours 3 minutes and 4 seconds").2
      1 2 3 4 (by decide) (by decide)⟩

/-! ## Listing-page parsing -/

theorem starGreedy_some {α : Type} (p : Char → Bool) (k : List Char → Option α)
    (s : List Char) (r : α) (h : starGreedy p k s = some r) : ∃ s1, k s1 = some r := by
  induction s with
  | nil => exact ⟨[], h⟩
  | cons c t ih =>
    unfold starGreedy at h
    split at h
    · split at h
      · rename_i v hv
        cases h
        exact ih hv
      · exact ⟨_, h⟩
    · exact ⟨_, h⟩

theorem starLazy_some {α : Type} (p : Char → Bool) (k : List Char → Option α)
    (s : List Char) (r : α) (h : starLazy p k s = some r) : ∃ s1, k s1 = some r := by
  induction s with
  | nil => exact ⟨[], h⟩
  | cons c t ih =>
    unfold starLazy at h
    split at h
    · rename_i v hv
      cases h
      exact ⟨_, hv⟩
    · split at h
      · exact ih h
      · cases h

/-- Whatever a match returns was returned by its continuation, called with a
list of submatches as long as the initial one. -/
theorem run_result {α : Type} (P : α → Prop) (L : Nat) (re : Regex) :
    ∀ (k : List Char → Caps → Option α),
      (∀ s1 c1 r, c1.length = L → k s1 c1 = some r → P r) →
      ∀ s c r, c.length = L → re.run s c k = some r → P r := by
  induction re with
  | empty =>
    intro k hk s c r hc h
    exact hk s c r hc h
  | cls p =>
    intro k hk s c r hc h
    cases s with
    | nil => cases h
    | cons x t =>
      simp only [Regex.run] at h
      split at h
      · exact hk t c r hc h
      · cases h
  | cat a b iha ihb =>
    intro k hk s c r hc h
    exact iha (fun s1 c1 => b.run s1 c1 k) (fun s1 c1 r1 hc1 h1 => ihb k hk s1 c1 r1 hc1 h1)
      s c r hc h
  | quest a iha =>
    intro k hk s c r hc h
    simp only [Regex.run] at h
    split at h
    · rename_i v hv
      cases h
      exact iha k hk s c _ hc hv
    · exact hk s c r hc h
  | star p =>
    intro k hk s c r hc h
    obtain ⟨s1, h1⟩ := starGreedy_some p (fun s1 => k s1 c) s r h
    exact hk s1 c r hc h1
  | lazyStar p =>
    intro k hk s c r hc h
    obtain ⟨s1, h1⟩ := starLazy_some p (fun s1 => k s1 c) s r h
    exact hk s1 c r hc h1
  | group i a iha =>
    intro k hk s c r hc h
    exact iha (fun s1 c1 => k s1 (c1.set i (consumed s s1)))
      (fun s1 c1 r1 hc1 h1 => hk s1 _ r1 (by simp [hc1]) h1) s c r hc h

theorem matchAt_length (re : Regex) (n : Nat) (s : List Char) (r : Caps × List Char)
    (h : matchAt re n s = some r) : r.1.length = n + 1 := by
  refine run_result (fun r => r.1.length = n + 1) (n + 1) re _ ?_ s _ r (by simp) h
  intro s1 c1 r1 hc1 h1
  cases h1
  simp [hc1]

theorem findFirst_length (re : Regex) (n : Nat) (s : List Char) (r : Caps × List Char)
    (h : findFirst re n s = some r) : r.1.length = n + 1 := by
  induction s with
  | nil => exact matchAt_length re n [] r h
  | cons c t ih =>
    unfold findFirst at h
    split at h
    · rename_i v hv
      cases h
      exact matchAt_length re n _ _ hv
    · exact ih h

theorem findAllFrom_length (re : Regex) (n : Nat) (fuel : Nat) (s : List Char) :
    ∀ m ∈ findAllFrom re n fuel s, m.length = n + 1 := by
  induction fuel generalizing s with
  | zero => simp [findAllFrom]
  | succ fuel ih =>
    intro m hm
    unfold findAllFrom at hm
    split at hm
    · simp at hm
    · rename_i caps rest hf
      have hl := findFirst_length re n s _ hf
      split at hm
      · rcases List.mem_cons.1 hm with rfl | hm1
        · exact hl
        · split at hm1
          · simp at hm1
          · exact ih _ m hm1
      · rcases List.mem_cons.1 hm with rfl | hm1
        · exact hl
        · exact ih _ m hm1

theorem findAllStringSubmatch_length (re : Regex) (n : Nat) (body : String) :
    ∀ m ∈ findAllStringSubmatch re n body, m.length = n + 1 := by
  intro m hm
  unfold findAllStringSubmatch at hm
  obtain ⟨c, hc, rfl⟩ := List.mem_map.1 hm
  simpa using findAllFrom_length re n _ _ c hc

theorem parseLoop_eq (ms : List (List String)) (hms : ∀ m ∈ ms, m.length = 4)
    (seen : List String) (earlier list : List PageEntry)
    (hseen : ∀ g, seen.contains g = earlier.any (fun x => x.GID == g)) :
    parseLoop ms seen list =
      list ++ dropSeen earlier
        (ms.map (fun m => PageEntry.mk (m.getD 1 "") (m.getD 2 "") (m.getD 3 ""))) := by
  induction ms generalizing seen earlier list with
  | nil => simp [parseLoop, dropSeen]
  | cons m ms ih =>
    have hm : m.length ≥ 4 := by
      have := hms m (List.mem_cons_self m ms)
      omega
    have hms1 : ∀ m1 ∈ ms, m1.length = 4 := fun m1 h1 => hms m1 (List.mem_cons_of_mem m h1)
    simp only [parseLoop, hm, if_true, List.map_cons, dropSeen]
    generalize m.getD 1 "" = gid
    generalize m.getD 2 "" = tok
    generalize m.getD 3 "" = ts
    by_cases hs : seen.contains gid = true
    · have he : earlier.any (fun x => x.GID == gid) = true := by rw [← hseen]; exact hs
      simp only [hs, he, Bool.not_true, if_true]
      simp only [Bool.false_eq_true, if_false]
      apply ih hms1
      intro g
      rw [List.any_append, ← hseen g]
      by_cases hg : gid = g
      · subst hg
        rw [hs]
        rfl
      · have hg1 : (gid == g) = false := by simpa using hg
        simp only [List.any_cons, List.any_nil, Bool.or_false, hg1]
    · have hs0 : seen.contains gid = false := by simpa using hs
      have he : earlier.any (fun x => x.GID == gid) = false := by rw [← hseen]; exact hs0
      simp only [hs0, he, Bool.not_false, if_true, Bool.false_eq_true, if_false]
      rw [ih hms1 (gid :: seen) (earlier ++ [PageEntry.mk gid tok ts])]
      · simp
      · intro g
        rw [List.any_append, ← hseen g]
        simp only [List.contains_cons, List.any_cons, List.any_nil, Bool.or_false]
        rw [Bool.or_comm]
        congr 1
        exact Bool.beq_comm

theorem dropSeen_sublist (earlier es : List PageEntry) : (dropSeen earlier es).Sublist es := by
  induction es generalizing earlier with
  | nil => simp [dropSeen]
  | cons e es ih =>
    unfold dropSeen
    split
    · exact (ih _).cons e
    · exact (ih _).cons₂ e

theorem dropSeen_not_earlier (earlier es : List PageEntry) :
    ∀ e ∈ dropSeen earlier es, earlier.any (fun x => x.GID == e.GID) = false := by
  induction es generalizing earlier with
  | nil => simp [dropSeen]
  | cons a es ih =>
    intro e he
    unfold dropSeen at he
    split at he
    · have := ih _ e he
      rw [List.any_append] at this
      exact (Bool.or_eq_false_iff.1 this).1
    · rename_i hna
      rcases List.mem_cons.1 he with rfl | he1
      · simpa using hna
      · have := ih _ e he1
        rw [List.any_append] at this
        exact (Bool.or_eq_false_iff.1 this).1

theorem dropSeen_nodup (earlier es : List PageEntry) :
    ((dropSeen earlier es).map PageEntry.GID).Nodup := by
  induction es generalizing earlier with
  | nil => simp [dropSeen]
  | cons a es ih =>
    unfold dropSeen
    split
    · exact ih _
    · rw [List.map_cons, List.nodup_cons]
      refine ⟨?_, ih _⟩
      intro hmem
      obtain ⟨e, he, hg⟩ := List.mem_map.1 hmem
      have := dropSeen_not_earlier _ _ e he
      rw [List.any_append] at this
      have h2 := (Bool.or_eq_false_iff.1 this).2
      simp [hg] at h2

theorem dropSeen_first (earlier es : List PageEntry) :
    ∀ e ∈ dropSeen earlier es, es.find? (fun x => x.GID == e.GID) = some e := by
  induction es generalizing earlier with
  | nil => simp [dropSeen]
  | cons a es ih =>
    intro e he
    unfold dropSeen at he
    have hrec : e ∈ dropSeen (earlier ++ [a]) es →
        List.find? (fun x => x.GID == e.GID) (a :: es) = some e := by
      intro he1
      have hne := dropSeen_not_earlier _ _ e he1
      rw [List.any_append] at hne
      have h2 : (a.GID == e.GID) = false := by
        simpa using (Bool.or_eq_false_iff.1 hne).2
      rw [List.find?_cons, h2]
      exact ih _ e he1
    split at he
    · exact hrec he
    · rcases List.mem_cons.1 he with rfl | he1
      · simp
      · exact hrec he1

theorem dropSeen_count (earlier es : List PageEntry) (g : String) :
    ((dropSeen earlier es).filter (fun x => x.GID == g)).length =
      if earlier.any (fun x => x.GID == g) then 0
      else if es.any (fun x => x.GID == g) then 1 else 0 := by
  induction es generalizing earlier with
  | nil => simp [dropSeen]
  | cons a es ih =>
    unfold dropSeen
    by_cases hg : a.GID = g
    · subst hg
      by_cases he : earlier.any (fun x => x.GID == a.GID) = true
      · simp [he, ih]
      · simp [he, ih, List.filter_cons]
    · have hg1 : (a.GID == g) = false := by simpa using hg
      by_cases he : earlier.any (fun x => x.GID == a.GID) = true
      · simp [he, ih, hg1]
      · simp [he, ih, hg1, List.filter_cons]

/-! ## Listing-page parsing: the matcher on the listing pattern -/

theorem pageRe_eq :
    pageRe = .cat (Regex.lit "gid=") (.cat (.group 1 (Regex.plus isDigit))
      (.cat (.lazyStar isDot) tokenTail)) := rfl

theorem stripShape_append (ps qs : List (Char → Bool)) (s : List Char) :
    stripShape (ps ++ qs) s =
      match stripShape ps s with
      | some r => stripShape qs r
      | none => none := by
  induction ps generalizing s with
  | nil => rfl
  | cons p ps ih =>
    cases s with
    | nil =>
      cases qs <;> rfl
    | cons x t =>
      by_cases hx : p x = true
      · simp only [List.cons_append, stripShape, hx, if_true]
        exact ih t
      · simp only [List.cons_append, stripShape, hx]
        rfl

theorem stripShape_split (ps : List (Char → Bool)) (s r : List Char)
    (h : stripShape ps s = some r) :
    ∃ pre, s = pre ++ r ∧ pre.length = ps.length ∧
      ∀ x ∈ pre, ∃ p ∈ ps, p x = true := by
  induction ps generalizing s with
  | nil =>
    simp only [stripShape, Option.some.injEq] at h
    exact ⟨[], by simp [h], rfl, by simp⟩
  | cons p ps ih =>
    cases s with
    | nil => cases h
    | cons x t =>
      by_cases hx : p x = true
      · simp only [stripShape, hx, if_true] at h
        obtain ⟨pre, hs, hl, hp⟩ := ih t h
        refine ⟨x :: pre, by simp [hs], by simp [hl], ?_⟩
        intro y hy
        rcases List.mem_cons.1 hy with rfl | hy1
        · exact ⟨p, List.mem_cons_self _ _, hx⟩
        · obtain ⟨q, hq, hqy⟩ := hp y hy1
          exact ⟨q, List.mem_cons_of_mem _ hq, hqy⟩
      · simp only [stripShape, hx] at h
        cases h

theorem consumed_append (pre r : List Char) : consumed (pre ++ r) r = pre := by
  unfold consumed
  simp

theorem stripShape_consumed (ps : List (Char → Bool)) (s r : List Char)
    (h : stripShape ps s = some r) : consumed s r = s.take ps.length := by
  obtain ⟨pre, hs, hl, -⟩ := stripShape_split ps s r h
  rw [hs, consumed_append, ← hl]
  simp

theorem shaped_empty : Shaped .empty [] := fun _ _ _ _ => rfl

theorem shaped_cls (p : Char → Bool) : Shaped (.cls p) [p] := by
  intro α k s c
  cases s with
  | nil => rfl
  | cons x t =>
    by_cases hx : p x = true
    · simp [Regex.run, stripShape, hx]
    · simp [Regex.run, stripShape, hx]

theorem shaped_cat (a b : Regex) (ps qs : List (Char → Bool)) (ha : Shaped a ps)
    (hb : Shaped b qs) : Shaped (.cat a b) (ps ++ qs) := by
  intro α k s c
  simp only [Regex.run]
  rw [ha, stripShape_append]
  cases stripShape ps s with
  | none => rfl
  | some r => exact hb α k r c

theorem shaped_seq (ps : List (Char → Bool)) : Shaped (Regex.seq (ps.map Regex.cls)) ps := by
  induction ps with
  | nil => exact shaped_empty
  | cons p ps ih => exact shaped_cat _ _ [p] ps (shaped_cls p) ih

theorem shaped_lit (w : String) : Shaped (Regex.lit w) (litShape w) := by
  have h := shaped_seq (litShape w)
  unfold litShape at h
  rw [List.map_map] at h
  exact h

theorem shaped_rep (n : Nat) (p : Char → Bool) : Shaped (Regex.rep n p) (List.replicate n p) := by
  have h := shaped_seq (List.replicate n p)
  rw [List.map_replicate] at h
  exact h

theorem shaped_stampRe : Shaped stampRe stampShape :=
  shaped_cat _ _ _ _ (shaped_rep 4 isDigit) (shaped_cat _ _ _ _ (shaped_lit "-")
    (shaped_cat _ _ _ _ (shaped_rep 2 isDigit) (shaped_cat _ _ _ _ (shaped_lit "-")
    (shaped_cat _ _ _ _ (shaped_rep 2 isDigit) (shaped_cat _ _ _ _ (shaped_cls isSpace)
    (shaped_cat _ _ _ _ (shaped_rep 2 isDigit) (shaped_cat _ _ _ _ (shaped_lit ":")
    (shaped_cat _ _ _ _ (shaped_rep 2 isDigit) shaped_empty))))))))

theorem run_stampTail {α : Type} (k : List Char → Caps → Option α) (v : List Char) (c : Caps) :
    stampTail.run v c k =
      match stampAt v with
      | some (ts, rest) => k rest (c.set 3 ts)
      | none => none := by
  have h1 : stampTail.run v c k =
      (Regex.lit ">").run v c (fun v1 c1 => stampRe.run v1 c1 (fun v2 c2 =>
        (Regex.lit "<").run v2 (c2.set 3 (consumed v1 v2)) (fun v3 c3 => k v3 c3))) := rfl
  rw [h1, shaped_lit ">"]
  unfold stampAt
  cases hu : stripShape (litShape ">") v with
  | none => rfl
  | some u =>
    dsimp only
    rw [shaped_stampRe]
    cases hv : stripShape stampShape u with
    | none => rfl
    | some w =>
      dsimp only
      rw [shaped_lit "<", stripShape_consumed stampShape u w hv]
      cases hr : stripShape (litShape "<") w with
      | none => rfl
      | some r => rfl

theorem starLazy_firstOnLine {α β : Type} (f : List Char → Option β) (g : β → Option α)
    (hg : ∀ b, ∃ r, g b = some r) (s : List Char) :
    starLazy isDot (fun s1 => (f s1).bind g) s = (firstOnLine f s).bind g := by
  induction s with
  | nil => rfl
  | cons x t ih =>
    unfold starLazy firstOnLine
    cases hf : f (x :: t) with
    | some b =>
      obtain ⟨r, hr⟩ := hg b
      simp only [Option.some_bind, hr]
    | none =>
      dsimp only [Option.none_bind]
      by_cases hx : x = '\n'
      · simp [isDot, hx]
      · rw [if_neg hx, if_pos (by simpa [isDot] using hx)]
        exact ih

theorem run_lazy_stampTail {α : Type} (k : List Char → Caps → Option α) (hk : Total k)
    (u : List Char) (c : Caps) :
    (Regex.cat (.lazyStar isDot) stampTail).run u c k =
      match firstOnLine stampAt u with
      | some (ts, rest) => k rest (c.set 3 ts)
      | none => none := by
  have h1 : (Regex.cat (.lazyStar isDot) stampTail).run u c k =
      starLazy isDot (fun s1 => stampTail.run s1 c k) u := rfl
  rw [h1]
  have h2 : (fun s1 => stampTail.run s1 c k) =
      (fun s1 => (stampAt s1).bind (fun b => k b.2 (c.set 3 b.1))) := by
    funext s1
    rw [run_stampTail]
    cases stampAt s1 <;> rfl
  rw [h2, starLazy_firstOnLine stampAt (fun b => k b.2 (c.set 3 b.1)) (fun b => hk _ _)]
  cases firstOnLine stampAt u <;> rfl

theorem run_tokenTail {α : Type} (k : List Char → Caps → Option α) (hk : Total k)
    (u : List Char) (c : Caps) :
    tokenTail.run u c k =
      match tokenAt u with
      | none => none
      | some (tok, u2) =>
        match firstOnLine stampAt u2 with
        | some (ts, rest) => k rest ((c.set 2 tok).set 3 ts)
        | none => none := by
  have h1 : tokenTail.run u c k =
      (Regex.lit "t=").run u c (fun v1 c1 => (Regex.rep 10 isHexLower).run v1 c1 (fun v2 c2 =>
        (Regex.cat (.lazyStar isDot) stampTail).run v2 (c2.set 2 (consumed v1 v2)) k)) := rfl
  rw [h1, shaped_lit "t="]
  unfold tokenAt
  cases hu : stripShape (litShape "t=") u with
  | none => rfl
  | some v =>
    dsimp only
    rw [shaped_rep 10 isHexLower]
    cases hv : stripShape (List.replicate 10 isHexLower) v with
    | none => rfl
    | some w =>
      dsimp only
      rw [run_lazy_stampTail k hk, stripShape_consumed _ v w hv]
      simp only [List.length_replicate]

theorem litShape_gt : litShape ">" = [fun x => x == '>'] := rfl

theorem litShape_token : litShape "t=" = [fun x => x == 't', fun x => x == '='] := rfl

theorem stampAt_of_ne (x : Char) (t : List Char) (hx : x ≠ '>') : stampAt (x :: t) = none := by
  unfold stampAt
  rw [litShape_gt]
  simp [stripShape, hx]

theorem tokenAt_of_ne (x : Char) (t : List Char) (hx : x ≠ 't') : tokenAt (x :: t) = none := by
  unfold tokenAt
  rw [litShape_token]
  simp [stripShape, hx]

theorem tokenAt_nil : tokenAt [] = none := rfl

theorem firstOnLine_cons_none {β : Type} (f : List Char → Option β) (x : Char) (t : List Char)
    (hf : f (x :: t) = none) :
    firstOnLine f (x :: t) = if x = '\n' then none else firstOnLine f t := by
  simp only [firstOnLine, hf]

theorem firstOnLine_cons_some {β : Type} (f : List Char → Option β) (x : Char) (t : List Char)
    (b : β) (hf : f (x :: t) = some b) : firstOnLine f (x :: t) = some b := by
  simp only [firstOnLine, hf]

theorem firstOnLine_stamp_skip (pre u2 : List Char) (h : ∀ x ∈ pre, x ≠ '>' ∧ x ≠ '\n') :
    firstOnLine stampAt (pre ++ u2) = firstOnLine stampAt u2 := by
  induction pre with
  | nil => rfl
  | cons x pre ih =>
    have hx := h x (List.mem_cons_self x pre)
    rw [List.cons_append, firstOnLine_cons_none stampAt x _ (stampAt_of_ne x _ hx.1), if_neg hx.2]
    exact ih (fun y hy => h y (List.mem_cons_of_mem x hy))

theorem isHexLower_plain (x : Char) (h : isHexLower x = true) : x ≠ '>' ∧ x ≠ '\n' := by
  constructor
  · rintro rfl
    revert h
    decide
  · rintro rfl
    revert h
    decide

theorem tokenAt_split (u tok u2 : List Char) (h : tokenAt u = some (tok, u2)) :
    ∃ pre, u = pre ++ u2 ∧ 0 < pre.length ∧ ∀ x ∈ pre, x ≠ '>' ∧ x ≠ '\n' := by
  unfold tokenAt at h
  cases hv : stripShape (litShape "t=") u with
  | none =>
    rw [hv] at h
    cases h
  | some v =>
    rw [hv] at h
    dsimp only at h
    cases hw : stripShape (List.replicate 10 isHexLower) v with
    | none =>
      rw [hw] at h
      cases h
    | some w =>
      rw [hw] at h
      simp only [Option.some.injEq, Prod.mk.injEq] at h
      obtain ⟨p1, h1, hl1, hc1⟩ := stripShape_split _ _ _ hv
      obtain ⟨p2, h2, -, hc2⟩ := stripShape_split _ _ _ hw
      refine ⟨p1 ++ p2, ?_, ?_, ?_⟩
      · rw [h1, h2, h.2, List.append_assoc]
      · rw [List.length_append, hl1]
        simp [litShape_token]
      · intro x hx
        rcases List.mem_append.1 hx with hx1 | hx2
        · obtain ⟨p, hp, hpx⟩ := hc1 x hx1
          rw [litShape_token] at hp
          simp only [List.mem_cons, List.mem_singleton, List.not_mem_nil, or_false] at hp
          rcases hp with rfl | rfl
          · have : x = 't' := by simpa using hpx
            subst this
            exact ⟨by decide, by decide⟩
          · have : x = '=' := by simpa using hpx
            subst this
            exact ⟨by decide, by decide⟩
        · obtain ⟨p, hp, hpx⟩ := hc2 x hx2
          have := List.eq_of_mem_replicate hp
          subst this
          exact isHexLower_plain x hpx

theorem tokenTail_fails {α : Type} (k : List Char → Caps → Option α) (hk : Total k) (c : Caps)
    (s : List Char) (h : firstOnLine stampAt s = none) :
    starLazy isDot (fun s1 => tokenTail.run s1 c k) s = none := by
  induction s with
  | nil =>
    unfold starLazy
    rw [run_tokenTail k hk, tokenAt_nil]
  | cons x t ih =>
    have hhead : tokenTail.run (x :: t) c k = none := by
      rw [run_tokenTail k hk]
      cases ht : tokenAt (x :: t) with
      | none => rfl
      | some b =>
        obtain ⟨tok, u2⟩ := b
        obtain ⟨pre, hu, -, hpre⟩ := tokenAt_split _ _ _ ht
        have h2 : firstOnLine stampAt u2 = none := by
          rw [← firstOnLine_stamp_skip pre u2 hpre, ← hu]
          exact h
        dsimp only
        rw [h2]
    unfold starLazy
    rw [hhead]
    dsimp only
    by_cases hx : x = '\n'
    · simp [isDot, hx]
    · rw [if_pos (by simpa [isDot] using hx)]
      apply ih
      have hs : stampAt (x :: t) = none := by
        cases hst : stampAt (x :: t) with
        | none => rfl
        | some b =>
          rw [firstOnLine_cons_some stampAt x t b hst] at h
          cases h
      rw [firstOnLine_cons_none stampAt x t hs, if_neg hx] at h
      exact h

theorem run_lazy_tokenTail {α : Type} (k : List Char → Caps → Option α) (hk : Total k)
    (s : List Char) (c : Caps) :
    (Regex.cat (.lazyStar isDot) tokenTail).run s c k =
      match tailScan s with
      | some (tok, ts, rest) => k rest ((c.set 2 tok).set 3 ts)
      | none => none := by
  have h1 : (Regex.cat (.lazyStar isDot) tokenTail).run s c k =
      starLazy isDot (fun s1 => tokenTail.run s1 c k) s := rfl
  rw [h1]
  clear h1
  unfold tailScan
  induction s with
  | nil =>
    unfold starLazy
    rw [run_tokenTail k hk]
    rfl
  | cons x t ih =>
    cases ht : tokenAt (x :: t) with
    | none =>
      have hhead : tokenTail.run (x :: t) c k = none := by
        rw [run_tokenTail k hk, ht]
      unfold starLazy
      rw [hhead, firstOnLine_cons_none tokenAt x t ht]
      dsimp only
      by_cases hx : x = '\n'
      · simp [isDot, hx]
      · rw [if_pos (by simpa [isDot] using hx), if_neg hx]
        exact ih
    | some b =>
      obtain ⟨tok, u2⟩ := b
      rw [firstOnLine_cons_some tokenAt x t _ ht]
      dsimp only
      cases hs : firstOnLine stampAt u2 with
      | some b2 =>
        obtain ⟨ts, rest⟩ := b2
        dsimp only
        obtain ⟨r, hr⟩ := hk rest ((c.set 2 tok).set 3 ts)
        have hhead : tokenTail.run (x :: t) c k = some r := by
          rw [run_tokenTail k hk, ht]
          dsimp only
          rw [hs]
          exact hr
        unfold starLazy
        rw [hhead, hr]
      | none =>
        dsimp only
        obtain ⟨pre, hu, -, hpre⟩ := tokenAt_split _ _ _ ht
        have hno : firstOnLine stampAt (x :: t) = none := by
          rw [hu, firstOnLine_stamp_skip pre u2 hpre]
          exact hs
        exact tokenTail_fails k hk c (x :: t) hno

theorem tailScan_digit (x : Char) (t : List Char) (hx : isDigit x = true) :
    tailScan (x :: t) = tailScan t := by
  have h1 : x ≠ 't' := by
    rintro rfl
    revert hx
    decide
  have h2 : x ≠ '\n' := by
    rintro rfl
    revert hx
    decide
  unfold tailScan
  rw [firstOnLine_cons_none tokenAt x t (tokenAt_of_ne x t h1), if_neg h2]

theorem tailScan_dropWhile (s : List Char) (h : tailScan (s.dropWhile isDigit) = none) :
    tailScan s = none := by
  induction s with
  | nil => exact h
  | cons x t ih =>
    by_cases hx : isDigit x = true
    · rw [tailScan_digit x t hx]
      apply ih
      rwa [List.dropWhile_cons_of_pos hx] at h
    · rwa [List.dropWhile_cons_of_neg hx] at h

theorem starGreedy_digits {α : Type} (K : List Char → Option α)
    (hK : ∀ s2, K s2 = none ↔ tailScan s2 = none) (s : List Char) :
    starGreedy isDigit K s = K (s.dropWhile isDigit) := by
  cases hd : K (s.dropWhile isDigit) with
  | some r => exact starGreedy_of_accept isDigit K s r hd
  | none =>
    have hq := (hK _).1 hd
    clear hd
    induction s with
    | nil => exact (hK _).2 hq
    | cons x t ih =>
      by_cases hx : isDigit x = true
      · rw [List.dropWhile_cons_of_pos hx] at hq
        have h1 := ih hq
        have h2 : K (x :: t) = none := (hK _).2 (tailScan_dropWhile (x :: t) (by
          rwa [List.dropWhile_cons_of_pos hx]))
        simp only [starGreedy, hx, if_true, h1, h2]
      · rw [List.dropWhile_cons_of_neg hx] at hq
        simp only [starGreedy, hx]
        exact (hK _).2 hq

theorem tripleAt_eq (s : List Char) :
    tripleAt s =
      match stripShape (litShape "gid=") s with
      | none => none
      | some s1 =>
        match s1.takeWhile isDigit with
        | [] => none
        | d :: ds =>
          match tailScan (s1.dropWhile isDigit) with
          | none => none
          | some (tok, ts, rest) =>
            some (PageEntry.mk (String.mk (d :: ds)) (String.mk tok) (String.mk ts), rest) := by
  unfold tripleAt tailScan
  cases stripShape (litShape "gid=") s with
  | none => rfl
  | some s1 =>
    dsimp only
    cases s1.takeWhile isDigit with
    | nil => rfl
    | cons d ds =>
      dsimp only
      cases firstOnLine tokenAt (s1.dropWhile isDigit) with
      | none => rfl
      | some b =>
        obtain ⟨tok, u2⟩ := b
        dsimp only
        cases firstOnLine stampAt u2 with
        | none => rfl
        | some b2 => rfl

theorem matchAt_pageRe (s : List Char) :
    matchAt pageRe 3 s =
      match tripleAt s with
      | some (e, rest) =>
        some ([consumed s rest, e.GID.data, e.Token.data, e.Posted.data], rest)
      | none => none := by
  have h1 : matchAt pageRe 3 s =
      (Regex.lit "gid=").run s [[], [], [], []] (fun s1 c1 =>
        match s1 with
        | [] => none
        | x :: t =>
          if isDigit x then
            starGreedy isDigit (fun s2 =>
              (Regex.cat (.lazyStar isDot) tokenTail).run s2 (c1.set 1 (consumed s1 s2))
                (fun rest c => some (c.set 0 (consumed s rest), rest))) t
          else none) := rfl
  have hk : Total (fun (rest : List Char) (c : Caps) => some (c.set 0 (consumed s rest), rest)) :=
    fun rest c => ⟨_, rfl⟩
  rw [h1, shaped_lit "gid=", tripleAt_eq]
  cases stripShape (litShape "gid=") s with
  | none => rfl
  | some s1 =>
    dsimp only
    cases s1 with
    | nil => rfl
    | cons x t =>
      dsimp only
      by_cases hx : isDigit x = true
      · rw [if_pos hx, starGreedy_digits]
        · rw [run_lazy_tokenTail _ hk]
          have hc : consumed (x :: t) (t.dropWhile isDigit) = x :: t.takeWhile isDigit := by
            have := consumed_takeWhile isDigit (x :: t)
            rwa [List.dropWhile_cons_of_pos hx, List.takeWhile_cons_of_pos hx] at this
          rw [hc, List.takeWhile_cons_of_pos hx, List.dropWhile_cons_of_pos hx]
          dsimp only
          cases tailScan (t.dropWhile isDigit) with
          | none => rfl
          | some b => rfl
        · intro s2
          rw [run_lazy_tokenTail _ hk]
          cases tailScan s2 with
          | none => simp
          | some b => simp
      · rw [if_neg hx, List.takeWhile_cons_of_neg hx]

theorem stripShape_suffix (ps : List (Char → Bool)) (s r : List Char)
    (h : stripShape ps s = some r) : r <:+ s ∧ r.length + ps.length = s.length := by
  obtain ⟨pre, hs, hl, -⟩ := stripShape_split ps s r h
  refine ⟨⟨pre, hs.symm⟩, ?_⟩
  rw [hs, List.length_append, hl]
  omega

theorem firstOnLine_suffix {β : Type} (f : List Char → Option β) (g : β → List Char)
    (hf : ∀ s b, f s = some b → g b <:+ s) (s : List Char) (b : β)
    (h : firstOnLine f s = some b) : g b <:+ s := by
  induction s with
  | nil => exact hf [] b h
  | cons x t ih =>
    cases hx : f (x :: t) with
    | some b1 =>
      rw [firstOnLine_cons_some f x t b1 hx] at h
      cases h
      exact hf _ _ hx
    | none =>
      rw [firstOnLine_cons_none f x t hx] at h
      by_cases hn : x = '\n'
      · rw [if_pos hn] at h
        cases h
      · rw [if_neg hn] at h
        exact (ih h).trans (List.suffix_cons x t)

theorem tokenAt_suffix (u : List Char) (b : List Char × List Char) (h : tokenAt u = some b) :
    b.2 <:+ u := by
  obtain ⟨tok, u2⟩ := b
  obtain ⟨pre, hu, -, -⟩ := tokenAt_split u tok u2 h
  exact ⟨pre, hu.symm⟩

theorem stampAt_suffix (v : List Char) (b : List Char × List Char) (h : stampAt v = some b) :
    b.2 <:+ v := by
  unfold stampAt at h
  cases h1 : stripShape (litShape ">") v with
  | none =>
    rw [h1] at h
    cases h
  | some u =>
    rw [h1] at h
    dsimp only at h
    cases h2 : stripShape stampShape u with
    | none =>
      rw [h2] at h
      cases h
    | some w =>
      rw [h2] at h
      dsimp only at h
      cases h3 : stripShape (litShape "<") w with
      | none =>
        rw [h3] at h
        cases h
      | some r =>
        rw [h3] at h
        cases h
        exact ((stripShape_suffix _ _ _ h3).1.trans (stripShape_suffix _ _ _ h2).1).trans
          (stripShape_suffix _ _ _ h1).1

theorem tripleAt_suffix (s : List Char) (e : PageEntry) (rest : List Char)
    (h : tripleAt s = some (e, rest)) : rest <:+ s ∧ rest.length < s.length := by
  unfold tripleAt at h
  cases h1 : stripShape (litShape "gid=") s with
  | none =>
    rw [h1] at h
    cases h
  | some s1 =>
    rw [h1] at h
    dsimp only at h
    cases h2 : s1.takeWhile isDigit with
    | nil =>
      rw [h2] at h
      cases h
    | cons d ds =>
      rw [h2] at h
      dsimp only at h
      cases h3 : firstOnLine tokenAt (s1.dropWhile isDigit) with
      | none =>
        rw [h3] at h
        cases h
      | some b =>
        obtain ⟨tok, u2⟩ := b
        rw [h3] at h
        dsimp only at h
        cases h4 : firstOnLine stampAt u2 with
        | none =>
          rw [h4] at h
          cases h
        | some b2 =>
          obtain ⟨ts, r⟩ := b2
          rw [h4] at h
          simp only [Option.some.injEq, Prod.mk.injEq] at h
          obtain ⟨-, rfl⟩ := h
          have e1 := stripShape_suffix _ _ _ h1
          have e3 : u2 <:+ s1.dropWhile isDigit :=
            firstOnLine_suffix tokenAt Prod.snd tokenAt_suffix _ _ h3
          have e4 : r <:+ u2 := firstOnLine_suffix stampAt Prod.snd stampAt_suffix _ _ h4
          have e5 : r <:+ s1 := (e4.trans e3).trans (List.dropWhile_suffix isDigit)
          refine ⟨e5.trans e1.1, ?_⟩
          have hl := e5.length_le
          have hg : (litShape "gid=").length = 4 := rfl
          omega

theorem scanTriples_skip (pre r : List Char) :
    scanTriples (pre ++ r) pre.length = scanTriples r 0 := by
  induction pre with
  | nil => rfl
  | cons x pre ih =>
    rw [List.cons_append, List.length_cons, scanTriples]
    exact ih

theorem findFirst_pageRe (s : List Char) :
    match findFirst pageRe 3 s with
    | none => scanTriples s 0 = []
    | some (caps, rest) =>
      rest.length < s.length ∧ caps.headD [] ≠ [] ∧ caps.length = 4 ∧
      scanTriples s 0 =
        PageEntry.mk (String.mk (caps.getD 1 [])) (String.mk (caps.getD 2 []))
          (String.mk (caps.getD 3 [])) :: scanTriples rest 0 := by
  induction s with
  | nil => rfl
  | cons x t ih =>
    unfold findFirst
    rw [matchAt_pageRe]
    cases ht : tripleAt (x :: t) with
    | some b =>
      obtain ⟨e, rest⟩ := b
      dsimp only
      obtain ⟨hsuf, hlen⟩ := tripleAt_suffix _ _ _ ht
      refine ⟨hlen, ?_, rfl, ?_⟩
      · intro hc
        have hl : (consumed (x :: t) rest).length = 0 := by
          have h0 : consumed (x :: t) rest = [] := hc
          rw [h0]
          rfl
        unfold consumed at hl
        rw [List.length_take] at hl
        omega
      · have hsuf2 : rest <:+ t := by
          rcases List.suffix_cons_iff.1 hsuf with h1 | h1
          · rw [h1] at hlen
            omega
          · exact h1
        obtain ⟨pre, hpre⟩ := hsuf2
        have hskip : scanTriples t (t.length - rest.length) = scanTriples rest 0 := by
          rw [← hpre, List.length_append, Nat.add_sub_cancel]
          exact scanTriples_skip pre rest
        show scanTriples (x :: t) 0 = e :: scanTriples rest 0
        rw [scanTriples, ht]
        dsimp only
        rw [hskip]
    | none =>
      dsimp only
      have hs : scanTriples (x :: t) 0 = scanTriples t 0 := by
        rw [scanTriples, ht]
      cases hf : findFirst pageRe 3 t with
      | none =>
        rw [hf] at ih
        dsimp only at ih ⊢
        rw [hs]
        exact ih
      | some b =>
        obtain ⟨caps, rest⟩ := b
        rw [hf] at ih
        dsimp only at ih ⊢
        obtain ⟨h1, h2, h3, h4⟩ := ih
        refine ⟨?_, h2, h3, ?_⟩
        · rw [List.length_cons]
          omega
        · rw [hs]
          exact h4

theorem findAllFrom_pageRe (fuel : Nat) (s : List Char) (h : s.length < fuel) :
    (findAllFrom pageRe 3 fuel s).map (fun c =>
        PageEntry.mk (String.mk (c.getD 1 [])) (String.mk (c.getD 2 [])) (String.mk (c.getD 3 [])))
      = scanTriples s 0 := by
  induction fuel generalizing s with
  | zero => omega
  | succ fuel ih =>
    have hf := findFirst_pageRe s
    unfold findAllFrom
    cases hc : findFirst pageRe 3 s with
    | none =>
      rw [hc] at hf
      dsimp only at hf ⊢
      rw [hf]
      rfl
    | some b =>
      obtain ⟨caps, rest⟩ := b
      rw [hc] at hf
      dsimp only at hf ⊢
      obtain ⟨h1, h2, -, h4⟩ := hf
      rw [if_neg h2, List.map_cons, ih rest (by omega), h4]

theorem pageTriples_eq (body : String) :
    (findAllStringSubmatch pageRe 3 body).map
        (fun m => PageEntry.mk (m.getD 1 "") (m.getD 2 "") (m.getD 3 ""))
      = pageTriples body := by
  unfold pageTriples
  rw [← findAllFrom_pageRe (body.length + 1) body.toList (by
    show body.data.length < body.length + 1
    exact Nat.lt_succ_self _)]
  unfold findAllStringSubmatch
  rw [List.map_map]
  apply List.map_congr_left
  intro c hc
  have hl := findAllFrom_length pageRe 3 _ _ c hc
  match c, hl with
  | [w, a, b, d], _ => rfl

/-- C2: `parsePageEntries` never returns an error, and the list it returns is
the sequence of (id, token, timestamp) triples of the document (`pageTriples`,
read from the text without the pattern of the source), in document order,
without the triples whose id occurred earlier in the document.
Hence no two returned entries share an id, every returned entry is the first
triple of the document with its id, and every id matched in the document has
exactly one returned entry. -/
theorem parsePageEntries_spec (body : String) :
    (parsePageEntries body).2 = none ∧
    (parsePageEntries body).1 = dropSeen [] (pageTriples body) ∧
    (parsePageEntries body).1.Sublist (pageTriples body) ∧
    ((parsePageEntries body).1.map PageEntry.GID).Nodup ∧
    (∀ e ∈ (parsePageEntries body).1,
      (pageTriples body).find? (fun x => x.GID == e.GID) = some e) ∧
    (∀ t ∈ pageTriples body,
      ((parsePageEntries body).1.filter (fun x => x.GID == t.GID)).length = 1) := by
  have heq : (parsePageEntries body).1 = dropSeen [] (pageTriples body) := by
    unfold parsePageEntries
    have h := parseLoop_eq (findAllStringSubmatch pageRe 3 body)
      (findAllStringSubmatch_length pageRe 3 body) [] [] [] (fun g => rfl)
    rw [pageTriples_eq] at h
    simpa using h
  refine ⟨rfl, heq, ?_, ?_, ?_, ?_⟩
  · rw [heq]
    exact dropSeen_sublist _ _
  · rw [heq]
    exact dropSeen_nodup _ _
  · rw [heq]
    exact dropSeen_first _ _
  · intro t ht
    rw [heq, dropSeen_count]
    have hany : (pageTriples body).any (fun x => x.GID == t.GID) = true :=
      List.any_eq_true.2 ⟨t, ht, by simp⟩
    simp [hany]

/-- C2 (witness): a listing that names the ids 500, 480 and 500 again has three
triples, and `parsePageEntries` returns the first two: one entry for the id
500, with the token and the timestamp of its first occurrence. -/
theorem parsePageEntries_spec_witness :
    pageTriples "gid=500&t=0123456789 >2024-01-03 10:00< gid=480&t=0123456789 >2024-01-02 10:00< gid=500&t=aaaaaaaaaa >2024-01-01 10:00<"
      = [{ GID := "500", Token := "0123456789", Posted := "2024-01-03 10:00" },
         { GID := "480", Token := "0123456789", Posted := "2024-01-02 10:00" },
         { GID := "500", Token := "aaaaaaaaaa", Posted := "2024-01-01 10:00" }] ∧
    parsePageEntries "gid=500&t=0123456789 >2024-01-03 10:00< gid=480&t=0123456789 >2024-01-02 10:00< gid=500&t=aaaaaaaaaa >2024-01-01 10:00<"
      = ([{ GID := "500", Token := "0123456789", Posted := "2024-01-03 10:00" },
          { GID := "480", Token := "0123456789", Posted := "2024-01-02 10:00" }], none) :=
  ⟨by decide,
    Prod.ext
      ((parsePageEntries_spec "gid=500&t=0123456789 >2024-01-03 10:00< gid=480&t=0123456789 >2024-01-02 10:00< gid=500&t=aaaaaaaaaa >2024-01-01 10:00<").2.1.trans
        (by decide))
      (parsePageEntries_spec "gid=500&t=0123456789 >2024-01-03 10:00< gid=480&t=0123456789 >2024-01-02 10:00< gid=500&t=aaaaaaaaaa >2024-01-01 10:00<").1⟩

/-! ## Page import: chunks, retries and isolation -/

theorem chunksAux_fuel {α : Type} (fuel : Nat) (l : List α) (h : l.length ≤ fuel) :
    chunksAux fuel l = chunksAux l.length l := by
  induction fuel using Nat.strong_induction_on generalizing l with
  | _ fuel ih =>
    cases l with
    | nil => cases fuel <;> rfl
    | cons a l =>
      cases fuel with
      | zero => simp at h
      | succ fuel =>
        simp only [chunksAux, List.length_cons]
        congr 1
        have hlen : ((a :: l).drop batchSize).length ≤ l.length := by
          simp [batchSize]
        rw [ih fuel (Nat.lt_succ_self _) _ (by simp at h; omega),
          ih l.length (by simp at h; omega) _ hlen]

theorem chunks_nil {α : Type} : chunks ([] : List α) = [] := rfl

theorem chunks_of_ne_nil {α : Type} (l : List α) (h : l ≠ []) :
    chunks l = l.take batchSize :: chunks (l.drop batchSize) := by
  cases l with
  | nil => exact absurd rfl h
  | cons a l =>
    unfold chunks
    simp only [List.length_cons, chunksAux]
    congr 1
    exact chunksAux_fuel _ _ (by simp [batchSize])

theorem batch_slice {α : Type} (entries : List α) (i : Nat) :
    (entries.take (if i + batchSize > entries.length then entries.length else i + batchSize)).drop i
      = (entries.drop i).take batchSize := by
  split
  · rename_i h
    rw [List.take_of_length_le (Nat.le_refl _)]
    rw [List.take_of_length_le]
    simp only [List.length_drop]
    omega
  · rw [List.drop_take]
    congr 1
    omega

/-- The index loop of `importPage` visits the chunks of the entries that remain. -/
theorem importLoop_eq_importChunks (env : Env) (entries : List PageEntry) (fuel i : Nat)
    (cnt : Int) (st : Net × Store) (hf : entries.length - i < fuel) :
    importLoop env entries fuel i cnt st = importChunks env (chunks (entries.drop i)) cnt st := by
  induction fuel generalizing i cnt st with
  | zero => omega
  | succ fuel ih =>
    obtain ⟨net, db⟩ := st
    by_cases hi : i < entries.length
    · have hne : entries.drop i ≠ [] := by
        intro h
        have := congrArg List.length h
        simp at this
        omega
      rw [chunks_of_ne_nil _ hne, List.drop_drop]
      simp only [importLoop, hi, if_true, batch_slice, importChunks]
      have hf1 : entries.length - (i + batchSize) < fuel := by
        simp only [batchSize]
        omega
      cases hm : metadataRetry env (List.take batchSize (List.drop i entries))
          env.RetryCount.toNat (none, none) net with
      | mk res net1 =>
        obtain ⟨r, e⟩ := res
        cases r with
        | none =>
          cases e with
          | none => rfl
          | some err => exact ih _ _ _ hf1
        | some apiResp =>
          cases e with
          | some err => exact ih _ _ _ hf1
          | none =>
            dsimp only
            split
            · exact ih _ _ _ hf1
            · exact ih _ _ _ hf1
    · have hd : entries.drop i = [] := List.drop_eq_nil_of_le (by omega)
      rw [hd, chunks_nil]
      simp [importLoop, hi, importChunks]
/-- What the retry loop of `getMetadatas` does to the network state: it sends
`k` requests with the same `gidlist`, at most one per attempt, all attempts when
no valid response arrives, and touches nothing else. -/
theorem apiAttempts_net (env : Env) (gidlist : List (Int × String)) (n : Nat) (net : Net) :
    ∃ k, k ≤ n ∧
      (apiAttempts env gidlist n net).2 =
        { net with apiReqs := net.apiReqs ++ List.replicate k gidlist } ∧
      ((apiAttempts env gidlist n net).1 = none → k = n) ∧
      (1 ≤ n → 1 ≤ k) := by
  induction n generalizing net with
  | zero => exact ⟨0, Nat.le_refl 0, by simp [apiAttempts], fun _ => rfl, fun h => h⟩
  | succ n ih =>
    obtain ⟨k, hk, hnet, hnone, -⟩ :=
      ih { net with apiReqs := net.apiReqs ++ [gidlist] }
    have hrec : ∃ k, k ≤ n + 1 ∧
        (apiAttempts env gidlist n { net with apiReqs := net.apiReqs ++ [gidlist] }).2 =
          { net with apiReqs := net.apiReqs ++ List.replicate k gidlist } ∧
        ((apiAttempts env gidlist n { net with apiReqs := net.apiReqs ++ [gidlist] }).1 = none
          → k = n + 1) ∧ (1 ≤ n + 1 → 1 ≤ k) := by
      refine ⟨k + 1, by omega, ?_, fun h => by rw [hnone h], fun _ => by omega⟩
      rw [hnet]
      simp [List.replicate_succ]
    have hstop : ∀ result : APIResponse, ∃ k, k ≤ n + 1 ∧
        ((some result, { net with apiReqs := net.apiReqs ++ [gidlist] }) :
          Option APIResponse × Net).2 =
          { net with apiReqs := net.apiReqs ++ List.replicate k gidlist } ∧
        (((some result, { net with apiReqs := net.apiReqs ++ [gidlist] }) :
          Option APIResponse × Net).1 = none → k = n + 1) ∧ (1 ≤ n + 1 → 1 ≤ k) :=
      fun result => ⟨1, by omega, rfl, fun h => Option.noConfusion h, fun _ => Nat.le_refl 1⟩
    unfold apiAttempts
    cases env.api net.apiReqs.length gidlist with
    | transportError e => exact hrec
    | response status body =>
      dsimp only
      split
      · exact hrec
      · cases body with
        | error e => exact hrec
        | ok b =>
          dsimp only
          cases env.unmarshal b with
          | error e => exact hrec
          | ok result => exact hstop result

/-- One call of `getMetadatas`: it is logged once, it returns either a response
and no error or no response and an error, and it sends at most `RetryCount`
requests, exactly that many when it returns an error. -/
theorem getMetadatas_net (env : Env) (batch : List PageEntry) (net : Net) :
    ∃ k, k ≤ env.RetryCount.toNat ∧
      (getMetadatas env batch net).2 =
        { net with
          apiReqs := net.apiReqs ++ List.replicate k (payloadGidlist batch)
          fetchCalls := net.fetchCalls ++ [batch] } ∧
      (((getMetadatas env batch net).1.1 = none ∧ (getMetadatas env batch net).1.2 ≠ none ∧
          k = env.RetryCount.toNat) ∨
        ((getMetadatas env batch net).1.1 ≠ none ∧ (getMetadatas env batch net).1.2 = none ∧
          1 ≤ k)) := by
  obtain ⟨k, hk, hnet, hnone, hpos⟩ := apiAttempts_net env (payloadGidlist batch)
    env.RetryCount.toNat { net with fetchCalls := net.fetchCalls ++ [batch] }
  refine ⟨k, hk, ?_, ?_⟩
  · unfold getMetadatas
    cases h : apiAttempts env (payloadGidlist batch) env.RetryCount.toNat
        { net with fetchCalls := net.fetchCalls ++ [batch] } with
    | mk r net1 =>
      rw [h] at hnet
      cases r <;> exact hnet
  · unfold getMetadatas
    cases h : apiAttempts env (payloadGidlist batch) env.RetryCount.toNat
        { net with fetchCalls := net.fetchCalls ++ [batch] } with
    | mk r net1 =>
      rw [h] at hnone
      cases r with
      | none => exact Or.inl ⟨rfl, by simp, hnone rfl⟩
      | some a =>
        refine Or.inr ⟨by simp, rfl, ?_⟩
        by_contra hlt
        have hk0 : k = 0 := by omega
        have hn0 : env.RetryCount.toNat = 0 := by
          by_contra hne
          have := hpos (by omega)
          omega
        rw [hn0] at h
        simp [apiAttempts] at h
/-- The retry loop of `importPage` for one chunk: `j` calls of `getMetadatas`
on the chunk and `k` requests to the API. -/
theorem metadataRetry_net (env : Env) (batch : List PageEntry) (m : Nat)
    (cur : Option APIResponse × Option String) (net : Net) :
    ∃ j k, j ≤ m ∧ k ≤ j * env.RetryCount.toNat ∧
      (metadataRetry env batch m cur net).2 =
        { net with
          apiReqs := net.apiReqs ++ List.replicate k (payloadGidlist batch)
          fetchCalls := net.fetchCalls ++ List.replicate j batch } ∧
      (1 ≤ m → 1 ≤ j) ∧
      (m = 0 → (metadataRetry env batch m cur net).1 = cur) ∧
      (1 ≤ m →
        (((metadataRetry env batch m cur net).1.1 = none ∧
            (metadataRetry env batch m cur net).1.2 ≠ none ∧
            j = m ∧ k = m * env.RetryCount.toNat) ∨
          ((metadataRetry env batch m cur net).1.1 ≠ none ∧
            (metadataRetry env batch m cur net).1.2 = none ∧ 1 ≤ k))) := by
  induction m generalizing cur net with
  | zero =>
    exact ⟨0, 0, Nat.le_refl 0, by simp, by simp [metadataRetry], fun h => h, fun _ => rfl,
      fun h => absurd h (by omega)⟩
  | succ m ih =>
    obtain ⟨k1, hk1, hnet1, hshape⟩ := getMetadatas_net env batch net
    unfold metadataRetry
    cases hg : getMetadatas env batch net with
    | mk res net1 =>
      rw [hg] at hnet1 hshape
      obtain ⟨r, e⟩ := res
      simp only at hnet1 hshape
      cases e with
      | none =>
        rcases hshape with ⟨-, h2, -⟩ | ⟨h1, -, h3⟩
        · exact absurd rfl h2
        · refine ⟨1, k1, by omega, by omega, ?_, fun _ => Nat.le_refl 1,
            fun h => absurd h (by omega), fun _ => Or.inr ⟨h1, rfl, h3⟩⟩
          dsimp only
          rw [hnet1]
          rfl
      | some err =>
        rcases hshape with ⟨h1, -, h3⟩ | ⟨-, h2, -⟩
        · dsimp only
          obtain ⟨j, k, hj, hk, hnet, hpos, hzero, hsh⟩ := ih (r, some err) net1
          refine ⟨j + 1, k1 + k, by omega, ?_, ?_, fun _ => by omega,
            fun h => absurd h (by omega), fun _ => ?_⟩
          · rw [h3, Nat.add_mul, Nat.one_mul]
            omega
          · rw [hnet, hnet1]
            have e1 : List.replicate k1 (payloadGidlist batch) ++ List.replicate k (payloadGidlist batch)
                = List.replicate (k1 + k) (payloadGidlist batch) := (List.replicate_add _ _ _).symm
            have e2 : [batch] ++ List.replicate j batch = List.replicate (j + 1) batch := by
              rw [List.replicate_succ]
              rfl
            simp only [List.append_assoc, e1, e2]
          · rcases Nat.eq_zero_or_pos m with hm0 | hmpos
            · subst hm0
              have hj0 : j = 0 := by omega
              have hk0 : k = 0 := by
                subst hj0
                simpa using hk
              left
              rw [hzero rfl]
              subst hj0 hk0
              exact ⟨h1, by simp, rfl, by omega⟩
            · rcases hsh hmpos with ⟨a, b, c, d⟩ | ⟨a, b, c⟩
              · left
                refine ⟨a, b, by omega, ?_⟩
                rw [d, h3, Nat.add_mul, Nat.one_mul]
                omega
              · right
                exact ⟨a, b, by omega⟩
        · cases h2

theorem apiAttempts_fail (env : Env) (gidlist : List (Int × String))
    (hfail : ∀ i, apiFails env i gidlist = true) (n : Nat) (net : Net) :
    (apiAttempts env gidlist n net).1 = none := by
  induction n generalizing net with
  | zero => rfl
  | succ n ih =>
    have hf := hfail net.apiReqs.length
    unfold apiFails at hf
    unfold apiAttempts
    cases hr : env.api net.apiReqs.length gidlist with
    | transportError e => exact ih _
    | response status body =>
      rw [hr] at hf
      dsimp only at hf ⊢
      split
      · exact ih _
      · rename_i hst
        rw [if_neg hst] at hf
        cases body with
        | error e => exact ih _
        | ok b =>
          dsimp only at hf ⊢
          cases hu : env.unmarshal b with
          | error e => exact ih _
          | ok result =>
            rw [hu] at hf
            cases hf

theorem getMetadatas_fail (env : Env) (batch : List PageEntry)
    (hfail : ∀ i, apiFails env i (payloadGidlist batch) = true) (net : Net) :
    (getMetadatas env batch net).1.1 = none := by
  have h := apiAttempts_fail env (payloadGidlist batch) hfail env.RetryCount.toNat
    { net with fetchCalls := net.fetchCalls ++ [batch] }
  unfold getMetadatas
  cases hm : apiAttempts env (payloadGidlist batch) env.RetryCount.toNat
      { net with fetchCalls := net.fetchCalls ++ [batch] } with
  | mk r net1 =>
    rw [hm] at h
    simp only at h
    subst h
    rfl

theorem metadataRetry_fail (env : Env) (batch : List PageEntry)
    (hfail : ∀ i, apiFails env i (payloadGidlist batch) = true) (m : Nat) (hm : 1 ≤ m)
    (cur : Option APIResponse × Option String) (net : Net) :
    (metadataRetry env batch m cur net).1.1 = none := by
  induction m generalizing cur net with
  | zero => omega
  | succ m ih =>
    have hg := getMetadatas_fail env batch hfail net
    unfold metadataRetry
    cases hgm : getMetadatas env batch net with
    | mk res net1 =>
      rw [hgm] at hg
      obtain ⟨r, e⟩ := res
      simp only at hg
      subst hg
      cases e with
      | none => rfl
      | some err =>
        dsimp only
        rcases Nat.eq_zero_or_pos m with h0 | hpos
        · subst h0
          rfl
        · exact ih hpos _ _

theorem importChunks_calls (env : Env) (h : 1 ≤ env.RetryCount.toNat)
    (cs : List (List PageEntry)) (cnt : Int) (net : Net) (db : Store) :
    ∃ cnt1 net1 db1 js ks,
      importChunks env cs cnt (net, db) = .ret (cnt1, (net1, db1)) ∧
      js.length = cs.length ∧ ks.length = cs.length ∧
      (∀ j ∈ js, 1 ≤ j ∧ j ≤ env.RetryCount.toNat) ∧
      (∀ k ∈ ks, k ≤ env.RetryCount.toNat * env.RetryCount.toNat) ∧
      ((∀ i p, apiFails env i p = true) →
        ∀ k ∈ ks, k = env.RetryCount.toNat * env.RetryCount.toNat) ∧
      net1.fetchCalls = net.fetchCalls ++ (List.zipWith List.replicate js cs).flatten ∧
      net1.apiReqs = net.apiReqs ++
        (List.zipWith List.replicate ks (cs.map payloadGidlist)).flatten := by
  induction cs generalizing cnt net db with
  | nil => exact ⟨cnt, net, db, [], [], rfl, rfl, rfl, by simp, by simp, by simp, by simp, by simp⟩
  | cons batch rest ih =>
    obtain ⟨j, k, hj, hk, hnet, hpos, -, hsh⟩ :=
      metadataRetry_net env batch env.RetryCount.toNat (none, none) net
    have hfc : (metadataRetry env batch env.RetryCount.toNat (none, none) net).2.fetchCalls
        = net.fetchCalls ++ List.replicate j batch := by rw [hnet]
    have hrq : (metadataRetry env batch env.RetryCount.toNat (none, none) net).2.apiReqs
        = net.apiReqs ++ List.replicate k (payloadGidlist batch) := by rw [hnet]
    have hkle : k ≤ env.RetryCount.toNat * env.RetryCount.toNat :=
      Nat.le_trans hk (Nat.mul_le_mul_right _ hj)
    have hkall : (∀ i p, apiFails env i p = true) →
        k = env.RetryCount.toNat * env.RetryCount.toNat := by
      intro hfail
      have hnone := metadataRetry_fail env batch (fun i => hfail i _) _ h (none, none) net
      rcases hsh h with ⟨-, -, -, hkn⟩ | ⟨hne, -, -⟩
      · exact hkn
      · exact absurd hnone hne
    have hcont : ∀ (cnt2 : Int) (db2 : Store), ∃ cnt1 net1 db1 js ks,
        importChunks env rest cnt2
          ((metadataRetry env batch env.RetryCount.toNat (none, none) net).2, db2)
            = .ret (cnt1, (net1, db1)) ∧
        js.length = (batch :: rest).length ∧ ks.length = (batch :: rest).length ∧
        (∀ j ∈ js, 1 ≤ j ∧ j ≤ env.RetryCount.toNat) ∧
        (∀ k ∈ ks, k ≤ env.RetryCount.toNat * env.RetryCount.toNat) ∧
        ((∀ i p, apiFails env i p = true) →
          ∀ k ∈ ks, k = env.RetryCount.toNat * env.RetryCount.toNat) ∧
        net1.fetchCalls = net.fetchCalls ++
          (List.zipWith List.replicate js (batch :: rest)).flatten ∧
        net1.apiReqs = net.apiReqs ++
          (List.zipWith List.replicate ks ((batch :: rest).map payloadGidlist)).flatten := by
      intro cnt2 db2
      obtain ⟨cnt1, net1, db1, js, ks, hrun, hjl, hkl, hjs, hks, hkf, hcalls, hreqs⟩ := ih cnt2
        (metadataRetry env batch env.RetryCount.toNat (none, none) net).2 db2
      refine ⟨cnt1, net1, db1, j :: js, k :: ks, hrun, by simp [hjl], by simp [hkl],
        ?_, ?_, ?_, ?_, ?_⟩
      · intro j1 hj1
        rcases List.mem_cons.1 hj1 with rfl | hj2
        · exact ⟨hpos h, hj⟩
        · exact hjs j1 hj2
      · intro k1 hk1
        rcases List.mem_cons.1 hk1 with rfl | hk2
        · exact hkle
        · exact hks k1 hk2
      · intro hfail k1 hk1
        rcases List.mem_cons.1 hk1 with rfl | hk2
        · exact hkall hfail
        · exact hkf hfail k1 hk2
      · rw [hcalls, hfc]
        simp [List.zipWith_cons_cons, List.append_assoc]
      · rw [hreqs, hrq]
        simp [List.zipWith_cons_cons, List.append_assoc]
    unfold importChunks
    cases hm : metadataRetry env batch env.RetryCount.toNat (none, none) net with
    | mk res net2 =>
      rw [hm] at hcont hsh
      obtain ⟨r, e⟩ := res
      simp only at hsh hcont
      cases r with
      | none =>
        cases e with
        | none =>
          rcases hsh h with ⟨-, h2, -⟩ | ⟨h1, -⟩
          · exact absurd rfl h2
          · exact absurd rfl h1
        | some err => exact hcont cnt db
      | some apiResp =>
        cases e with
        | some err => exact hcont cnt db
        | none =>
          dsimp only
          split
          · exact hcont cnt db
          · exact hcont _ _

theorem importPage_eq_importChunks (env : Env) (entries : List PageEntry) (st : Net × Store) :
    importPage env entries st =
      match importChunks env (chunks entries) 0 st with
      | .ret (pageAPIEntries, st1) => .ret ((pageAPIEntries, none), st1)
      | .panic => .panic
      | .timeout => .timeout := by
  unfold importPage
  rw [importLoop_eq_importChunks env entries (entries.length + 1) 0 0 st (by omega)]
  rfl

/-- The retry loop of `getPagesByPrev` sends `k` listing requests, all with the
cursor `prev`, and touches nothing else. -/
theorem fetchAttempts_net (env : Env) (prev : String) (m : Nat) (bodyStr : String)
    (fetchErr : Option String) (net : Net) :
    ∃ k, k ≤ m ∧ (1 ≤ m → 1 ≤ k) ∧
      (fetchAttempts env prev m bodyStr fetchErr net).2.2 =
        { net with listingReqs := net.listingReqs ++ List.replicate k prev } := by
  induction m generalizing bodyStr fetchErr net with
  | zero => exact ⟨0, Nat.le_refl 0, fun h => h, by simp [fetchAttempts]⟩
  | succ m ih =>
    have hrec : ∀ b e, ∃ k, k ≤ m + 1 ∧ (1 ≤ m + 1 → 1 ≤ k) ∧
        (fetchAttempts env prev m b e { net with listingReqs := net.listingReqs ++ [prev] }).2.2 =
          { net with listingReqs := net.listingReqs ++ List.replicate k prev } := by
      intro b e
      obtain ⟨k, hk, -, hnet⟩ := ih b e { net with listingReqs := net.listingReqs ++ [prev] }
      refine ⟨k + 1, by omega, fun _ => by omega, ?_⟩
      rw [hnet]
      have e2 : [prev] ++ List.replicate k prev = List.replicate (k + 1) prev := by
        rw [List.replicate_succ]
        rfl
      simp only [List.append_assoc, e2]
    unfold fetchAttempts
    cases env.listing net.listingReqs.length prev with
    | transportError e => exact hrec _ _
    | response status body =>
      dsimp only
      split
      · exact hrec _ _
      · cases body with
        | error e => exact hrec _ _
        | ok b => exact ⟨1, by omega, fun _ => Nat.le_refl 1, rfl⟩

/-- An error recorded by an attempt of `getPagesByPrev` is still there when the
loop ends, whatever the later attempts return. -/
theorem fetchAttempts_err_sticky (env : Env) (prev : String) (m : Nat) (bodyStr : String)
    (e : String) (net : Net) :
    ∃ e1, (fetchAttempts env prev m bodyStr (some e) net).2.1 = some e1 := by
  induction m generalizing bodyStr e net with
  | zero => exact ⟨e, rfl⟩
  | succ m ih =>
    unfold fetchAttempts
    cases env.listing net.listingReqs.length prev with
    | transportError e2 => exact ih _ _ _
    | response status body =>
      dsimp only
      split
      · exact ih _ _ _
      · cases body with
        | error e2 => exact ih _ _ _
        | ok b => exact ⟨e, rfl⟩

theorem getPagesByPrev_net (env : Env) (fuel : Nat) (prev : String) (net : Net)
    (r : List PageEntry × Option String) (net1 : Net)
    (h : getPagesByPrev env fuel prev net = some (r, net1)) :
    ∃ k, (1 ≤ env.RetryCount.toNat → 1 ≤ k) ∧
      net1.listingReqs = net.listingReqs ++ List.replicate k prev ∧
      net1.apiReqs = net.apiReqs ∧ net1.fetchCalls = net.fetchCalls := by
  induction fuel generalizing net with
  | zero => cases h
  | succ fuel ih =>
    unfold getPagesByPrev at h
    obtain ⟨k, -, hpos, hnet⟩ := fetchAttempts_net env prev env.RetryCount.toNat "" none net
    cases hf : fetchAttempts env prev env.RetryCount.toNat "" none net with
    | mk bodyStr rest =>
      obtain ⟨fetchErr, net2⟩ := rest
      rw [hf] at h hnet
      simp only at hnet
      subst hnet
      cases fetchErr with
      | some e =>
        simp only [Option.some.injEq, Prod.mk.injEq] at h
        obtain ⟨-, rfl⟩ := h
        exact ⟨k, hpos, rfl, rfl, rfl⟩
      | none =>
        dsimp only at h
        split at h
        · obtain ⟨k2, -, h1, h2, h3⟩ := ih _ h
          refine ⟨k + k2, fun hn => by have := hpos hn; omega, ?_, h2, h3⟩
          rw [h1]
          simp only
          rw [List.append_assoc, ← List.replicate_add]
        · simp only [Option.some.injEq, Prod.mk.injEq] at h
          obtain ⟨-, rfl⟩ := h
          exact ⟨k, hpos, rfl, rfl, rfl⟩

theorem pageRetry_net (env : Env) (fuel : Nat) (prev : String) (m : Nat)
    (cur : List PageEntry × Option String) (net : Net)
    (r : List PageEntry × Option String) (net1 : Net)
    (h : pageRetry env fuel prev m cur net = some (r, net1)) :
    ∃ k, (1 ≤ m → 1 ≤ env.RetryCount.toNat → 1 ≤ k) ∧
      net1.listingReqs = net.listingReqs ++ List.replicate k prev ∧
      net1.apiReqs = net.apiReqs ∧ net1.fetchCalls = net.fetchCalls ∧
      (m = 0 → r = cur) := by
  induction m generalizing cur net with
  | zero =>
    simp only [pageRetry, Option.some.injEq, Prod.mk.injEq] at h
    obtain ⟨rfl, rfl⟩ := h
    exact ⟨0, fun h => absurd h (by omega), by simp, rfl, rfl, fun _ => rfl⟩
  | succ m ih =>
    unfold pageRetry at h
    cases hg : getPagesByPrev env fuel prev net with
    | none => rw [hg] at h; cases h
    | some v =>
      obtain ⟨⟨pe, e⟩, net2⟩ := v
      obtain ⟨k, hpos, h1, h2, h3⟩ := getPagesByPrev_net env fuel prev net _ _ hg
      rw [hg] at h
      cases e with
      | none =>
        simp only [Option.some.injEq, Prod.mk.injEq] at h
        obtain ⟨-, rfl⟩ := h
        exact ⟨k, fun _ hn => hpos hn, h1, h2, h3, fun h0 => absurd h0 (by omega)⟩
      | some err =>
        dsimp only at h
        obtain ⟨k2, -, g1, g2, g3, -⟩ := ih _ _ h
        refine ⟨k + k2, fun _ hn => by have := hpos hn; omega, ?_, by rw [g2, h2], by rw [g3, h3],
          fun h0 => absurd h0 (by omega)⟩
        rw [g1, h1, List.append_assoc, ← List.replicate_add]

theorem importChunks_listingReqs (env : Env) (cs : List (List PageEntry)) (cnt : Int)
    (net : Net) (db : Store) (cnt1 : Int) (net1 : Net) (db1 : Store)
    (h : importChunks env cs cnt (net, db) = .ret (cnt1, (net1, db1))) :
    net1.listingReqs = net.listingReqs ∧ net1.cooldowns = net.cooldowns := by
  induction cs generalizing cnt net db with
  | nil =>
    simp only [importChunks, Exec.ret.injEq, Prod.mk.injEq] at h
    obtain ⟨-, rfl, -⟩ := h
    exact ⟨rfl, rfl⟩
  | cons batch rest ih =>
    obtain ⟨j, k, -, -, hnet, -⟩ :=
      metadataRetry_net env batch env.RetryCount.toNat (none, none) net
    unfold importChunks at h
    cases hm : metadataRetry env batch env.RetryCount.toNat (none, none) net with
    | mk res net2 =>
      rw [hm] at h hnet
      simp only at hnet
      have hl : net2.listingReqs = net.listingReqs ∧ net2.cooldowns = net.cooldowns := by
        rw [hnet]
        exact ⟨rfl, rfl⟩
      obtain ⟨r, e⟩ := res
      cases r with
      | none =>
        cases e with
        | none => cases h
        | some err =>
          have := ih _ _ _ h
          exact ⟨this.1.trans hl.1, this.2.trans hl.2⟩
      | some apiResp =>
        cases e with
        | some err =>
          have := ih _ _ _ h
          exact ⟨this.1.trans hl.1, this.2.trans hl.2⟩
        | none =>
          dsimp only at h
          split at h
          · have := ih _ _ _ h
            exact ⟨this.1.trans hl.1, this.2.trans hl.2⟩
          · have := ih _ _ _ h
            exact ⟨this.1.trans hl.1, this.2.trans hl.2⟩

/-- Function `run` calls `importPage` only with a retry budget of at least 1: with a
budget of 0 or less the page fetch loop does not run and leaves the list of
entries empty, which ends `run`. -/
theorem pageRetry_entries_retry_pos (env : Env) (fuel : Nat) (prev : String) (net : Net)
    (first : PageEntry) (more : List PageEntry) (net1 : Net)
    (hfetch : pageRetry env fuel prev env.RetryCount.toNat ([], none) net
      = some ((first :: more, none), net1)) :
    1 ≤ env.RetryCount := by
  obtain ⟨k, -, -, -, -, hzero⟩ := pageRetry_net env _ prev _ _ net _ _ hfetch
  by_contra hlt
  have h0 : env.RetryCount.toNat = 0 := by omega
  have := hzero h0
  simp at this

theorem runLoop_succ (env : Env) (fuel : Nat) (prev : String) (net : Net) (db : Store) :
    runLoop env (fuel + 1) prev (net, db) =
      match pageRetry env (fuel + 1) prev env.RetryCount.toNat ([], none) net with
      | none => .timeout
      | some ((_, some _), net1) => .ret (none, (net1, db))
      | some (([], none), net1) => .ret (none, (net1, db))
      | some ((first :: more, none), net1) =>
        match importPage env (first :: more) (net1, db) with
        | .ret (_, st2) => runLoop env fuel first.GID st2
        | .panic => .panic
        | .timeout => .timeout := rfl

theorem runLoopCursor_succ (env : Env) (fuel : Nat) (prev : String) (net : Net) (db : Store) :
    runLoopCursor env (fuel + 1) prev (net, db) =
      match pageRetry env (fuel + 1) prev env.RetryCount.toNat ([], none) net with
      | none => .timeout
      | some ((_, some _), net1) => .ret (prev, none, (net1, db))
      | some (([], none), net1) => .ret (prev, none, (net1, db))
      | some ((first :: more, none), net1) =>
        match importPage env (first :: more) (net1, db) with
        | .ret (_, st2) => runLoopCursor env fuel first.GID st2
        | .panic => .panic
        | .timeout => .timeout := rfl

theorem runLoop_of_page (env : Env) (fuel : Nat) (prev : String) (net : Net) (db : Store)
    (first : PageEntry) (more : List PageEntry) (net1 : Net)
    (hfetch : pageRetry env (fuel + 1) prev env.RetryCount.toNat ([], none) net
      = some ((first :: more, none), net1)) :
    ∃ (cnt : Int) (net2 : Net) (db2 : Store),
      importPage env (first :: more) (net1, db) = .ret ((cnt, none), (net2, db2)) ∧
      net2.listingReqs = net1.listingReqs ∧
      runLoop env (fuel + 1) prev (net, db) = runLoop env fuel first.GID (net2, db2) ∧
      runLoopCursor env (fuel + 1) prev (net, db)
        = runLoopCursor env fuel first.GID (net2, db2) := by
  have hn : 1 ≤ env.RetryCount.toNat := by
    have := pageRetry_entries_retry_pos env _ prev net first more net1 hfetch
    omega
  obtain ⟨cnt1, net2, db2, js, ks, hrun, -⟩ :=
    importChunks_calls env hn (chunks (first :: more)) 0 net1 db
  have himp : importPage env (first :: more) (net1, db) = .ret ((cnt1, none), (net2, db2)) := by
    rw [importPage_eq_importChunks, hrun]
  refine ⟨cnt1, net2, db2, himp, (importChunks_listingReqs env _ _ _ _ _ _ _ hrun).1, ?_, ?_⟩
  · rw [runLoop_succ, hfetch]
    dsimp only
    rw [himp]
  · rw [runLoopCursor_succ, hfetch]
    dsimp only
    rw [himp]

theorem runLoop_of_last_page (env : Env) (fuel : Nat) (prev : String) (net : Net) (db : Store)
    (r : List PageEntry × Option String) (net1 : Net)
    (hfetch : pageRetry env (fuel + 1) prev env.RetryCount.toNat ([], none) net = some (r, net1))
    (hr : r.1 = [] ∨ r.2 ≠ none) :
    runLoop env (fuel + 1) prev (net, db) = .ret (none, (net1, db)) ∧
    runLoopCursor env (fuel + 1) prev (net, db) = .ret (prev, none, (net1, db)) := by
  obtain ⟨entries, e⟩ := r
  rw [runLoop_succ, runLoopCursor_succ, hfetch]
  cases e with
  | some e => cases entries <;> exact ⟨rfl, rfl⟩
  | none =>
    cases entries with
    | nil => exact ⟨rfl, rfl⟩
    | cons a l =>
      rcases hr with h | h
      · cases h
      · exact absurd rfl h

/-- C5: when the page fetch of an iteration of `run` returns a non-empty list
of entries, the page is imported (whatever the metadata API and the store do)
and the cursor becomes the id of the first entry of that list: the next
iteration runs with it, every listing request of the next page fetch carries it
as `prev` (and there is at least one), and when that fetch ends the loop (empty
page or error) `run` returns with the cursor still equal to that id; when it
returns another page, the cursor moves on to the id of its first entry. -/
theorem runLoop_cursor_advance (env : Env) (fuel : Nat) (prev : String) (net : Net) (db : Store)
    (first : PageEntry) (more : List PageEntry) (net1 : Net)
    (hfetch : pageRetry env (fuel + 2) prev env.RetryCount.toNat ([], none) net
      = some ((first :: more, none), net1)) :
    ∃ (cnt : Int) (net2 : Net) (db2 : Store),
      importPage env (first :: more) (net1, db) = .ret ((cnt, none), (net2, db2)) ∧
      net2.listingReqs = net1.listingReqs ∧
      runLoop env (fuel + 2) prev (net, db) = runLoop env (fuel + 1) first.GID (net2, db2) ∧
      runLoopCursor env (fuel + 2) prev (net, db)
        = runLoopCursor env (fuel + 1) first.GID (net2, db2) ∧
      (∀ fuel2 r net3,
        pageRetry env fuel2 first.GID env.RetryCount.toNat ([], none) net2 = some (r, net3) →
        ∃ k, 1 ≤ k ∧ net3.listingReqs = net2.listingReqs ++ List.replicate k first.GID) ∧
      (∀ r net3,
        pageRetry env (fuel + 1) first.GID env.RetryCount.toNat ([], none) net2 = some (r, net3) →
        r.1 = [] ∨ r.2 ≠ none →
        runLoop env (fuel + 2) prev (net, db) = .ret (none, (net3, db2)) ∧
        runLoopCursor env (fuel + 2) prev (net, db) = .ret (first.GID, none, (net3, db2))) ∧
      (∀ next rest net3,
        pageRetry env (fuel + 1) first.GID env.RetryCount.toNat ([], none) net2
          = some ((next :: rest, none), net3) →
        ∃ (cnt3 : Int) (net4 : Net) (db4 : Store),
          importPage env (next :: rest) (net3, db2) = .ret ((cnt3, none), (net4, db4)) ∧
          runLoop env (fuel + 2) prev (net, db) = runLoop env fuel next.GID (net4, db4) ∧
          runLoopCursor env (fuel + 2) prev (net, db)
            = runLoopCursor env fuel next.GID (net4, db4)) := by
  have hn : 1 ≤ env.RetryCount.toNat := by
    have := pageRetry_entries_retry_pos env _ prev net first more net1 hfetch
    omega
  obtain ⟨cnt, net2, db2, himp, hreq, hl, hc⟩ :=
    runLoop_of_page env (fuel + 1) prev net db first more net1 hfetch
  refine ⟨cnt, net2, db2, himp, hreq, hl, hc, ?_, ?_, ?_⟩
  · intro fuel2 r net3 h3
    obtain ⟨k, hpos, hk, -⟩ := pageRetry_net env fuel2 first.GID _ _ net2 _ _ h3
    exact ⟨k, hpos hn hn, hk⟩
  · intro r net3 h3 hr
    rw [hl, hc]
    exact runLoop_of_last_page env fuel first.GID net2 db2 r net3 h3 hr
  · intro next rest net3 h3
    obtain ⟨cnt3, net4, db4, himp3, -, hl3, hc3⟩ :=
      runLoop_of_page env fuel first.GID net2 db2 next rest net3 h3
    exact ⟨cnt3, net4, db4, himp3, hl.trans hl3, hc.trans hc3⟩

set_option maxRecDepth 8192 in
/-- C5 (witness): from cursor "0" the site answers with a page whose entries
have ids 500, 480, 460; the next listing request carries `prev` = "500", is
answered with an empty page, and `run` returns with cursor "500". -/
theorem runLoop_cursor_advance_witness :
    pageRetry twoPageEnv (0 + 2) "0" twoPageEnv.RetryCount.toNat ([], none) emptyNet
      = some ((sampleListing, none), { emptyNet with listingReqs := ["0"] }) ∧
    runLoop twoPageEnv (0 + 2) "0" (emptyNet, emptyStore)
      = .ret (none,
          ({ listingReqs := ["0", "500"],
             apiReqs := [[(500, "0123456789"), (480, "0123456789"), (460, "0123456789")]],
             fetchCalls := [sampleListing], cooldowns := [] }, emptyStore)) ∧
    runLoopCursor twoPageEnv (0 + 2) "0" (emptyNet, emptyStore)
      = .ret ("500", none,
          ({ listingReqs := ["0", "500"],
             apiReqs := [[(500, "0123456789"), (480, "0123456789"), (460, "0123456789")]],
             fetchCalls := [sampleListing], cooldowns := [] }, emptyStore)) := by
  have hfetch : pageRetry twoPageEnv (0 + 2) "0" twoPageEnv.RetryCount.toNat ([], none) emptyNet
      = some ((sampleListing, none), { emptyNet with listingReqs := ["0"] }) := by
    rfl
  obtain ⟨cnt, net2, db2, himp, -, -, -, -, hlast, -⟩ :=
    runLoop_cursor_advance twoPageEnv 0 "0" emptyNet emptyStore
      { GID := "500", Token := "0123456789", Posted := "2024-01-03 10:00" }
      [{ GID := "480", Token := "0123456789", Posted := "2024-01-02 10:00" },
       { GID := "460", Token := "0123456789", Posted := "2024-01-01 10:00" }]
      { emptyNet with listingReqs := ["0"] } hfetch
  have hval : importPage twoPageEnv sampleListing ({ emptyNet with listingReqs := ["0"] }, emptyStore)
      = .ret ((0, none),
          ({ listingReqs := ["0"],
             apiReqs := [[(500, "0123456789"), (480, "0123456789"), (460, "0123456789")]],
             fetchCalls := [sampleListing], cooldowns := [] }, emptyStore)) := by
    rfl
  have heq := himp.symm.trans hval
  simp only [Exec.ret.injEq, Prod.mk.injEq] at heq
  obtain ⟨-, rfl, rfl⟩ := heq
  exact ⟨hfetch, hlast ([], none) _ (by rfl) (Or.inl rfl)⟩

/-- The defect behind C6 in general: whenever the loop of `run` ends, the error
`run` returns is `nil`, also when the loop ended on a failed page fetch. -/
theorem runLoop_returns_nil (env : Env) (fuel : Nat) (prev : String) (st : Net × Store)
    (r : Option String) (st1 : Net × Store)
    (h : runLoop env fuel prev st = .ret (r, st1)) : r = none := by
  induction fuel generalizing prev st with
  | zero => cases h
  | succ fuel ih =>
    obtain ⟨net, db⟩ := st
    unfold runLoop at h
    cases hp : pageRetry env (fuel + 1) prev env.RetryCount.toNat ([], none) net with
    | none => rw [hp] at h; cases h
    | some v =>
      obtain ⟨⟨pe, e⟩, net1⟩ := v
      rw [hp] at h
      cases pe with
      | nil =>
        cases e with
        | none =>
          simp only [Exec.ret.injEq, Prod.mk.injEq] at h
          exact h.1.symm
        | some err =>
          simp only [Exec.ret.injEq, Prod.mk.injEq] at h
          exact h.1.symm
      | cons first more =>
        cases e with
        | some err =>
          simp only [Exec.ret.injEq, Prod.mk.injEq] at h
          exact h.1.symm
        | none =>
          dsimp only at h
          cases hi : importPage env (first :: more) (net1, db) with
          | ret v2 =>
            rw [hi] at h
            exact ih _ _ h
          | panic => rw [hi] at h; cases h
          | timeout => rw [hi] at h; cases h

/-- C6 (the code at the failing input): with a retry budget of 3 and a listing
endpoint that never answers, `run` stops after the 9 requests of the first page
fetch, and what it returns is `nil`, so the process exits with code 0. -/
theorem run_swallows_fetch_error :
    run (deadEnv 3) 0 5 (emptyNet, emptyStore) =
      .ret (none, ({ emptyNet with listingReqs := List.replicate 9 "0" }, emptyStore)) ∧
    exitCode none = 0 := by
  constructor <;> rfl

/-- C7 (the code at the failing input): with a retry budget of 2, a first
attempt that fails on transport and a second attempt that is answered with
status 200 and a listing, `getPagesByPrev` returns the error of the first
attempt and no entry. -/
theorem getPagesByPrev_error_after_success :
    getPagesByPrev flakyEnv 1 "0" emptyNet =
      some (([], some "timeout"), { emptyNet with listingReqs := ["0", "0"] }) := by
  rfl

/-- The defect behind C7 in general: when the first attempt fails on transport,
`getPagesByPrev` returns an error whatever the later attempts get. -/
theorem getPagesByPrev_error_of_first_failure (env : Env) (fuel : Nat) (prev : String)
    (net : Net) (e : String) (hn : 1 ≤ env.RetryCount.toNat)
    (h1 : env.listing net.listingReqs.length prev = .transportError e) :
    ∃ e1 net1, getPagesByPrev env (fuel + 1) prev net = some (([], some e1), net1) := by
  obtain ⟨m, hm⟩ : ∃ m, env.RetryCount.toNat = m + 1 := ⟨env.RetryCount.toNat - 1, by omega⟩
  unfold getPagesByPrev
  rw [hm]
  unfold fetchAttempts
  rw [h1]
  dsimp only
  obtain ⟨e1, he1⟩ := fetchAttempts_err_sticky env prev m "" e
    { net with listingReqs := net.listingReqs ++ [prev] }
  cases hf : fetchAttempts env prev m "" (some e)
      { net with listingReqs := net.listingReqs ++ [prev] } with
  | mk b rest =>
    obtain ⟨fe, net1⟩ := rest
    rw [hf] at he1
    simp only at he1
    subst he1
    exact ⟨e1, net1, rfl⟩

/-! ## Start cursor -/

theorem maxRowBy_none {α : Type} (f : α → Int) (l : List α) (h : maxRowBy f l = none) :
    l = [] := by
  cases l with
  | nil => rfl
  | cons r rs =>
    unfold maxRowBy at h
    split at h
    · cases h
    · split at h <;> cases h

theorem maxRowBy_some {α : Type} (f : α → Int) (l : List α) (m : α)
    (h : maxRowBy f l = some m) : m ∈ l ∧ ∀ x ∈ l, f x ≤ f m := by
  induction l generalizing m with
  | nil => cases h
  | cons r rs ih =>
    unfold maxRowBy at h
    split at h
    · rename_i hn
      cases h
      have hnil := maxRowBy_none f rs hn
      subst hnil
      exact ⟨List.mem_cons_self _ _, fun x hx => by simp at hx; subst hx; exact Int.le_refl _⟩
    · rename_i m1 hm1
      obtain ⟨hmem, hmax⟩ := ih m1 hm1
      split at h
      · rename_i hgt
        cases h
        refine ⟨List.mem_cons_of_mem _ hmem, fun x hx => ?_⟩
        rcases List.mem_cons.1 hx with rfl | hx1
        · omega
        · exact hmax x hx1
      · rename_i hle
        cases h
        refine ⟨List.mem_cons_self _ _, fun x hx => ?_⟩
        rcases List.mem_cons.1 hx with rfl | hx1
        · exact Int.le_refl _
        · have := hmax x hx1
          omega

/-- C8 (counterexample): rows (id 1, posted 300) and (id 2, posted 100), offset
5124095576030431 hours.  `offset * 3600` overflows 64 bits to -16, so the code
compares with 316 and returns id 1; with the threshold of the claim,
300 - 5124095576030431 * 3600, no row qualifies and the greatest stored id is 2. -/
theorem getOffsetGid_overflow :
    getOffsetGid (storeOf [sampleRow 1 300, sampleRow 2 100]) 5124095576030431 = (1, none) ∧
    (∀ r ∈ (storeOf [sampleRow 1 300, sampleRow 2 100]).gallery,
      ¬ r.posted ≤ 300 - 5124095576030431 * 3600) ∧
    (∀ r ∈ (storeOf [sampleRow 1 300, sampleRow 2 100]).gallery, r.posted ≤ 300 ∧ r.gid ≤ 2) := by
  decide

/-- C8 (amended): for a store whose greatest `posted` is `L` and an offset of
`offset > 0` hours such that `offset * 3600` and `T = L - offset * 3600` fit a
64-bit signed integer, `getOffsetGid` returns without error the id of a stored
entity with `posted ≤ T` whose `posted` is greatest among those, when there is
one, and the greatest stored id when there is none. -/
theorem getOffsetGid_spec (db : Store) (offset L : Int) (hpos : 0 < offset)
    (hL : (∃ r ∈ db.gallery, r.posted = L) ∧ ∀ r ∈ db.gallery, r.posted ≤ L)
    (hmul : offset * 3600 < 2 ^ 63)
    (hlo : -(2 ^ 63) ≤ L - offset * 3600) (hhi : L - offset * 3600 < 2 ^ 63) :
    ∃ g, getOffsetGid db offset = (g, none) ∧
      ((∃ r ∈ db.gallery, r.posted ≤ L - offset * 3600) →
        ∃ r ∈ db.gallery, r.gid = g ∧ r.posted ≤ L - offset * 3600 ∧
          ∀ x ∈ db.gallery, x.posted ≤ L - offset * 3600 → x.posted ≤ r.posted) ∧
      ((¬ ∃ r ∈ db.gallery, r.posted ≤ L - offset * 3600) →
        ∃ r ∈ db.gallery, r.gid = g ∧ ∀ x ∈ db.gallery, x.gid ≤ r.gid) := by
  obtain ⟨⟨r0, hr0, hr0L⟩, hLmax⟩ := hL
  have hne : db.gallery ≠ [] := List.ne_nil_of_mem hr0
  -- the newest `posted`
  have hlatest : db.queryLatestPosted = .ok L := by
    unfold Store.queryLatestPosted
    cases hm : maxRowBy GalleryRow.posted db.gallery with
    | none => exact absurd (maxRowBy_none _ _ hm) hne
    | some m =>
      obtain ⟨hmem, hmax⟩ := maxRowBy_some _ _ m hm
      have h1 := hLmax m hmem
      have h2 := hmax r0 hr0
      have : m.posted = L := by omega
      simp [this]
  have hthr : wrapInt64 (L - wrapInt64 (offset * 3600)) = L - offset * 3600 := by
    rw [wrapInt64_of_range (offset * 3600) (by omega) hmul]
    exact wrapInt64_of_range _ hlo hhi
  unfold getOffsetGid
  rw [hlatest]
  dsimp only
  rw [hthr]
  unfold Store.queryGidPostedAtMost
  cases hq : maxRowBy GalleryRow.posted
      (db.gallery.filter (fun r => decide (r.posted ≤ L - offset * 3600))) with
  | some m =>
    obtain ⟨hmem, hmax⟩ := maxRowBy_some _ _ m hq
    have hm := List.mem_filter.1 hmem
    have hmT : m.posted ≤ L - offset * 3600 := by simpa using hm.2
    refine ⟨m.gid, rfl, fun _ => ⟨m, hm.1, rfl, hmT, fun x hx hxT => ?_⟩, fun hnone => ?_⟩
    · exact hmax x (List.mem_filter.2 ⟨hx, by simpa using hxT⟩)
    · exact absurd ⟨m, hm.1, hmT⟩ hnone
  | none =>
    have hfil := maxRowBy_none _ _ hq
    have hnoq : ¬ ∃ r ∈ db.gallery, r.posted ≤ L - offset * 3600 := by
      rintro ⟨r, hr, hrT⟩
      have : r ∈ db.gallery.filter (fun r => decide (r.posted ≤ L - offset * 3600)) :=
        List.mem_filter.2 ⟨hr, by simpa using hrT⟩
      rw [hfil] at this
      cases this
    dsimp only
    unfold getLastGid Store.queryLastGid
    cases hg : maxRowBy GalleryRow.gid db.gallery with
    | none => exact absurd (maxRowBy_none _ _ hg) hne
    | some m =>
      obtain ⟨hmem, hmax⟩ := maxRowBy_some _ _ m hg
      exact ⟨m.gid, rfl, fun hq1 => absurd hq1 hnoq, fun _ => ⟨m, hmem, rfl, hmax⟩⟩

/-- C8 (witness): posted values 100, 200, 300 at ids 1, 2, 3 and a 1-hour
offset: the threshold is 300 - 3600, no row qualifies, the start id is 3. -/
theorem getOffsetGid_spec_witness :
    getOffsetGid (storeOf [sampleRow 1 100, sampleRow 2 200, sampleRow 3 300]) 1 = (3, none) ∧
    ∃ g, getOffsetGid (storeOf [sampleRow 1 100, sampleRow 2 200, sampleRow 3 300]) 1
        = (g, none) ∧
      ((∃ r ∈ (storeOf [sampleRow 1 100, sampleRow 2 200, sampleRow 3 300]).gallery,
          r.posted ≤ 300 - 1 * 3600) →
        ∃ r ∈ (storeOf [sampleRow 1 100, sampleRow 2 200, sampleRow 3 300]).gallery,
          r.gid = g ∧ r.posted ≤ 300 - 1 * 3600 ∧
          ∀ x ∈ (storeOf [sampleRow 1 100, sampleRow 2 200, sampleRow 3 300]).gallery,
            x.posted ≤ 300 - 1 * 3600 → x.posted ≤ r.posted) ∧
      ((¬ ∃ r ∈ (storeOf [sampleRow 1 100, sampleRow 2 200, sampleRow 3 300]).gallery,
          r.posted ≤ 300 - 1 * 3600) →
        ∃ r ∈ (storeOf [sampleRow 1 100, sampleRow 2 200, sampleRow 3 300]).gallery,
          r.gid = g ∧
          ∀ x ∈ (storeOf [sampleRow 1 100, sampleRow 2 200, sampleRow 3 300]).gallery,
            x.gid ≤ r.gid) :=
  ⟨by decide,
    getOffsetGid_spec (storeOf [sampleRow 1 100, sampleRow 2 200, sampleRow 3 300]) 1 300
      (by decide) (by decide) (by decide) (by decide) (by decide)⟩

/-! ## Ingestion -/

theorem upsertGallery_eq (db : Store) (row : GalleryRow) :
    db.upsertGallery row = .ok { db with gallery := upsertRows db.gallery row } := by
  unfold Store.upsertGallery upsertRows
  split <;> rfl

theorem overwrite_gid (row r : GalleryRow) : (overwrite row r).gid = r.gid := by
  unfold overwrite
  split
  · rename_i h
    exact (beq_iff_eq.1 h).symm
  · rfl

theorem overwrite_of_eq (row r : GalleryRow) (h : r.gid = row.gid) :
    overwrite row r = { row with bytorrent := r.bytorrent } := by
  unfold overwrite
  rw [if_pos (beq_iff_eq.2 h)]

theorem any_gid_iff (rows : List GalleryRow) (g : Int) :
    rows.any (fun r => r.gid == g) = true ↔ g ∈ rows.map GalleryRow.gid := by
  rw [List.any_eq_true, List.mem_map]
  constructor
  · rintro ⟨r, hr, hg⟩
    exact ⟨r, hr, beq_iff_eq.1 hg⟩
  · rintro ⟨r, hr, hg⟩
    exact ⟨r, hr, beq_iff_eq.2 hg⟩

theorem saveRecord_of_not_ok (db : Store) (r : GalleryMetadata)
    (hp : ∀ p, parseInt64 r.Posted ≠ .ok p) : saveRecord db r = db := by
  unfold saveRecord saveGallery
  cases h : parseInt64 r.Posted with
  | ok p => exact absurd h (hp p)
  | outOfRange c => rfl
  | badFormat => rfl

theorem saveGallery_of_not_ok (db : Store) (r : GalleryMetadata)
    (hp : ∀ p, parseInt64 r.Posted ≠ .ok p) : ∃ e, saveGallery r db = (some e, db) := by
  unfold saveGallery
  cases h : parseInt64 r.Posted with
  | ok p => exact absurd h (hp p)
  | outOfRange c => exact ⟨_, rfl⟩
  | badFormat => exact ⟨_, rfl⟩

theorem saveGallery_of_ok (db : Store) (r : GalleryMetadata) (p : Int)
    (hp : parseInt64 r.Posted = .ok p) :
    saveGallery r db = (none, { db with gallery := upsertRows db.gallery (galleryRow r p) }) := by
  unfold saveGallery
  rw [hp]
  dsimp only
  rw [upsertGallery_eq]

/-- A record that `saveRecord` leaves out can be taken out of the batch. -/
theorem foldl_saveRecord_skip (r : GalleryMetadata) (hr : ∀ db, saveRecord db r = db)
    (db0 : Store) (pre post : List GalleryMetadata) :
    (pre ++ r :: post).foldl saveRecord db0 = (pre ++ post).foldl saveRecord db0 := by
  rw [List.foldl_append, List.foldl_append, List.foldl_cons, hr]

/-- After an upsert of `row`, every stored row with its id holds the columns of
`row`, except `bytorrent`. -/
theorem upsertRows_columns (rows : List GalleryRow) (row x : GalleryRow)
    (hx : x ∈ upsertRows rows row) (hg : x.gid = row.gid) :
    x = { row with bytorrent := x.bytorrent } := by
  unfold upsertRows at hx
  split at hx
  · obtain ⟨y, _, rfl⟩ := List.mem_map.1 hx
    have hy : y.gid = row.gid := by rw [← overwrite_gid row y]; exact hg
    rw [overwrite_of_eq row y hy]
  · rename_i hany
    rcases List.mem_append.1 hx with h1 | h1
    · exact absurd ((any_gid_iff rows row.gid).2 (hg ▸ List.mem_map_of_mem _ h1)) hany
    · rw [List.mem_singleton] at h1
      subst h1
      rfl

/-- The value `strconv.Atoi` returns with a range error is one of the two bounds
of the 64-bit range. -/
theorem atoi_outOfRange (s : String) (c : Int) (h : atoi s = .outOfRange c) :
    c = 2 ^ 63 - 1 ∨ c = -(2 ^ 63) := by
  have key : ∀ (neg : Bool) (cs : List Char),
      (match (neg, cs) with
        | (_, []) => ParseOutcome.badFormat
        | (neg, cs) =>
          match parseUintFrom 0 cs with
          | .badFormat => .badFormat
          | .outOfRange => if neg then .outOfRange (-(2 ^ 63)) else .outOfRange (2 ^ 63 - 1)
          | .ok n =>
            if neg then
              if n > 2 ^ 63 then .outOfRange (-(2 ^ 63)) else .ok (-(n : Int))
            else
              if n ≥ 2 ^ 63 then .outOfRange (2 ^ 63 - 1) else .ok (n : Int))
        = ParseOutcome.outOfRange c → c = 2 ^ 63 - 1 ∨ c = -(2 ^ 63) := by
    intro neg cs h1
    cases cs with
    | nil => cases h1
    | cons a t =>
      dsimp only at h1
      cases hu : parseUintFrom 0 (a :: t) with
      | badFormat => rw [hu] at h1; cases h1
      | outOfRange =>
        rw [hu] at h1
        cases neg with
        | true =>
          cases h1
          exact Or.inr rfl
        | false =>
          cases h1
          exact Or.inl rfl
      | ok n =>
        rw [hu] at h1
        cases neg with
        | true =>
          dsimp only at h1
          rw [if_pos rfl] at h1
          split at h1
          · cases h1
            exact Or.inr rfl
          · cases h1
        | false =>
          dsimp only at h1
          rw [if_neg (by decide)] at h1
          split at h1
          · cases h1
            exact Or.inl rfl
          · cases h1
  unfold atoi parseInt64 at h
  exact key _ _ h

theorem storedLeniently_value (s : String) : StoredLeniently s (atoi s).value := by
  refine ⟨fun n h => ?_, fun h => ?_, fun c h => ⟨?_, atoi_outOfRange s c h⟩⟩
  · rw [h]
    rfl
  · rw [h]
    rfl
  · rw [h]
    rfl

/-- A record whose `posted` does not parse as a base-10 64-bit integer makes
`saveGallery` return an error and leaves the store as it was (no entity row,
sub-entity, tag or link), and the other records of the batch are ingested as
if it were absent. -/
theorem saveRecord_skips_bad_posted (db : Store) (r : GalleryMetadata)
    (hp : ∀ p, parseInt64 r.Posted ≠ .ok p) :
    (∃ e, saveGallery r db = (some e, db)) ∧
    saveRecord db r = db ∧
    ∀ (db0 : Store) (pre post : List GalleryMetadata),
      (pre ++ r :: post).foldl saveRecord db0 = (pre ++ post).foldl saveRecord db0 :=
  ⟨saveGallery_of_not_ok db r hp, saveRecord_of_not_ok db r hp,
    fun db0 pre post => foldl_saveRecord_skip r (fun d => saveRecord_of_not_ok d r hp) db0 pre post⟩

/-- The counts and the root id among the arguments of the `INSERT` statement of
`saveGallery`: the number when the text parses, 0 when `strconv.Atoi` reports a
syntax error (or the root id is empty), and the bound of the 64-bit range that
`Atoi` returns when it reports a range error. -/
theorem galleryRow_lenient (r : GalleryMetadata) (p : Int) :
    (galleryRow r p).posted = p ∧
    StoredLeniently r.Filecount (galleryRow r p).filecount ∧
    StoredLeniently r.Torrentcount (galleryRow r p).torrentcount ∧
    (r.ParentGid = "" → (galleryRow r p).root_gid = 0) ∧
    (r.ParentGid ≠ "" → StoredLeniently r.ParentGid (galleryRow r p).root_gid) := by
  have h4 : (galleryRow r p).root_gid =
      if r.ParentGid != "" then (atoi r.ParentGid).value else 0 := rfl
  refine ⟨rfl, storedLeniently_value _, storedLeniently_value _, fun he => ?_, fun hne => ?_⟩
  · rw [h4, he]
    rfl
  · rw [h4, if_pos (by simpa using hne)]
    exact storedLeniently_value _

/-- C11 (the code at the failing input): for the record with `posted` "100" and
`filecount` "99999999999999999999", `strconv.Atoi` reports a range error on
the `filecount`; `saveGallery` discards that error and hands the value `Atoi`
returned with it, 9223372036854775807, to the `INSERT` statement as the
`filecount`, where the specification says a count that fails to parse falls
back to 0.  Whether `saveGallery` then returns an error is the store's answer
to that statement; the store modelled here keeps the value. -/
theorem saveGallery_huge_filecount :
    parseInt64 hugeCountRecord.Posted = .ok 100 ∧
    atoi hugeCountRecord.Filecount = .outOfRange 9223372036854775807 ∧
    (atoi hugeCountRecord.Filecount).isErr = true ∧
    (galleryRow hugeCountRecord 100).filecount = 9223372036854775807 ∧
    (∀ db : Store, saveGallery hugeCountRecord db =
      match db.upsertGallery (galleryRow hugeCountRecord 100) with
      | .error e =>
        (some ("inserting gallery gid " ++ toString hugeCountRecord.Gid ++ ": " ++ e.text), db)
      | .ok db1 => (none, db1)) ∧
    (saveGallery hugeCountRecord emptyStore).2.gallery.map GalleryRow.filecount
      = [9223372036854775807] :=
  ⟨by decide, by decide, by decide, by decide, fun _ => rfl, by decide⟩

/-! ## The empty page -/

theorem runLoop_eq_cursor (env : Env) (fuel : Nat) (prev : String) (st : Net × Store) :
    runLoop env fuel prev st =
      match runLoopCursor env fuel prev st with
      | .ret (_, r) => .ret r
      | .panic => .panic
      | .timeout => .timeout := by
  induction fuel generalizing prev st with
  | zero => rfl
  | succ fuel ih =>
    obtain ⟨net, db⟩ := st
    unfold runLoop runLoopCursor
    cases hp : pageRetry env (fuel + 1) prev env.RetryCount.toNat ([], none) net with
    | none => rfl
    | some r =>
      obtain ⟨⟨entries, e⟩, net1⟩ := r
      cases e with
      | some e => cases entries <;> rfl
      | none =>
        cases entries with
        | nil => rfl
        | cons first more =>
          dsimp only
          cases hi : importPage env (first :: more) (net1, db) with
          | ret a => exact ih _ _
          | panic => rfl
          | timeout => rfl

/-- C12: for every cursor `prev`, when the page fetch of an iteration of the
loop of `run` succeeds with zero entries, the loop is left in that iteration
and `run` returns `nil`; the only requests sent are the listing requests of
that fetch, all with cursor `prev`; no request to the metadata API is sent,
`getMetadatas` is not called, the store is the one before the iteration, and
the cursor is still `prev`. -/
theorem runLoop_empty_page (env : Env) (fuel : Nat) (prev : String) (net net1 : Net)
    (db : Store)
    (hpage : pageRetry env (fuel + 1) prev env.RetryCount.toNat ([], none) net
      = some (([], none), net1)) :
    runLoopCursor env (fuel + 1) prev (net, db) = .ret (prev, none, (net1, db)) ∧
    runLoop env (fuel + 1) prev (net, db) = .ret (none, (net1, db)) ∧
    (∃ k, net1.listingReqs = net.listingReqs ++ List.replicate k prev) ∧
    net1.apiReqs = net.apiReqs ∧ net1.fetchCalls = net.fetchCalls ∧
    (∀ (offset startGid : Int),
      (if offset > 0 then getOffsetGid db offset else getLastGid db) = (startGid, none) →
      prev = toString startGid →
      run env offset (fuel + 1) (net, db) = .ret (none, (net1, db))) := by
  have hc : runLoopCursor env (fuel + 1) prev (net, db) = .ret (prev, none, (net1, db)) := by
    unfold runLoopCursor
    rw [hpage]
  have hl : runLoop env (fuel + 1) prev (net, db) = .ret (none, (net1, db)) := by
    unfold runLoop
    rw [hpage]
  obtain ⟨k, -, hq, ha, hf, -⟩ := pageRetry_net env (fuel + 1) prev env.RetryCount.toNat
    ([], none) net ([], none) net1 hpage
  refine ⟨hc, hl, ⟨k, hq⟩, ha, hf, fun offset startGid hs hprev => ?_⟩
  unfold run
  dsimp only
  rw [hs]
  dsimp only
  rw [← hprev]
  exact hl

/-- C12 (witness): with cursor "777", an empty store and a site that answers
with a page listing no gallery, one listing request is sent and the loop is
left with cursor "777". -/
theorem runLoop_empty_page_witness :
    pageRetry emptyPageEnv (0 + 1) "777" emptyPageEnv.RetryCount.toNat ([], none) emptyNet
      = some (([], none), { emptyNet with listingReqs := ["777"] }) ∧
    runLoopCursor emptyPageEnv (0 + 1) "777" (emptyNet, emptyStore)
      = .ret ("777", none, ({ emptyNet with listingReqs := ["777"] }, emptyStore)) :=
  have hpage : pageRetry emptyPageEnv (0 + 1) "777" emptyPageEnv.RetryCount.toNat ([], none)
      emptyNet = some (([], none), { emptyNet with listingReqs := ["777"] }) := by
    rfl
  ⟨hpage, (runLoop_empty_page emptyPageEnv 0 "777" emptyNet _ emptyStore hpage).1⟩

/-! ## Decimal rendering of a number -/

theorem digitChar_digit (k : Nat) (hk : k < 10) :
    isDigit (Nat.digitChar k) = true ∧ (Nat.digitChar k).toNat - 48 = k := by
  interval_cases k <;> exact ⟨by decide, by decide⟩

theorem natOfDigits_snoc (l : List Char) (d : Char) :
    natOfDigits (l ++ [d]) = natOfDigits l * 10 + (d.toNat - 48) := by
  unfold natOfDigits
  rw [List.foldl_append]
  rfl

theorem toDigitsCore_digits (fuel n : Nat) (ds : List Char) (h : n < fuel) :
    ∃ l, Nat.toDigitsCore 10 fuel n ds = l ++ ds ∧ l ≠ [] ∧
      (∀ d ∈ l, isDigit d = true) ∧ natOfDigits l = n := by
  induction fuel generalizing n ds with
  | zero => omega
  | succ fuel ih =>
    have hd := digitChar_digit (n % 10) (Nat.mod_lt n (by omega))
    unfold Nat.toDigitsCore
    dsimp only
    by_cases h0 : n / 10 = 0
    · rw [if_pos h0]
      refine ⟨[Nat.digitChar (n % 10)], rfl, by simp, ?_, ?_⟩
      · intro d hmem
        rw [List.mem_singleton] at hmem
        rw [hmem]
        exact hd.1
      · have : natOfDigits [Nat.digitChar (n % 10)] = (Nat.digitChar (n % 10)).toNat - 48 := by
          simp [natOfDigits]
        rw [this, hd.2]
        omega
    · rw [if_neg h0]
      obtain ⟨l, hl, -, hdig, hval⟩ := ih (n / 10) (Nat.digitChar (n % 10) :: ds) (by omega)
      refine ⟨l ++ [Nat.digitChar (n % 10)], ?_, by simp, ?_, ?_⟩
      · rw [hl]
        simp
      · intro d hmem
        rcases List.mem_append.1 hmem with hm | hm
        · exact hdig d hm
        · rw [List.mem_singleton] at hm
          rw [hm]
          exact hd.1
      · rw [natOfDigits_snoc, hval, hd.2]
        omega

theorem toString_digits (n : Nat) :
    ∃ c t, (toString n).toList = c :: t ∧ (∀ d ∈ c :: t, isDigit d = true) ∧
      natOfDigits (c :: t) = n := by
  obtain ⟨l, hl, hne, hdig, hval⟩ := toDigitsCore_digits (n + 1) n [] (by omega)
  have hs : (toString n).toList = l := by
    rw [List.append_nil] at hl
    exact hl
  cases l with
  | nil => exact absurd rfl hne
  | cons c t => exact ⟨c, t, hs, hdig, hval⟩

/-! ## The word `and` before a component other than the seconds -/

theorem foldEq_not_s (p : Char) (hp : p = 'd' ∨ p = 'h' ∨ p = 'm') (x : Char)
    (h : foldEq p x = true) : foldEq 's' x = false := by
  rcases foldEq_cases p x h with hx | hx | hx | hx
  · rcases hp with rfl | rfl | rfl <;> rw [hx] <;> decide
  · rcases hp with rfl | rfl | rfl <;> rw [hx] <;> decide
  · subst hx
    rcases hp with rfl | rfl | rfl <;> revert h <;> decide
  · subst hx
    rcases hp with rfl | rfl | rfl <;> revert h <;> decide

theorem stripFold_head (p : Char) (ps s r : List Char) (h : stripFold (p :: ps) s = some r) :
    ∃ x t, s = x :: t ∧ foldEq p x = true := by
  cases s with
  | nil => cases h
  | cons x t =>
    refine ⟨x, t, rfl, ?_⟩
    by_contra hx
    simp only [stripFold, if_neg hx] at h
    cases h

theorem readComponent_second_none (u : String) (p : Char) (ps : List Char)
    (hu : u.toList = p :: ps) (hp : p = 'd' ∨ p = 'h' ∨ p = 'm') (s : List Char)
    (h : (readComponent u s).isSome = true) : readComponent "second" s = none := by
  unfold readComponent at h ⊢
  cases hd : s.takeWhile isDigit with
  | nil => rfl
  | cons d ds =>
    rw [hd] at h
    dsimp only at h ⊢
    cases hs : stripFold u.toList (skipSpaces (s.dropWhile isDigit)) with
    | none =>
      rw [hs] at h
      cases h
    | some r =>
      rw [hu] at hs
      obtain ⟨x, t, hx, hf⟩ := stripFold_head p ps _ r hs
      rw [hx]
      have : stripFold "second".toList (x :: t) = none := by
        show (if foldEq 's' x then stripFold "econd".toList t else none) = none
        rw [foldEq_not_s p hp x hf]
        rfl
      rw [this]

theorem andBeforeComponent_seconds (s : List Char) (h : andBeforeComponent s = true) :
    (optComponent "second" (skipAnd s)).1 = [] := by
  unfold andBeforeComponent at h
  unfold skipAnd optComponent
  cases hs : stripFold "and".toList s with
  | none =>
    rw [hs] at h
    cases h
  | some r =>
    rw [hs] at h
    dsimp only at h ⊢
    have hnone : readComponent "second" (skipSpaces r) = none := by
      simp only [List.any_cons, List.any_nil, Bool.or_false, Bool.or_eq_true] at h
      rcases h with h | h | h
      · exact readComponent_second_none "day" 'd' "ay".toList rfl (Or.inl rfl) _ h
      · exact readComponent_second_none "hour" 'h' "our".toList rfl (Or.inr (Or.inl rfl)) _ h
      · exact readComponent_second_none "minute" 'm' "inute".toList rfl (Or.inr (Or.inr rfl)) _ h
    rw [hnone]

theorem noticeTexts_seconds_eq (s0 : List Char) :
    (noticeTexts s0).2.2.2 = (optComponent "second" (skipAnd (afterMinutes s0))).1 := rfl

theorem extractBanCooldown_and_general (body : String) (s0 : List Char)
    (hs0 : afterFirstNotice body.toList = some s0)
    (hand : andBeforeComponent (afterMinutes s0) = true) (d h m s : Nat)
    (hn : firstNotice body = some (d, h, m, s)) :
    s = 0 ∧
    (d * 86400 + h * 3600 + m * 60 + 10 < 2 ^ 63 →
      extractBanCooldown body =
        if 0 < d * 86400 + h * 3600 + m * 60 then
          (true, ((d * 86400 + h * 3600 + m * 60 + 10 : Nat) : Int))
        else (false, 0)) := by
  have hsec : s = 0 := by
    unfold firstNotice at hn
    rw [hs0] at hn
    simp only [Option.map_some', Option.some.injEq, Prod.mk.injEq] at hn
    rw [← hn.2.2.2, noticeTexts_seconds_eq, andBeforeComponent_seconds _ hand]
    rfl
  refine ⟨hsec, fun hb => ?_⟩
  subst hsec
  have key := extractBanCooldown_of_notice body d h m 0 hn (by omega)
  rw [Nat.add_zero] at key
  exact key

theorem takeWhile_digits (ds : List Char) (hd : ∀ d ∈ ds, isDigit d = true) (x : Char)
    (r : List Char) (hx : isDigit x = false) :
    (ds ++ x :: r).takeWhile isDigit = ds ∧ (ds ++ x :: r).dropWhile isDigit = x :: r := by
  induction ds with
  | nil => simp [List.takeWhile, List.dropWhile, hx]
  | cons d ds ih =>
    have h1 : isDigit d = true := hd d (List.mem_cons_self d ds)
    have h2 := ih (fun y hy => hd y (List.mem_cons_of_mem d hy))
    simp [List.takeWhile, List.dropWhile, h1, h2.1, h2.2]

theorem readComponent_digits_app (unit : String) (c : Char) (t : List Char)
    (hd : ∀ d ∈ c :: t, isDigit d = true) (x : Char) (r : List Char) (hx : isDigit x = false) :
    readComponent unit ((c :: t) ++ x :: r) =
      match stripFold unit.toList (skipSpaces (x :: r)) with
      | none => none
      | some q =>
        match q with
        | [] => some (c :: t, [])
        | y :: q1 => if foldEq 's' y then some (c :: t, q1) else some (c :: t, y :: q1) := by
  obtain ⟨h1, h2⟩ := takeWhile_digits (c :: t) hd x r hx
  unfold readComponent
  rw [h1, h2]

theorem skipSpaces_digit (c : Char) (t : List Char) (hc : isDigit c = true) :
    skipSpaces (c :: t) = c :: t := by
  simp [skipSpaces, List.dropWhile, isSpace_of_isDigit c hc]

theorem noticeTexts_days_and_hours (ca : Char) (ta : List Char) (cb : Char) (tb : List Char)
    (ha : ∀ d ∈ ca :: ta, isDigit d = true) (hb : ∀ d ∈ cb :: tb, isDigit d = true) :
    noticeTexts (' ' :: ((ca :: ta) ++ (" days and ".toList ++ ((cb :: tb) ++ " hours".toList))))
      = (ca :: ta, [], [], []) := by
  have hca : isDigit ca = true := ha ca (List.mem_cons_self ca ta)
  have hcb : isDigit cb = true := hb cb (List.mem_cons_self cb tb)
  have e0 : skipSpaces (' ' :: ((ca :: ta) ++ (" days and ".toList ++ ((cb :: tb) ++ " hours".toList))))
      = (ca :: ta) ++ ' ' :: ("days and ".toList ++ ((cb :: tb) ++ " hours".toList)) :=
    skipSpaces_digit ca _ hca
  have e1 : optComponent "day" ((ca :: ta) ++ ' ' :: ("days and ".toList ++ ((cb :: tb) ++ " hours".toList)))
      = (ca :: ta, " and ".toList ++ ((cb :: tb) ++ " hours".toList)) := by
    unfold optComponent
    rw [readComponent_digits_app "day" ca ta ha ' ' _ (by decide)]
    rfl
  have e2 : skipSpaces (" and ".toList ++ ((cb :: tb) ++ " hours".toList))
      = 'a' :: ("nd ".toList ++ ((cb :: tb) ++ " hours".toList)) := rfl
  have e3 : ∀ u, optComponent u ('a' :: ("nd ".toList ++ ((cb :: tb) ++ " hours".toList)))
      = ([], 'a' :: ("nd ".toList ++ ((cb :: tb) ++ " hours".toList))) := by
    intro u
    unfold optComponent
    rw [readComponent_of_not_digit u 'a' _ (by decide)]
  have e4 : skipSpaces ('a' :: ("nd ".toList ++ ((cb :: tb) ++ " hours".toList)))
      = 'a' :: ("nd ".toList ++ ((cb :: tb) ++ " hours".toList)) := rfl
  have e5 : skipAnd ('a' :: ("nd ".toList ++ ((cb :: tb) ++ " hours".toList)))
      = (cb :: tb) ++ ' ' :: "hours".toList := by
    show skipSpaces (' ' :: ((cb :: tb) ++ " hours".toList)) = _
    exact skipSpaces_digit cb _ hcb
  have e6 : optComponent "second" ((cb :: tb) ++ ' ' :: "hours".toList) = ([], (cb :: tb) ++ ' ' :: "hours".toList) := by
    unfold optComponent
    rw [readComponent_digits_app "second" cb tb hb ' ' _ (by decide)]
    rfl
  unfold noticeTexts
  simp only [e0, e1, e2, e3, e4, e5, e6]

theorem noticeTexts_hours_and_minutes (ca : Char) (ta : List Char) (cb : Char) (tb : List Char)
    (ha : ∀ d ∈ ca :: ta, isDigit d = true) (hb : ∀ d ∈ cb :: tb, isDigit d = true) :
    noticeTexts (' ' :: ((ca :: ta) ++ (" hours and ".toList ++ ((cb :: tb) ++ " minutes".toList))))
      = ([], ca :: ta, [], []) := by
  have hca : isDigit ca = true := ha ca (List.mem_cons_self ca ta)
  have hcb : isDigit cb = true := hb cb (List.mem_cons_self cb tb)
  have e0 : skipSpaces (' ' :: ((ca :: ta) ++ (" hours and ".toList ++ ((cb :: tb) ++ " minutes".toList))))
      = (ca :: ta) ++ ' ' :: ("hours and ".toList ++ ((cb :: tb) ++ " minutes".toList)) :=
    skipSpaces_digit ca _ hca
  have e1 : optComponent "day" ((ca :: ta) ++ ' ' :: ("hours and ".toList ++ ((cb :: tb) ++ " minutes".toList)))
      = ([], (ca :: ta) ++ ' ' :: ("hours and ".toList ++ ((cb :: tb) ++ " minutes".toList))) := by
    unfold optComponent
    rw [readComponent_digits_app "day" ca ta ha ' ' _ (by decide)]
    rfl
  have e1b : skipSpaces ((ca :: ta) ++ ' ' :: ("hours and ".toList ++ ((cb :: tb) ++ " minutes".toList)))
      = (ca :: ta) ++ ' ' :: ("hours and ".toList ++ ((cb :: tb) ++ " minutes".toList)) :=
    skipSpaces_digit ca _ hca
  have e1c : optComponent "hour" ((ca :: ta) ++ ' ' :: ("hours and ".toList ++ ((cb :: tb) ++ " minutes".toList)))
      = (ca :: ta, " and ".toList ++ ((cb :: tb) ++ " minutes".toList)) := by
    unfold optComponent
    rw [readComponent_digits_app "hour" ca ta ha ' ' _ (by decide)]
    rfl
  have e2 : skipSpaces (" and ".toList ++ ((cb :: tb) ++ " minutes".toList))
      = 'a' :: ("nd ".toList ++ ((cb :: tb) ++ " minutes".toList)) := rfl
  have e3 : ∀ u, optComponent u ('a' :: ("nd ".toList ++ ((cb :: tb) ++ " minutes".toList)))
      = ([], 'a' :: ("nd ".toList ++ ((cb :: tb) ++ " minutes".toList))) := by
    intro u
    unfold optComponent
    rw [readComponent_of_not_digit u 'a' _ (by decide)]
  have e4 : skipSpaces ('a' :: ("nd ".toList ++ ((cb :: tb) ++ " minutes".toList)))
      = 'a' :: ("nd ".toList ++ ((cb :: tb) ++ " minutes".toList)) := rfl
  have e5 : skipAnd ('a' :: ("nd ".toList ++ ((cb :: tb) ++ " minutes".toList)))
      = (cb :: tb) ++ ' ' :: "minutes".toList := by
    show skipSpaces (' ' :: ((cb :: tb) ++ " minutes".toList)) = _
    exact skipSpaces_digit cb _ hcb
  have e6 : optComponent "second" ((cb :: tb) ++ ' ' :: "minutes".toList)
      = ([], (cb :: tb) ++ ' ' :: "minutes".toList) := by
    unfold optComponent
    rw [readComponent_digits_app "second" cb tb hb ' ' _ (by decide)]
    rfl
  unfold noticeTexts
  simp only [e0, e1, e1b, e1c, e2, e3, e4, e5, e6]

theorem afterFirstNotice_opening (rest : List Char) :
    afterFirstNotice ("The ban expires in".toList ++ rest) = some rest := rfl

theorem notice_toList (a b : Nat) (w1 w2 : String) :
    ("The ban expires in " ++ toString a ++ w1 ++ toString b ++ w2).toList
      = "The ban expires in".toList
          ++ (' ' :: ((toString a).toList ++ (w1.toList ++ ((toString b).toList ++ w2.toList)))) := by
  simp only [String.toList, String.data_append, List.append_assoc]
  rfl

theorem extractBanCooldown_days_and_hours (a b : Nat) (ha : 0 < a) (hr : a * 86400 + 10 < 2 ^ 63) :
    extractBanCooldown ("The ban expires in " ++ toString a ++ " days and " ++ toString b ++ " hours")
      = (true, ((a * 86400 + 10 : Nat) : Int)) := by
  obtain ⟨ca, ta, hA, hdA, hvA⟩ := toString_digits a
  obtain ⟨cb, tb, hB, hdB, -⟩ := toString_digits b
  have hn : firstNotice ("The ban expires in " ++ toString a ++ " days and " ++ toString b ++ " hours")
      = some (a, 0, 0, 0) := by
    unfold firstNotice
    rw [notice_toList, afterFirstNotice_opening, hA, hB, Option.map_some',
      noticeTexts_days_and_hours ca ta cb tb hdA hdB, hvA]
    rfl
  have key := extractBanCooldown_of_notice _ a 0 0 0 hn (by omega)
  have e : a * 86400 + 0 * 3600 + 0 * 60 + 0 = a * 86400 := by omega
  rw [e] at key
  rw [key, if_pos (by omega)]

theorem extractBanCooldown_hours_and_minutes (a b : Nat) (ha : 0 < a)
    (hr : a * 3600 + 10 < 2 ^ 63) :
    extractBanCooldown
        ("The ban expires in " ++ toString a ++ " hours and " ++ toString b ++ " minutes")
      = (true, ((a * 3600 + 10 : Nat) : Int)) := by
  obtain ⟨ca, ta, hA, hdA, hvA⟩ := toString_digits a
  obtain ⟨cb, tb, hB, hdB, -⟩ := toString_digits b
  have hn : firstNotice
      ("The ban expires in " ++ toString a ++ " hours and " ++ toString b ++ " minutes")
      = some (0, a, 0, 0) := by
    unfold firstNotice
    rw [notice_toList, afterFirstNotice_opening, hA, hB, Option.map_some',
      noticeTexts_hours_and_minutes ca ta cb tb hdA hdB, hvA]
    rfl
  have key := extractBanCooldown_of_notice _ 0 a 0 0 hn (by omega)
  have e : 0 * 86400 + a * 3600 + 0 * 60 + 0 = a * 3600 := by omega
  rw [e] at key
  rw [key, if_pos (by omega)]

/-- C13 (counterexample): with `a = 99999999999999999999` and `b = 5` the notice
"The ban expires in <a> days and <b> hours" yields `(false, 0)`, not
`(true, a*86400 + 10)`: `strconv.Atoi` rejects the days, which then count as 0. -/
theorem extractBanCooldown_and_huge_days :
    "The ban expires in " ++ toString (99999999999999999999 : Nat) ++ " days and "
        ++ toString (5 : Nat) ++ " hours"
      = "The ban expires in 99999999999999999999 days and 5 hours" ∧
    extractBanCooldown "The ban expires in 99999999999999999999 days and 5 hours"
      = (false, 0) := by
  decide

/-- C13 (amended): in a notice in which the word `and` follows the leading days,
hours and minutes and precedes a component of days, hours or minutes, the
pattern finds no seconds, and the wait is computed from the leading components
`d`, `h`, `m` alone: `(true, d*86400 + h*3600 + m*60 + 10)` when that sum is
positive and fits a 64-bit signed integer.  In particular, for every `a, b > 0`
with `a*86400 + 10 < 2^63`, "The ban expires in <a> days and <b> hours" yields
`(true, a*86400 + 10)`, and for every `a, b > 0` with `a*3600 + 10 < 2^63`,
"The ban expires in <a> hours and <b> minutes" yields `(true, a*3600 + 10)`;
both waits are shorter than the announced ban. -/
theorem extractBanCooldown_and_spec :
    (∀ (body : String) (s0 : List Char) (d h m s : Nat),
      afterFirstNotice body.toList = some s0 →
      andBeforeComponent (afterMinutes s0) = true →
      firstNotice body = some (d, h, m, s) →
      s = 0 ∧
      (d * 86400 + h * 3600 + m * 60 + 10 < 2 ^ 63 →
        extractBanCooldown body =
          if 0 < d * 86400 + h * 3600 + m * 60 then
            (true, ((d * 86400 + h * 3600 + m * 60 + 10 : Nat) : Int))
          else (false, 0))) ∧
    (∀ a b : Nat, 0 < a → 0 < b → a * 86400 + 10 < 2 ^ 63 →
      extractBanCooldown
          ("The ban expires in " ++ toString a ++ " days and " ++ toString b ++ " hours")
        = (true, ((a * 86400 + 10 : Nat) : Int)) ∧
      a * 86400 + 10 < a * 86400 + b * 3600) ∧
    (∀ a b : Nat, 0 < a → 0 < b → a * 3600 + 10 < 2 ^ 63 →
      extractBanCooldown
          ("The ban expires in " ++ toString a ++ " hours and " ++ toString b ++ " minutes")
        = (true, ((a * 3600 + 10 : Nat) : Int)) ∧
      a * 3600 + 10 < a * 3600 + b * 60) :=
  ⟨fun body s0 d h m s hs0 hand hn => extractBanCooldown_and_general body s0 hs0 hand d h m s hn,
    fun a b ha hb hr => ⟨extractBanCooldown_days_and_hours a b ha hr, by omega⟩,
    fun a b ha hb hr => ⟨extractBanCooldown_hours_and_minutes a b ha hr, by omega⟩⟩

/-- C13 (witness): "The ban expires in 3 days and 5 hours" yields a wait of
259210 seconds, and "The ban expires in 1 day and 2 hours 3 minutes" one of
86410 seconds. -/
theorem extractBanCooldown_and_spec_witness :
    (0 < 3 ∧ 0 < 5 ∧ 3 * 86400 + 10 < 2 ^ 63 ∧
      extractBanCooldown
          ("The ban expires in " ++ toString 3 ++ " days and " ++ toString 5 ++ " hours")
        = (true, ((3 * 86400 + 10 : Nat) : Int))) ∧
    (afterFirstNotice "The ban expires in 1 day and 2 hours 3 minutes".toList
        = some " 1 day and 2 hours 3 minutes".toList ∧
      andBeforeComponent (afterMinutes " 1 day and 2 hours 3 minutes".toList) = true ∧
      firstNotice "The ban expires in 1 day and 2 hours 3 minutes" = some (1, 0, 0, 0) ∧
      extractBanCooldown "The ban expires in 1 day and 2 hours 3 minutes" = (true, 86410)) :=
  ⟨⟨by decide, by decide, by decide,
      (extractBanCooldown_and_spec.2.1 3 5 (by decide) (by decide) (by decide)).1⟩,
    by decide, by decide, by decide,
    ((extractBanCooldown_and_spec.1 "The ban expires in 1 day and 2 hours 3 minutes"
      " 1 day and 2 hours 3 minutes".toList 1 0 0 0 (by decide) (by decide) (by decide)).2
      (by decide)).trans (by decide)⟩

end EhSync

